import Mathlib

/-!
# aero-ros-pkg: trajectory dispatch layer (`RobotInterface.cc`)

A shallow embedding of `aero_ros_controller/src/RobotInterface.cc`.

* The C++ `double` is a type parameter `α`.  Values are only copied by most of
  the code below, so nothing but a zero (the value `std::vector::resize`
  fills new slots with) is asked of `α`; the waypoint clock of
  `send_angle_vector_sequence` also asks for an addition.
* `std::vector<T>` is `List T`.
* `std::map<std::string, T>` is `StdMap T`: a list of key/value pairs that
  `operator[]` keeps in ascending key order, which is the order the
  `begin() .. end()` loops of the source visit.
* `ros::Time` and `ros::Duration` are seconds in `α`; `ros::Duration(d)` is `d`.
* The controller endpoint of a `TrajectoryClient` is the list of goals handed
  to `sendGoal`, oldest first.  Objects are values: the shared pointers of the
  registry are not modelled.
* The waiting and cancelling code compares and subtracts times and names the
  literal `0.000001`: there `α` is a linear ordered field.
-/

namespace robot_interface

/-! ## `std::map<std::string, T>` -/

/-- Model of `std::map<std::string, β>`: key/value pairs, ascending in the key. -/
abbrev StdMap (β : Type) := List (String × β)

/-- Lexicographic comparison of two character sequences by character code, as
`std::string::compare` does. -/
def ltChars : List Char → List Char → Bool
  | [], [] => false
  | [], _ :: _ => true
  | _ :: _, [] => false
  | a :: as, b :: bs =>
    if a.toNat < b.toNat then true
    else if b.toNat < a.toNat then false
    else ltChars as bs

/-- Model of `operator<` on `std::string`, the key order of `std::map`. -/
def strLt (a b : String) : Bool := ltChars a.data b.data

namespace StdMap

variable {β : Type}

/-- Model of `m.find(k)`: `none` stands for `m.end()`, `some v` for an iterator
whose `second` is `v`. -/
def find : StdMap β → String → Option β
  | [], _ => none
  | (k', v') :: rest, k => if k = k' then some v' else find rest k

/-- Model of `m[k] = v`: overwrite the value of a present key, otherwise insert
the pair at its place in the key order. -/
def insert : StdMap β → String → β → StdMap β
  | [], k, v => [(k, v)]
  | (k', v') :: rest, k, v =>
    if k = k' then (k, v) :: rest
    else if strLt k k' then (k, v) :: (k', v') :: rest
    else (k', v') :: insert rest k v

/-- Model of `m.clear()`. -/
def clear (_m : StdMap β) : StdMap β := []

/-- The name `k` is a key of the map. -/
def contains (m : StdMap β) (k : String) : Bool := (m.find k).isSome

end StdMap

/-! ## `std::vector` helpers -/

/-- Model of `v.resize(n)` on a `std::vector<double>`: keep the first `n`
elements, fill up with value-initialised (zero) elements. -/
def resize {α : Type} [Zero α] (v : List α) (n : Nat) : List α :=
  v.take n ++ List.replicate (n - v.length) 0

/-- `joint_angle_map`: joint name to angle. -/
abbrev joint_angle_map (α : Type) := StdMap α

/-- `angle_vector`: angles, index-aligned with a joint list. -/
abbrev angle_vector (α : Type) := List α

/-! ## TrajectoryBase -/

/-- The data members of `TrajectoryBase` used by the code below. -/
structure TrajectoryBase (α : Type) where
  name_ : String
  joint_list_ : List String
  start_offset_ : α
  goal_time_tolerance_ : α
deriving DecidableEq

namespace TrajectoryBase

variable {α : Type} [Zero α]

/-- One pass of the `for` loop of `convertToAngleVector`, at index `i`, on the
pair (`result`, `_av`). -/
def convertStep (joint_list_ : List String) (_jmap : joint_angle_map α)
    (st : Bool × angle_vector α) (i : Nat) : Bool × angle_vector α :=
  match _jmap.find (joint_list_.getD i "") with
  | some second => (true, st.2.set i second)
  | none => st

/-- `TrajectoryBase::convertToAngleVector(const joint_angle_map &_jmap, angle_vector &_av)`:
the returned pair is the `bool` result and the final contents of `_av`. -/
def convertToAngleVector (self : TrajectoryBase α) (_jmap : joint_angle_map α)
    (_av : angle_vector α) : Bool × angle_vector α :=
  let av0 := if _av.length ≠ self.joint_list_.length
    then resize _av self.joint_list_.length else _av
  (List.range self.joint_list_.length).foldl
    (convertStep self.joint_list_ _jmap) (false, av0)

/-- The loop `for (i < size) jmap[_names[i]] = _positions[i]` of the
(names, positions) overload, started on the map `jmap`. -/
def fillMap (_names : List String) (_positions : List α) (size : Nat)
    (jmap : joint_angle_map α) : joint_angle_map α :=
  (List.range size).foldl
    (fun m i => m.insert (_names.getD i "") (_positions.getD i 0)) jmap

/-- `TrajectoryBase::convertToAngleVector(_names, _positions, _av)`. -/
def convertToAngleVector_names (self : TrajectoryBase α) (_names : List String)
    (_positions : List α) (_av : angle_vector α) : Bool × angle_vector α :=
  let size := min _names.length _positions.length
  if size = 0 then (false, _av)
  else self.convertToAngleVector (fillMap _names _positions size []) _av

/-- `TrajectoryBase::convertToMap(_av, _jmap)`: the `bool` result and the final
contents of `_jmap`. -/
def convertToMap (self : TrajectoryBase α) (_av : angle_vector α)
    (_jmap : joint_angle_map α) : Bool × joint_angle_map α :=
  let size := min _av.length self.joint_list_.length
  if size = 0 then (false, _jmap)
  else (true, (List.range size).foldl
    (fun m i => m.insert (self.joint_list_.getD i "") (_av.getD i 0)) _jmap.clear)

end TrajectoryBase

/-! ## Trajectory goals -/

/-- The fields of `trajectory_msgs::JointTrajectoryPoint` that the code fills in. -/
structure JointTrajectoryPoint (α : Type) where
  positions : List α
  time_from_start : α
deriving DecidableEq

/-- The fields of `control_msgs::FollowJointTrajectoryGoal` that the code fills
in: `trajectory.header.stamp`, `trajectory.joint_names`, `trajectory.points`
and `goal_time_tolerance`.  `path_tolerance` and `goal_tolerance` are always
resized to length 0 and are left out. -/
structure FollowJointTrajectoryGoal (α : Type) where
  stamp : α
  joint_names : List String
  points : List (JointTrajectoryPoint α)
  goal_time_tolerance : α
deriving DecidableEq

/-- The fields of `control_msgs::JointTrajectoryControllerState` that the code
reads: `joint_names`, `desired.positions` and `actual.positions`. -/
structure JointTrajectoryControllerState (α : Type) where
  joint_names : List String
  desired_positions : List α
  actual_positions : List α
deriving DecidableEq

/-! ## TrajectoryClient -/

/-- A `TrajectoryClient`: its `TrajectoryBase` part, the flag `sending_goal_`
and, for the action endpoint, the goals handed to `sendGoal`, oldest first. -/
structure TrajectoryClient (α : Type) extends TrajectoryBase α where
  sending_goal_ : Bool
  sent_goals : List (FollowJointTrajectoryGoal α)
  current_state_ : JointTrajectoryControllerState α :=
    { joint_names := [], desired_positions := [], actual_positions := [] }
deriving DecidableEq

namespace TrajectoryClient

variable {α : Type} [Zero α]

/-- Model of `setName(_key)`. -/
def setName (self : TrajectoryClient α) (_key : String) : TrajectoryClient α :=
  { self with name_ := _key }

/-- Model of `getJointNames()`. -/
def getJointNames (self : TrajectoryClient α) : List String := self.joint_list_

/-- Model of `sendGoal(goal, ...)`: the goal reaches the endpoint. -/
def sendGoal (self : TrajectoryClient α) (goal : FollowJointTrajectoryGoal α) :
    TrajectoryClient α :=
  { self with sent_goals := self.sent_goals ++ [goal] }

/-- The loop `positions.resize(jsize); for (j < jsize) positions[j] = _av[j]`. -/
def copyPositions (jsize : Nat) (_av : angle_vector α) : List α :=
  (List.range jsize).foldl (fun positions j => positions.set j (_av.getD j 0))
    (resize [] jsize)

/-- `TrajectoryClient::send_angle_vector(_av, _tm, _start)`. -/
def send_angle_vector (self : TrajectoryClient α) (_av : angle_vector α)
    (_tm _start : α) : TrajectoryClient α :=
  if _av.length ≠ self.joint_list_.length then self
  else
    let jsize := self.joint_list_.length
    let goal : FollowJointTrajectoryGoal α :=
      { stamp := _start
        joint_names := self.joint_list_
        points := [{ positions := copyPositions jsize _av, time_from_start := _tm }]
        goal_time_tolerance := self.goal_time_tolerance_ }
    ({ self with sending_goal_ := true }).sendGoal goal

/-- The waypoint loop of `send_angle_vector_sequence` from index `i` on, with
the running `duration` and the number `todo` of passes still to run
(`_av_seq.size() - i`); `none` is the early `return` on a vector of the wrong
size, `some pts` the points `i ..` written when the loop runs to its end. -/
def sequencePoints [Add α] (jsize : Nat) (_av_seq : List (angle_vector α))
    (_tm_seq : List α) : Nat → Nat → α → Option (List (JointTrajectoryPoint α))
  | 0, _, _ => some []
  | todo + 1, i, duration =>
    if jsize ≠ (_av_seq.getD i []).length then none
    else
      let duration := duration + _tm_seq.getD i 0
      match sequencePoints jsize _av_seq _tm_seq todo (i + 1) duration with
      | none => none
      | some pts =>
        some ({ positions := copyPositions jsize (_av_seq.getD i []),
                time_from_start := duration } :: pts)

/-- `TrajectoryClient::send_angle_vector_sequence(_av_seq, _tm_seq, _start)`. -/
def send_angle_vector_sequence [Add α] (self : TrajectoryClient α)
    (_av_seq : List (angle_vector α)) (_tm_seq : List α) (_start : α) :
    TrajectoryClient α :=
  if _av_seq.length ≠ _tm_seq.length then self
  else
    match sequencePoints self.joint_list_.length _av_seq _tm_seq _av_seq.length 0 0 with
    | none => self
    | some pts =>
      let goal : FollowJointTrajectoryGoal α :=
        { stamp := _start
          joint_names := self.joint_list_
          points := pts
          goal_time_tolerance := self.goal_time_tolerance_ }
      ({ self with sending_goal_ := true }).sendGoal goal

end TrajectoryClient

/-! ## RobotInterface -/

/-- The data members of `RobotInterface` used by the code below: the registry
`controllers_` and the whole-robot joint ordering `joint_list_`. -/
structure RobotInterface (α : Type) where
  controllers_ : StdMap (TrajectoryClient α)
  joint_list_ : List String
deriving DecidableEq

namespace RobotInterface

variable {α : Type} [Zero α]

/-- The state the constructor leaves: no controller, `joint_list_.resize(0)`. -/
def init : RobotInterface α := { controllers_ := [], joint_list_ := [] }

/-- `RobotInterface::add_controller(_key, _p, _update_joint_list)`: the `bool`
result and the state after the call. -/
def add_controller (self : RobotInterface α) (_key : String) (_p : TrajectoryClient α)
    (_update_joint_list : Bool) : Bool × RobotInterface α :=
  match self.controllers_.find _key with
  | none =>
    (true,
      { controllers_ := self.controllers_.insert _key (_p.setName _key)
        joint_list_ :=
          if _update_joint_list then self.joint_list_ ++ _p.getJointNames
          else self.joint_list_ })
  | some _ => (false, self)

/-- The body of the loop of `send_angle_vector(_av, _tm, _start)` for one
controller `c` (`it->second`). -/
def sendToController (joint_list_ : List String) (_av : angle_vector α) (_tm _start : α)
    (c : TrajectoryClient α) : TrajectoryClient α :=
  let controller_av : angle_vector α := []
  match c.toTrajectoryBase.convertToAngleVector_names joint_list_ _av controller_av with
  | (true, controller_av) => c.send_angle_vector controller_av _tm _start
  | (false, _) => c

/-- `RobotInterface::send_angle_vector(_av, _tm, _start)`: every controller of
the registry, in key order. -/
def send_angle_vector (self : RobotInterface α) (_av : angle_vector α) (_tm _start : α) :
    RobotInterface α :=
  { self with
    controllers_ := self.controllers_.map
      (fun kv => (kv.1, sendToController self.joint_list_ _av _tm _start kv.2)) }

end RobotInterface

/-! ## Joint ordering of the coordinator -/

namespace RobotInterface

variable {α : Type}

/-- The inner loop of `defineJointList`: `found` after the controllers were
searched for `jname`, stopping at the first whose joint names hold it. -/
def jointFound (jname : String) : StdMap (TrajectoryClient α) → Bool
  | [] => false
  | kv :: rest => if jname ∈ kv.2.getJointNames then true else jointFound jname rest

/-- The outer loop of `defineJointList`: `false` is the `return false` at the
first name that is not found, `true` the end of the loop. -/
def allJointsFound (controllers_ : StdMap (TrajectoryClient α)) : List String → Bool
  | [] => true
  | jname :: rest =>
    if !jointFound jname controllers_ then false else allJointsFound controllers_ rest

/-- `RobotInterface::defineJointList(_jl)`: the `bool` result and the state
after the call. -/
def defineJointList (self : RobotInterface α) (_jl : List String) :
    Bool × RobotInterface α :=
  if allJointsFound self.controllers_ _jl then (true, { self with joint_list_ := _jl })
  else (false, self)

/-- `RobotInterface::updateJointList()`: every controller's joint names are
appended, in the order of the registry. -/
def updateJointList (self : RobotInterface α) : Bool × RobotInterface α :=
  (true, self.controllers_.foldl
    (fun ri kv => { ri with joint_list_ := ri.joint_list_ ++ kv.2.getJointNames }) self)

/-- The loop of `updateJointList(_controller_names_list)` over the names still
to visit: a found controller's joint names are appended, the first name that is
not found returns `false` with what was appended so far. -/
def updateJointListLoop (self : RobotInterface α) : List String → Bool × RobotInterface α
  | [] => (true, self)
  | nm :: rest =>
    match self.controllers_.find nm with
    | some c =>
      updateJointListLoop { self with joint_list_ := self.joint_list_ ++ c.getJointNames } rest
    | none => (false, self)

/-- `RobotInterface::updateJointList(_controller_names_list)`. -/
def updateJointList_names (self : RobotInterface α) (_controller_names_list : List String) :
    Bool × RobotInterface α :=
  updateJointListLoop self _controller_names_list

end RobotInterface

/-! ## Waiting for the channels

The clock and the action endpoints are outside the code.  One coordinator
call is run against an `Env`: the value of every reading of
`ros::Time::now()` and the result of every channel wait, by their number in
call order, and the goal state of every channel.  A `Log` counts the readings
and the waits and lists the calls made on the channels. -/

/-- `actionlib::SimpleClientGoalState::StateEnum`. -/
inductive SimpleClientGoalState where
  | PENDING | ACTIVE | RECALLED | REJECTED | PREEMPTED | ABORTED | SUCCEEDED | LOST
deriving DecidableEq

/-- A call on a channel: `wait_interpolation(tm)` or `cancel_angle_vector(wait)`
on the channel of that name. -/
inductive Event (α : Type) where
  | wait (name : String) (tm : α)
  | cancel (name : String) (wait : Bool)
deriving DecidableEq

/-- The channel a call is made on. -/
def Event.name {α : Type} : Event α → String
  | Event.wait name _ => name
  | Event.cancel name _ => name

/-- What the world answers during one call. -/
structure Env (α : Type) where
  now : Nat → α
  waitResult : Nat → Bool
  getState : String → SimpleClientGoalState

/-- What happened so far: the number of clock readings, the number of channel
waits, and the calls on the channels, oldest first. -/
structure Log (α : Type) where
  reads : Nat
  waits : Nat
  events : List (Event α)
deriving DecidableEq

namespace TrajectoryClient

variable {α : Type}

/-- Modelled from the spec: `TrajectoryClient::wait_interpolation(tm)` is
declared in the header `RobotInterface.hh`, which is not among the sources; it
blocks until the endpoint reports completion or the timeout elapses and returns
false on timeout.  Its result is what the world answers to the wait. -/
def wait_interpolation (env : Env α) (self : TrajectoryClient α) (_tm : α) (log : Log α) :
    Bool × Log α :=
  (env.waitResult log.waits,
    { log with waits := log.waits + 1, events := log.events ++ [Event.wait self.name_ _tm] })

/-- `TrajectoryClient::interpolatingp()`: the goal state is `ACTIVE`. -/
def interpolatingp (env : Env α) (self : TrajectoryClient α) : Bool :=
  decide (env.getState self.name_ = SimpleClientGoalState.ACTIVE)

/-- `TrajectoryClient::cancel_angle_vector(_wait)`; `tm_default` is the default
argument of `wait_interpolation`, which the header declares. -/
def cancel_angle_vector (env : Env α) (tm_default : α) (self : TrajectoryClient α)
    (_wait : Bool) (log : Log α) : Log α :=
  let log := { log with events := log.events ++ [Event.cancel self.name_ _wait] }
  if _wait then (self.wait_interpolation env tm_default log).2 else log

end TrajectoryClient

namespace RobotInterface

variable {α : Type} [LinearOrderedField α]

/-- The remaining time a later channel is handed: `diff`, or a very short time
when `diff <= 0.0`. -/
def remainTime (diff : α) : α := if diff ≤ 0 then 0.000001 else diff

/-- The timeout of the `i`-th channel wait of a waiting loop as the
specification words it: the first wait gets the timeout the loop starts with, a
later one the time left to the deadline at the clock reading made just before
it (reading number `reads + i - 1`), floored to the very short time; without a
limit every wait gets the timeout the loop starts with. -/
def handedTimeout (env : Env α) (tm_limit : α) (with_limit : Bool) (reads : Nat)
    (remain_tm : α) : Nat → α
  | 0 => remain_tm
  | i + 1 => if with_limit then remainTime (tm_limit - env.now (reads + i)) else remain_tm

/-- The loop of `wait_interpolation(_tm)` over the controllers still to visit,
with the current `remain_tm`. -/
def waitLoop (env : Env α) (tm_limit : α) (with_limit : Bool) :
    StdMap (TrajectoryClient α) → α → Log α → Bool × Log α
  | [], _, log => (true, log)
  | kv :: rest, remain_tm, log =>
    match kv.2.wait_interpolation env remain_tm log with
    | (false, log) => (false, log)
    | (true, log) =>
      if with_limit then
        let diff := tm_limit - env.now log.reads
        waitLoop env tm_limit with_limit rest (remainTime diff)
          { log with reads := log.reads + 1 }
      else waitLoop env tm_limit with_limit rest remain_tm log

/-- `RobotInterface::wait_interpolation(_tm)`: the `bool` result and the log
after the call. -/
def wait_interpolation (env : Env α) (self : RobotInterface α) (_tm : α) (log : Log α) :
    Bool × Log α :=
  let with_limit := decide (_tm ≠ 0)
  let tm_limit := env.now log.reads + _tm
  waitLoop env tm_limit with_limit self.controllers_ _tm { log with reads := log.reads + 1 }

/-- The loop of `wait_interpolation(_names, _tm)` over the names still to
visit, with the current `remain_tm`. -/
def waitLoopNames (env : Env α) (controllers_ : StdMap (TrajectoryClient α)) (tm_limit : α)
    (with_limit : Bool) : List String → α → Log α → Bool × Log α
  | [], _, log => (true, log)
  | name :: rest, remain_tm, log =>
    match (match controllers_.find name with
      | some c => c.wait_interpolation env remain_tm log
      | none => (true, log)) with
    | (false, log) => (false, log)
    | (true, log) =>
      if with_limit then
        let diff := tm_limit - env.now log.reads
        waitLoopNames env controllers_ tm_limit with_limit rest (remainTime diff)
          { log with reads := log.reads + 1 }
      else waitLoopNames env controllers_ tm_limit with_limit rest remain_tm log

/-- `RobotInterface::wait_interpolation(_names, _tm)`. -/
def wait_interpolation_names (env : Env α) (self : RobotInterface α) (_names : List String)
    (_tm : α) (log : Log α) : Bool × Log α :=
  let with_limit := decide (_tm ≠ 0)
  let tm_limit := env.now log.reads + _tm
  waitLoopNames env self.controllers_ tm_limit with_limit _names _tm
    { log with reads := log.reads + 1 }

/-- The first loop of `interpolatingp()`: `ret` after the controllers were
asked, stopping at the first that is interpolating. -/
def anyInterpolating (env : Env α) : StdMap (TrajectoryClient α) → Bool
  | [] => false
  | kv :: rest => if kv.2.interpolatingp env then true else anyInterpolating env rest

/-- `RobotInterface::interpolatingp()`. -/
def interpolatingp (env : Env α) (self : RobotInterface α) (log : Log α) : Bool × Log α :=
  let ret := anyInterpolating env self.controllers_
  if !ret then
    let probe := self.wait_interpolation env 0.00001 log
    (!probe.1, probe.2)
  else (ret, log)

/-- The first loop of `interpolatingp(_names)`. -/
def anyInterpolatingNames (env : Env α) (controllers_ : StdMap (TrajectoryClient α)) :
    List String → Bool
  | [] => false
  | name :: rest =>
    match controllers_.find name with
    | some c =>
      if c.interpolatingp env then true else anyInterpolatingNames env controllers_ rest
    | none => anyInterpolatingNames env controllers_ rest

/-- `RobotInterface::interpolatingp(_names)`. -/
def interpolatingp_names (env : Env α) (self : RobotInterface α) (_names : List String)
    (log : Log α) : Bool × Log α :=
  let ret := anyInterpolatingNames env self.controllers_ _names
  if !ret then
    let probe := self.wait_interpolation_names env _names 0.00001 log
    (!probe.1, probe.2)
  else (ret, log)

/-- `RobotInterface::cancel_angle_vector(_wait)`; `tm_default` is the default
argument of `wait_interpolation`, which the header declares. -/
def cancel_angle_vector (env : Env α) (tm_default : α) (self : RobotInterface α)
    (_wait : Bool) (log : Log α) : Log α :=
  let log := self.controllers_.foldl
    (fun log kv => kv.2.cancel_angle_vector env tm_default false log) log
  if _wait then (self.wait_interpolation env tm_default log).2 else log

/-- `RobotInterface::cancel_angle_vector(_names, _wait)`. -/
def cancel_angle_vector_names (env : Env α) (tm_default : α) (self : RobotInterface α)
    (_names : List String) (_wait : Bool) (log : Log α) : Log α :=
  let log := _names.foldl
    (fun log name =>
      match self.controllers_.find name with
      | some c => c.cancel_angle_vector env tm_default _wait log
      | none => log) log
  if _wait then (self.wait_interpolation env tm_default log).2 else log

end RobotInterface

/-! ## Sending to named channels, stopping, sending sequences -/

namespace TrajectoryClient

variable {α : Type} [Zero α]

/-- The loop `for (_av : _av_seq)` of the coordinator's
`send_angle_vector_sequence`: the vectors that convert, in order. -/
def convertSequence (self : TrajectoryClient α) (joint_list_ : List String) :
    List (angle_vector α) → List (angle_vector α)
  | [] => []
  | _av :: rest =>
    match self.toTrajectoryBase.convertToAngleVector_names joint_list_ _av [] with
    | (true, controller_av) => controller_av :: convertSequence self joint_list_ rest
    | (false, _) => convertSequence self joint_list_ rest

end TrajectoryClient

namespace RobotInterface

variable {α : Type} [Zero α]

/-- `RobotInterface::send_angle_vector_sequence(_av_seq, _tm_seq, _start)`. -/
def send_angle_vector_sequence [Add α] (self : RobotInterface α)
    (_av_seq : List (angle_vector α)) (_tm_seq : List α) (_start : α) : RobotInterface α :=
  { self with
    controllers_ := self.controllers_.map
      (fun kv => (kv.1, kv.2.send_angle_vector_sequence
        (kv.2.convertSequence self.joint_list_ _av_seq) _tm_seq _start)) }

/-- `RobotInterface::send_angle_vector_sequence(_av_seq, _tm_seq, _names, _start)`. -/
def send_angle_vector_sequence_names [Add α] (self : RobotInterface α)
    (_av_seq : List (angle_vector α)) (_tm_seq : List α) (_names : List String)
    (_start : α) : RobotInterface α :=
  { self with
    controllers_ := self.controllers_.map
      (fun kv =>
        if kv.2.name_ ∈ _names then
          (kv.1, kv.2.send_angle_vector_sequence
            (kv.2.convertSequence self.joint_list_ _av_seq) _tm_seq _start)
        else kv) }

/-- The coordinator after the registrations `regs` (key, channel,
`_update_joint_list`), made in that order on a new coordinator. -/
def registerAll (regs : List (String × TrajectoryClient α × Bool)) : RobotInterface α :=
  regs.foldl (fun ri r => (ri.add_controller r.1 r.2.1 r.2.2).2) init

end RobotInterface

/-! ## Concrete instances -/

/-- A two-joint arm channel. -/
def exampleBase : TrajectoryBase ℤ :=
  { name_ := "arm", joint_list_ := ["shoulder", "elbow"], start_offset_ := 0,
    goal_time_tolerance_ := 0 }

/-- A two-joint torso client that has sent nothing yet. -/
def exampleTorso : TrajectoryClient ℤ :=
  { name_ := "", joint_list_ := ["waist_y", "waist_p"], start_offset_ := 0,
    goal_time_tolerance_ := 0, sending_goal_ := false, sent_goals := [] }

/-- A three-joint arm client that has sent nothing yet. -/
def exampleArm : TrajectoryClient ℤ :=
  { name_ := "", joint_list_ := ["shoulder", "elbow", "wrist"], start_offset_ := 0,
    goal_time_tolerance_ := 0, sending_goal_ := false, sent_goals := [] }

/-- A client without joints that has sent nothing yet. -/
def exampleIdle : TrajectoryClient ℤ :=
  { name_ := "", joint_list_ := [], start_offset_ := 0,
    goal_time_tolerance_ := 0, sending_goal_ := false, sent_goals := [] }

/-- The coordinator after registering `torso` and then `arm`, both with
`_update_joint_list = true`. -/
def exampleRobot : RobotInterface ℤ :=
  ((RobotInterface.init.add_controller "torso" exampleTorso true).2.add_controller
    "arm" exampleArm true).2

/-- The coordinator `exampleRobot` with the joint-less client `idle` added. -/
def exampleRobotIdle : RobotInterface ℤ :=
  (exampleRobot.add_controller "idle" exampleIdle true).2

/-- A two-joint torso client over the rationals. -/
def exampleTorsoQ : TrajectoryClient ℚ :=
  { name_ := "", joint_list_ := ["waist_y", "waist_p"], start_offset_ := 0,
    goal_time_tolerance_ := 0, sending_goal_ := false, sent_goals := [] }

/-- A three-joint arm client over the rationals. -/
def exampleArmQ : TrajectoryClient ℚ :=
  { name_ := "", joint_list_ := ["shoulder", "elbow", "wrist"], start_offset_ := 0,
    goal_time_tolerance_ := 0, sending_goal_ := false, sent_goals := [] }

/-- A one-joint head client over the rationals. -/
def exampleHeadQ : TrajectoryClient ℚ :=
  { name_ := "", joint_list_ := ["neck"], start_offset_ := 0,
    goal_time_tolerance_ := 0, sending_goal_ := false, sent_goals := [] }

/-- The coordinator over the rationals after registering `torso` and then
`arm`. -/
def exampleRobotQ : RobotInterface ℚ :=
  ((RobotInterface.init.add_controller "torso" exampleTorsoQ true).2.add_controller
    "arm" exampleArmQ true).2

/-- The coordinator `exampleRobotQ` with `head` registered last. -/
def exampleRobot3Q : RobotInterface ℚ :=
  (exampleRobotQ.add_controller "head" exampleHeadQ true).2

/-- A world in which every wait reports completion and no goal is active; the
clock shows 100 at the first reading, 100.9 at the second and 101 from then on. -/
def exampleEnv : Env ℚ :=
  { now := fun n => if n = 0 then 100 else if n = 1 then 1009 / 10 else 101
    waitResult := fun _ => true
    getState := fun _ => SimpleClientGoalState.SUCCEEDED }

/-- The world `exampleEnv`, but the second wait reports a timeout. -/
def exampleEnvTimeout : Env ℚ :=
  { exampleEnv with waitResult := fun n => decide (n ≠ 1) }

/-- A world like `exampleEnv` in which the second wait returns at once: the clock
shows 100 at the first reading and 100.9 from then on. -/
def exampleEnvFast : Env ℚ :=
  { exampleEnv with now := fun n => if n = 0 then 100 else 1009 / 10 }

/-- The log before anything happened. -/
def emptyLog : Log ℚ := { reads := 0, waits := 0, events := [] }

/-- A world like `exampleEnv` in which the goal of `arm` is active. -/
def exampleEnvActive : Env ℚ :=
  { exampleEnv with
    getState := fun name =>
      if name = "arm" then SimpleClientGoalState.ACTIVE else SimpleClientGoalState.SUCCEEDED }

end robot_interface

/-!
# Wheel kinematics (`AeroBaseController.cc`)

A shallow embedding of `aero_description/typeF/controllers/AeroBaseController.cc`.

* The C++ `float` and `double` are one type parameter `α`, a linear ordered
  field: arithmetic is exact, a rounding to `float` is the identity (but in
  `VelocityToWheel`, see below) and no value is infinite or NaN.  The only quotient of the code whose divisor can be
  zero in exact arithmetic is `x / sin(theta)` in `Drift` for a zero turn: the
  C++ quotient is then an infinity or NaN, which the field does not have (its
  quotient by zero is `0`), so `Drift` stands for the code for a turn other
  than zero only, and every theorem on `Drift` below is about such a turn.
* The functions of `<cmath>` the code calls (`sin`, `cos`, `atan`, `sqrt`) and
  the constant `M_PI` are arguments of the definitions, named as in the
  source; the theorems over the reals pass `Real.sin`, `Real.cos`,
  `Real.arctan`, `Real.sqrt` and `Real.pi`.  `fabs` is the absolute value.
* `std::vector<T>` is `List T`; `velocities[i]` reads entry `i` of a list that
  has four entries.
* `wheels` is declared in `aero_move_base/AeroMoveBase.hh`; its two members
  and their order are read off the uses `wheel_data.velocities`,
  `wheel_data.time` and `return {{0.0, 0.0, 0.0, 0.0}, 0.0}`.
* `static_cast<int16_t>` of a floating value is `none` when the truncated value
  is no `int16_t` (the conversion is then undefined in C++).
* `VelocityToWheel` truncates its results to integers, which a rounding error
  can change by one.  It is embedded with its roundings: the conversions to
  `float` and to `double` are two more arguments, applied wherever the C++
  stores or computes a value in that type; the theorems pass `binary 24` and
  `binary 53`, or any two functions with the properties `IsRounding`.
* `ROS_ERROR` only writes to the log and is not modelled.
-/

namespace navigation

variable {α : Type} [LinearOrderedField α]

/-! ## Constants -/

/-- The wheel radius in metres: `static const float radius = 0.076`. -/
def radius : α := 0.076

/-- The turning radius in metres: `static const float Radius = 0.2974535`. -/
def Radius : α := 0.2974535

/-- The wheel speed limit in deg/s: `static const float max_velocity = 90.0`. -/
def max_velocity : α := 90.0

/-- The rotation coefficient: `static const float ktheta = -5.54420`, the literal
of type `double` converted to `float`. -/
def ktheta (float_ double_ : α → α) : α := float_ (-double_ 5.54420)

/-- The translation coefficient: `static const float kv = 13.1579`, the literal of
type `double` converted to `float`. -/
def kv (float_ double_ : α → α) : α := float_ (double_ 13.1579)

/-! ## Data -/

/-- A wheel command: the four wheel velocities (deg/s) and the duration (s). -/
structure wheels (α : Type) where
  velocities : List α
  time : α
deriving DecidableEq

/-- The message type `geometry_msgs::Vector3`. -/
structure Vector3 (α : Type) where
  x : α
  y : α
  z : α
deriving DecidableEq

/-- The message type `geometry_msgs::Twist`. -/
structure Twist (α : Type) where
  linear : Vector3 α
  angular : Vector3 α
deriving DecidableEq

/-- The integer a floating value is converted to: the fractional part is discarded. -/
def trunc [FloorRing α] (v : α) : ℤ :=
  if 0 ≤ v then ⌊v⌋ else ⌈v⌉

/-- The conversion `static_cast<int16_t>(v)` of a floating value: the value is truncated,
and the conversion is undefined (`none`) when the truncated value is not a value of
`int16_t`. -/
def static_cast_int16 [FloorRing α] (v : α) : Option ℤ :=
  if -32768 ≤ trunc v ∧ trunc v ≤ 32767 then some (trunc v) else none

/-! ## Rounding

The formats `float` and `double` of the C++ implementations the package is built
for are binary32 and binary64 of IEEE 754, with round to nearest, ties to even. -/

/-- The nearest integer, the even one of the two in a tie. -/
def roundHalfEven [FloorRing α] (y : α) : ℤ :=
  if y - ⌊y⌋ < 1 / 2 then ⌊y⌋
  else if 1 / 2 < y - ⌊y⌋ then ⌊y⌋ + 1
  else if ⌊y⌋ % 2 = 0 then ⌊y⌋ else ⌊y⌋ + 1

/-- The nearest value with `p` significant binary digits, ties to even: the
conversion to binary32 for `p = 24` and to binary64 for `p = 53`, for a value in
the range of the normal numbers of the format (the exponent has no bounds here:
no value is flushed to a subnormal number or to an infinity). -/
def binary [FloorRing α] (p : ℕ) (x : α) : α :=
  if x = 0 then 0
  else
    let e : ℤ := Int.log 2 |x|
    let ulp : α := 2 ^ (e + 1 - p)
    (roundHalfEven (x / ulp) : α) * ulp

/-- What the theorems ask of a rounding: zero and one are kept, the rounding
commutes with the sign, and a rounded value is kept. -/
def IsRounding (f : α → α) : Prop :=
  f 0 = 0 ∧ f 1 = 1 ∧ (∀ x, f (-x) = -f x) ∧ (∀ x, f (f x) = f x)

/-! ## AeroMoveBaseImpl -/

namespace AeroMoveBaseImpl

/-- The shaping function of the front left and rear right wheels, the lambda
`lambda_vel1` of `Translate`. -/
def lambda_vel1 (atan : α → α) (pi : α) (x y : α) : α :=
  if x > 0 ∧ y > 0 then
    let theta := atan (y / x)
    max_velocity * 4 / pi * (0.25 * pi - theta)
  else if y ≥ 0 ∧ x ≤ 0 then
    -max_velocity
  else if y ≤ 0 ∧ x ≥ 0 then
    max_velocity
  else
    let theta := atan (y / x) - pi
    max_velocity * 4 / pi * (theta + 0.75 * pi)

/-- The shaping function of the front right and rear left wheels, the lambda
`lambda_vel2` of `Translate`. -/
def lambda_vel2 (atan : α → α) (pi : α) (x y : α) : α :=
  if x ≥ 0 ∧ y ≥ 0 then
    max_velocity
  else if y > 0 ∧ x < 0 then
    let theta := pi - atan (y / x)
    max_velocity * 4 / pi * (0.75 * pi - theta)
  else if y < 0 ∧ x > 0 then
    let theta := atan (y / x)
    max_velocity * 4 / pi * (theta + 0.25 * pi)
  else
    -max_velocity

/-- The translation kernel `AeroMoveBaseImpl::Translate(_x, _y)`. -/
def Translate (atan sqrt : α → α) (pi : α) (_x _y : α) : wheels α :=
  let velocities : List α :=
    [lambda_vel1 atan pi _x _y, lambda_vel2 atan pi _x _y,
     lambda_vel2 atan pi _x _y, lambda_vel1 atan pi _x _y]
  let Vx :=
    0.25 * sqrt 2.0 * 0.5 *
      (velocities.getD 0 0 + velocities.getD 1 0 + velocities.getD 2 0 + velocities.getD 3 0)
  let Vy :=
    0.25 * sqrt 2.0 * 0.5 *
      (-velocities.getD 0 0 + velocities.getD 1 0 + velocities.getD 2 0 - velocities.getD 3 0)
  let distance := sqrt (_x * _x + _y * _y)
  let velocity_radian := sqrt (Vx * Vx + Vy * Vy) * pi / 180
  let wheel_travel := velocity_radian * radius
  { velocities :=
      [velocities.getD 0 0, -velocities.getD 1 0, velocities.getD 2 0, -velocities.getD 3 0]
    time := distance / wheel_travel / 1.4 }

/-- The turn on the spot `AeroMoveBaseImpl::Rotate(_theta)`. -/
def Rotate (pi : α) (_theta : α) : wheels α :=
  let velocities : List α :=
    if _theta ≥ 0 then
      [-max_velocity, -max_velocity, -max_velocity, -max_velocity]
    else
      [max_velocity, max_velocity, max_velocity, max_velocity]
  let velocity_radian := max_velocity * pi / 180
  let wheel_travel := radius * velocity_radian
  let turn_radius := Radius * |_theta|
  { velocities := velocities
    time := turn_radius / wheel_travel }

/-- The forward move with a turn `AeroMoveBaseImpl::Drift(_x, _theta)`, for a turn
`_theta` other than zero (for a zero turn the C++ quotient `x / sin(theta)` is
an infinity or NaN). -/
def Drift (sin sqrt : α → α) (pi : α) (_x _theta : α) : wheels α :=
  let x := |_x|
  let theta := |_theta|
  let theta := if theta > pi * 0.5 then pi * 0.5 else theta
  let time := theta * 600 / (pi * radius * max_velocity) * (x / sin theta + sqrt 2 * Radius)
  if time = 0 then
    { velocities := [0.0, 0.0, 0.0, 0.0], time := 0.0 }
  else
    let v_theta := 2 * theta * sqrt 2 * Radius / (radius * time * pi) * 300
    let v_turn_wheel := v_theta - max_velocity
    let velocities : List α :=
      if _theta ≥ 0 then
        if _x ≥ 0 then
          [-v_turn_wheel, -max_velocity, -v_turn_wheel, -max_velocity]
        else
          [-max_velocity, -v_turn_wheel, -max_velocity, -v_turn_wheel]
      else
        if _x ≤ 0 then
          [v_turn_wheel, max_velocity, v_turn_wheel, max_velocity]
        else
          [max_velocity, v_turn_wheel, max_velocity, v_turn_wheel]
    { velocities := velocities
      time := time }

end AeroMoveBaseImpl

/-! ## AeroMoveBase -/

namespace AeroMoveBase

/-- The dispatcher `AeroMoveBase::Translate(_x, _y, _theta)`. -/
def Translate (sin atan sqrt : α → α) (pi : α) (_x _y _theta : α) : wheels α :=
  if |_theta| < 0.0001 then
    AeroMoveBaseImpl.Translate atan sqrt pi _x _y
  else
    if |_x| < 0.0001 then
      AeroMoveBaseImpl.Rotate pi _theta
    else
      AeroMoveBaseImpl.Drift sin sqrt pi _x _theta

/-- The twist to wheel speed map `AeroMoveBase::VelocityToWheel(_cmd_vel, _wheel_vel)`:
the vector `_wheel_vel` after the call, or `none` when a conversion to `int16_t`
is undefined.  The result is truncated to integers, so the roundings are
explicit here: `float_` is the conversion to `float` of every value stored in
or computed in `float`, `double_` the one to `double` (the members of the twist
and `M_PI` are of type `double`, so a product or sum with one of them is
computed in `double`). -/
def VelocityToWheel [FloorRing α] (float_ double_ : α → α) (cos sin : α → α) (pi : α)
    (_cmd_vel : Twist α) (_wheel_vel : List α) : Option (List α) :=
  let theta : α := float_ 0.0
  let cos_theta := float_ (cos theta)
  let sin_theta := float_ (sin theta)
  let dy := float_ (double_
    (double_ (_cmd_vel.linear.x * cos_theta) - double_ (_cmd_vel.linear.y * sin_theta)))
  let dx := float_ (double_
    (double_ (_cmd_vel.linear.x * sin_theta) + double_ (_cmd_vel.linear.y * cos_theta)))
  let dtheta := float_ _cmd_vel.angular.z
  let v1 := float_ (float_ (ktheta float_ double_ * dtheta) +
    float_ (kv float_ double_ * float_ (float_ (float_ (-cos_theta + sin_theta) * dx) +
      float_ (float_ (-cos_theta - sin_theta) * dy))))
  let v2 := float_ (float_ (ktheta float_ double_ * dtheta) +
    float_ (kv float_ double_ * float_ (float_ (float_ (-cos_theta - sin_theta) * dx) +
      float_ (float_ (cos_theta - sin_theta) * dy))))
  let v3 := float_ (float_ (ktheta float_ double_ * dtheta) +
    float_ (kv float_ double_ * float_ (float_ (float_ (cos_theta - sin_theta) * dx) +
      float_ (float_ (cos_theta + sin_theta) * dy))))
  let v4 := float_ (float_ (ktheta float_ double_ * dtheta) +
    float_ (kv float_ double_ * float_ (float_ (float_ (cos_theta + sin_theta) * dx) +
      float_ (float_ (-cos_theta + sin_theta) * dy))))
  (static_cast_int16 (double_ (v1 * double_ (180 / pi)))).bind fun FR_wheel =>
  (static_cast_int16 (double_ (v4 * double_ (180 / pi)))).bind fun RR_wheel =>
  (static_cast_int16 (double_ (v2 * double_ (180 / pi)))).bind fun FL_wheel =>
  (static_cast_int16 (double_ (v3 * double_ (180 / pi)))).bind fun RL_wheel =>
  some ((((_wheel_vel.set 0 (FL_wheel : α)).set 1 (FR_wheel : α)).set 2 (RL_wheel : α)).set 3
    (RR_wheel : α))

end AeroMoveBase

end navigation

namespace robot_interface

/-! ## Lemmas on the map model -/

/-- The order of two characters is the order of their codes. -/
theorem char_lt_iff (a b : Char) : a < b ↔ a.toNat < b.toNat := Iff.rfl

/-- The comparison `ltChars` decides the lexicographic order of character lists. -/
theorem ltChars_iff (as bs : List Char) : ltChars as bs = true ↔ as < bs := by
  induction as generalizing bs with
  | nil =>
    cases bs with
    | nil =>
      simp only [ltChars, Bool.false_eq_true, false_iff]
      exact lt_irrefl _
    | cons b bs =>
      simp only [ltChars, true_iff]
      exact List.nil_lt_cons b bs
  | cons a as ih =>
    cases bs with
    | nil =>
      simp only [ltChars, Bool.false_eq_true, false_iff]
      intro h
      cases h
    | cons b bs =>
      unfold ltChars
      by_cases h1 : a.toNat < b.toNat
      · rw [if_pos h1]
        simp only [true_iff]
        exact List.Lex.rel ((char_lt_iff a b).mpr h1)
      · rw [if_neg h1]
        by_cases h2 : b.toNat < a.toNat
        · rw [if_pos h2]
          simp only [Bool.false_eq_true, false_iff]
          intro h
          cases h with
          | rel h => exact h1 ((char_lt_iff a b).mp h)
          | cons _ => omega
        · rw [if_neg h2, ih]
          have hab : a = b := Char.ext (UInt32.ext (by
            show a.toNat = b.toNat
            omega))
          subst hab
          constructor
          · intro h
            exact List.Lex.cons h
          · intro h
            cases h with
            | rel h => exact absurd ((char_lt_iff a a).mp h) h1
            | cons h => exact h

/-- The comparison `strLt` decides the order of strings. -/
theorem strLt_iff (a b : String) : strLt a b = true ↔ a < b := by
  unfold strLt
  rw [ltChars_iff]
  exact String.lt_iff_toList_lt.symm

namespace StdMap

variable {β : Type}

theorem find_insert_self (m : StdMap β) (k : String) (v : β) :
    (m.insert k v).find k = some v := by
  induction m with
  | nil => simp [insert, find]
  | cons p rest ih =>
    obtain ⟨k', v'⟩ := p
    by_cases h : k = k'
    · simp [insert, find, h]
    · by_cases h2 : strLt k k' = true
      · simp [insert, find, h, h2]
      · simp [insert, find, h, h2, ih]

theorem find_insert_of_ne (m : StdMap β) (k k' : String) (v : β) (hne : k' ≠ k) :
    (m.insert k v).find k' = m.find k' := by
  induction m with
  | nil => simp [insert, find, hne]
  | cons p rest ih =>
    obtain ⟨k1, v1⟩ := p
    by_cases h : k = k1
    · subst h
      simp [insert, find, hne]
    · by_cases h2 : strLt k k1 = true
      · simp [insert, find, h, h2, hne]
      · by_cases h3 : k' = k1
        · simp [insert, find, h, h2, h3]
        · simp [insert, find, h, h2, h3, ih]

end StdMap

/-! ## Lemmas on `convertToAngleVector` -/

theorem getD_of_getElem? {β : Type} {l : List β} {i : Nat} {a : β} (d : β)
    (h : l[i]? = some a) : l.getD i d = a := by
  simp [List.getD_eq_getElem?_getD, h]

theorem lt_length_of_getElem? {β : Type} {l : List β} {i : Nat} {a : β}
    (h : l[i]? = some a) : i < l.length := by
  by_contra hlt
  rw [List.getElem?_eq_none (by omega)] at h
  exact Option.noConfusion h

theorem getElem?_of_lt_getD {β : Type} (l : List β) (i : Nat) (d : β) (h : i < l.length) :
    l[i]? = some (l.getD i d) := by
  simp [List.getD_eq_getElem?_getD, List.getElem?_eq_getElem h]

theorem resize_length {α : Type} [Zero α] (v : List α) (n : Nat) :
    (resize v n).length = n := by
  simp [resize]
  omega

theorem resize_of_length {α : Type} [Zero α] (v : List α) :
    resize v v.length = v := by
  simp [resize]

theorem getElem?_resize {α : Type} [Zero α] (v : List α) (n i : Nat) :
    (resize v n)[i]? = if i < n then some (v.getD i 0) else none := by
  unfold resize
  by_cases hi : i < n
  · by_cases hv : i < v.length
    · rw [List.getElem?_append_left (by simp; omega)]
      simp [hi, hv, List.getElem?_take]
    · rw [List.getElem?_append_right (by simp; omega)]
      have : v[i]? = none := by simp; omega
      simp [hi, this, List.getElem?_replicate]
      omega
  · rw [if_neg hi]
    simp
    omega

namespace TrajectoryBase

variable {α : Type} [Zero α]

/-- The start vector of the loop: `_av` after the conditional `resize`. -/
theorem start_vector_eq (L : List String) (av : angle_vector α) :
    (if av.length ≠ L.length then resize av L.length else av) = resize av L.length := by
  by_cases h : av.length = L.length
  · rw [if_neg (not_not.mpr h), ← h]
    exact (resize_of_length av).symm
  · rw [if_pos h]

omit [Zero α] in
/-- Loop invariant of `convertToAngleVector` after the indices `0 .. k-1`. -/
theorem convert_fold_inv (L : List String) (jmap : joint_angle_map α) (av0 : angle_vector α)
    (hlen : av0.length = L.length) (k : Nat) (hk : k ≤ L.length) :
    ((List.range k).foldl (convertStep L jmap) (false, av0)).1
        = (L.take k).any (fun n => jmap.contains n) ∧
    ((List.range k).foldl (convertStep L jmap) (false, av0)).2.length = L.length ∧
    ∀ i, ((List.range k).foldl (convertStep L jmap) (false, av0)).2[i]? =
      if i < k then (av0[i]?).map (fun a => (jmap.find (L.getD i "")).getD a) else av0[i]? := by
  induction k with
  | zero => simp [hlen]
  | succ k ih =>
    obtain ⟨ih1, ih2, ih3⟩ := ih (by omega)
    have hkL : k < L.length := by omega
    have hka : k < av0.length := by omega
    rw [List.range_succ, List.foldl_append]
    simp only [List.foldl_cons, List.foldl_nil]
    generalize (List.range k).foldl (convertStep L jmap) (false, av0) = st at ih1 ih2 ih3 ⊢
    have hLk : L.getD k "" = L[k] := by simp [List.getD_eq_getElem?_getD, hkL]
    have htake : (L.take (k + 1)).any (fun n => jmap.contains n)
        = ((L.take k).any (fun n => jmap.contains n) || jmap.contains L[k]) := by
      rw [List.take_succ, List.any_append]
      simp [List.getElem?_eq_getElem hkL]
    have hother : ∀ i, i ≠ k →
        (if i < k + 1 then (av0[i]?).map (fun a => (jmap.find (L.getD i "")).getD a) else av0[i]?)
        = (if i < k then (av0[i]?).map (fun a => (jmap.find (L.getD i "")).getD a)
            else av0[i]?) := by
      intro i hik
      by_cases h1 : i < k
      · rw [if_pos h1, if_pos (by omega)]
      · rw [if_neg h1, if_neg (by omega)]
    unfold convertStep
    rw [hLk, htake]
    cases hf : jmap.find L[k] with
    | none =>
      refine ⟨?_, ih2, ?_⟩
      · simp [ih1, StdMap.contains, hf]
      · intro i
        by_cases h2 : i = k
        · subst h2
          rw [ih3 i, if_neg (by omega), if_pos (by omega), hLk, hf,
            List.getElem?_eq_getElem hka]
          rfl
        · rw [hother i h2]
          exact ih3 i
    | some v =>
      refine ⟨?_, ?_, ?_⟩
      · simp [StdMap.contains, hf]
      · simp [ih2]
      · intro i
        by_cases h2 : i = k
        · subst h2
          rw [if_pos (by omega), hLk, hf, List.getElem?_eq_getElem hka]
          simp [ih2, hkL]
        · rw [hother i h2]
          simp only []
          rw [List.getElem?_set_ne (Ne.symm h2)]
          exact ih3 i

/-- The `bool` result of `convertToAngleVector`: some joint of the list is a key. -/
theorem convertToAngleVector_fst (self : TrajectoryBase α) (jmap : joint_angle_map α)
    (av : angle_vector α) :
    (self.convertToAngleVector jmap av).1 = self.joint_list_.any (fun n => jmap.contains n) := by
  unfold convertToAngleVector
  simp only [start_vector_eq]
  have h := (convert_fold_inv self.joint_list_ jmap (resize av self.joint_list_.length)
    (resize_length _ _) self.joint_list_.length (le_refl _)).1
  rw [h, List.take_length]

/-- The length of the vector `convertToAngleVector` leaves. -/
theorem convertToAngleVector_length (self : TrajectoryBase α) (jmap : joint_angle_map α)
    (av : angle_vector α) :
    (self.convertToAngleVector jmap av).2.length = self.joint_list_.length := by
  unfold convertToAngleVector
  simp only [start_vector_eq]
  exact (convert_fold_inv self.joint_list_ jmap (resize av self.joint_list_.length)
    (resize_length _ _) self.joint_list_.length (le_refl _)).2.1

/-- Every slot of the vector `convertToAngleVector` leaves: the map's value
where the joint is a key, else the passed-in value, else the zero of `resize`. -/
theorem convertToAngleVector_getElem? (self : TrajectoryBase α) (jmap : joint_angle_map α)
    (av : angle_vector α) (i : Nat) (hi : i < self.joint_list_.length) :
    (self.convertToAngleVector jmap av).2[i]? =
      some ((jmap.find (self.joint_list_.getD i "")).getD (av.getD i 0)) := by
  unfold convertToAngleVector
  simp only [start_vector_eq]
  have h := (convert_fold_inv self.joint_list_ jmap (resize av self.joint_list_.length)
    (resize_length _ _) self.joint_list_.length (le_refl _)).2.2 i
  rw [h, if_pos hi, getElem?_resize, if_pos hi]
  rfl

/-- One more pass of the map-filling loop. -/
theorem fillMap_succ (names : List String) (pos : List α) (k : Nat) (m : joint_angle_map α) :
    fillMap names pos (k + 1) m
      = (fillMap names pos k m).insert (names.getD k "") (pos.getD k 0) := by
  unfold fillMap
  rw [List.range_succ, List.foldl_append]
  rfl

/-- A name that none of the first `k` names equals keeps its entry. -/
theorem fillMap_find_of_not_mem (names : List String) (pos : List α) (m : joint_angle_map α)
    (n : String) (k : Nat) (h : ∀ j, j < k → names.getD j "" ≠ n) :
    (fillMap names pos k m).find n = m.find n := by
  induction k with
  | zero => rfl
  | succ k ih =>
    rw [fillMap_succ, StdMap.find_insert_of_ne _ _ _ _ (Ne.symm (h k (by omega)))]
    exact ih (fun j hj => h j (by omega))

/-- The entry of a name is the position paired with its last occurrence. -/
theorem fillMap_find_last (names : List String) (pos : List α) (m : joint_angle_map α)
    (n : String) (k j : Nat) (hj : j < k) (hn : names.getD j "" = n)
    (hlast : ∀ j', j < j' → j' < k → names.getD j' "" ≠ n) :
    (fillMap names pos k m).find n = some (pos.getD j 0) := by
  induction k with
  | zero => omega
  | succ k ih =>
    rw [fillMap_succ]
    by_cases hjk : j = k
    · subst hjk
      rw [hn]
      exact StdMap.find_insert_self _ _ _
    · rw [StdMap.find_insert_of_ne _ _ _ _ (Ne.symm (hlast k (by omega) (by omega)))]
      exact ih (by omega) (fun j' h1 h2 => hlast j' h1 (by omega))

/-- When every occurrence of a name is paired with `v`, its entry is `v`. -/
theorem fillMap_find_all (names : List String) (pos : List α) (m : joint_angle_map α)
    (n : String) (v : α) (k : Nat) (hex : ∃ j, j < k ∧ names.getD j "" = n)
    (hall : ∀ j, j < k → names.getD j "" = n → pos.getD j 0 = v) :
    (fillMap names pos k m).find n = some v := by
  induction k with
  | zero =>
    obtain ⟨j, hj, _⟩ := hex
    omega
  | succ k ih =>
    rw [fillMap_succ]
    by_cases hk : names.getD k "" = n
    · rw [hk, hall k (by omega) hk]
      exact StdMap.find_insert_self _ _ _
    · rw [StdMap.find_insert_of_ne _ _ _ _ (Ne.symm hk)]
      obtain ⟨j, hj, hjn⟩ := hex
      have hjk : j ≠ k := fun h => hk (h ▸ hjn)
      exact ih ⟨j, by omega, hjn⟩ (fun j' h1 h2 => hall j' (by omega) h2)

/-- The keys after the map-filling loop: the old keys and the first `k` names. -/
theorem fillMap_contains (names : List String) (pos : List α) (m : joint_angle_map α)
    (n : String) (k : Nat) :
    (fillMap names pos k m).contains n = true ↔
      (m.contains n = true ∨ ∃ j, j < k ∧ names.getD j "" = n) := by
  induction k with
  | zero =>
    constructor
    · intro h
      exact Or.inl h
    · rintro (h | ⟨j, hj, _⟩)
      · exact h
      · omega
  | succ k ih =>
    unfold StdMap.contains at ih ⊢
    rw [fillMap_succ]
    by_cases hk : names.getD k "" = n
    · rw [hk, StdMap.find_insert_self]
      simp only [Option.isSome_some, true_iff]
      exact Or.inr ⟨k, by omega, hk⟩
    · rw [StdMap.find_insert_of_ne _ _ _ _ (Ne.symm hk), ih]
      constructor
      · rintro (h | ⟨j, hj, hjn⟩)
        · exact Or.inl h
        · exact Or.inr ⟨j, by omega, hjn⟩
      · rintro (h | ⟨j, hj, hjn⟩)
        · exact Or.inl h
        · have hjk : j ≠ k := fun h => hk (h ▸ hjn)
          exact Or.inr ⟨j, by omega, hjn⟩

/-- The keys of a map filled from the empty map: the names. -/
theorem fillMap_keys (names : List String) (pos : List α) (n : String) :
    (fillMap names pos names.length []).contains n = true ↔ n ∈ names := by
  rw [fillMap_contains]
  constructor
  · rintro (h | ⟨j, hj, hjn⟩)
    · exact absurd h (by simp [StdMap.contains, StdMap.find])
    · rw [← hjn, List.getD_eq_getElem?_getD, List.getElem?_eq_getElem hj]
      exact List.getElem_mem hj
  · intro hn
    obtain ⟨j, hj, hjn⟩ := List.getElem_of_mem hn
    exact Or.inr ⟨j, hj, by
      rw [List.getD_eq_getElem?_getD, List.getElem?_eq_getElem hj]
      exact hjn⟩

/-- On a vector of the joint list's length and a non-empty joint list,
`convertToMap` fills the cleared map from the (joint, angle) pairs. -/
theorem convertToMap_eq (self : TrajectoryBase α) (av : angle_vector α)
    (m : joint_angle_map α) (hlen : av.length = self.joint_list_.length)
    (hne : self.joint_list_ ≠ []) :
    self.convertToMap av m = (true, fillMap self.joint_list_ av self.joint_list_.length []) := by
  unfold convertToMap
  have h0 : self.joint_list_.length ≠ 0 := fun h => hne (List.length_eq_zero.mp h)
  simp only [hlen, min_self]
  rw [if_neg h0]
  rfl

/-- With no name the (names, positions) overload returns at once. -/
theorem convertToAngleVector_names_nil (self : TrajectoryBase α) (pos : List α)
    (av : angle_vector α) : self.convertToAngleVector_names [] pos av = (false, av) := by
  simp [convertToAngleVector_names]

/-- With at least one (name, position) pair the overload converts through the
map filled from the first `min` pairs. -/
theorem convertToAngleVector_names_of_pos (self : TrajectoryBase α) (names : List String)
    (pos : List α) (av : angle_vector α) (h : min names.length pos.length ≠ 0) :
    self.convertToAngleVector_names names pos av
      = self.convertToAngleVector
          (fillMap names pos (min names.length pos.length) []) av := by
  unfold convertToAngleVector_names
  simp only []
  rw [if_neg h]

/-- The map filled from equal-length, non-empty name and position lists. -/
theorem convertToAngleVector_names_eq (self : TrajectoryBase α) (names : List String)
    (pos : List α) (av : angle_vector α) (hlen : names.length = pos.length)
    (hne : names ≠ []) :
    self.convertToAngleVector_names names pos av
      = self.convertToAngleVector (fillMap names pos names.length []) av := by
  have h0 : names.length ≠ 0 := fun h => hne (List.length_eq_zero.mp h)
  have hmin : min names.length pos.length = names.length := by rw [← hlen, min_self]
  rw [convertToAngleVector_names_of_pos self names pos av (by rw [hmin]; exact h0), hmin]

/-- With no usable (name, position) pair the overload returns at once. -/
theorem convertToAngleVector_names_of_zero (self : TrajectoryBase α) (names : List String)
    (pos : List α) (av : angle_vector α) (h : min names.length pos.length = 0) :
    self.convertToAngleVector_names names pos av = (false, av) := by
  unfold convertToAngleVector_names
  simp only []
  rw [if_pos h]

/-- The keys of a map filled from the empty map by the first `k` names. -/
theorem fillMap_contains_take (names : List String) (pos : List α) (k : Nat)
    (hk : k ≤ names.length) (n : String) :
    (fillMap names pos k []).contains n = true ↔ n ∈ names.take k := by
  rw [fillMap_contains, List.mem_take_iff_getElem]
  constructor
  · rintro (h | ⟨j, hj, hjn⟩)
    · exact absurd h (by simp [StdMap.contains, StdMap.find])
    · have hjl : j < names.length := by omega
      refine ⟨j, lt_min hj hjl, ?_⟩
      rw [← hjn, List.getD_eq_getElem?_getD, List.getElem?_eq_getElem hjl]
      rfl
  · rintro ⟨j, hj, hjn⟩
    have hjl : j < names.length := lt_of_lt_of_le hj (min_le_right _ _)
    refine Or.inr ⟨j, lt_of_lt_of_le hj (min_le_left _ _), ?_⟩
    rw [List.getD_eq_getElem?_getD, List.getElem?_eq_getElem hjl]
    exact hjn

end TrajectoryBase

/-! ## Lemmas on `TrajectoryClient` -/

namespace TrajectoryClient

variable {α : Type} [Zero α]

/-- Loop invariant of the position-copying loop after the indices `0 .. k-1`. -/
theorem copy_fold_inv (n : Nat) (av : angle_vector α) (k : Nat) (hk : k ≤ n) :
    ((List.range k).foldl (fun positions j => positions.set j (av.getD j 0))
        (resize [] n)).length = n ∧
    ∀ i, ((List.range k).foldl (fun positions j => positions.set j (av.getD j 0))
        (resize [] n))[i]? =
      if i < k then some (av.getD i 0) else (resize ([] : List α) n)[i]? := by
  induction k with
  | zero => simp [resize_length]
  | succ k ih =>
    obtain ⟨ih1, ih2⟩ := ih (by omega)
    rw [List.range_succ, List.foldl_append]
    simp only [List.foldl_cons, List.foldl_nil]
    generalize (List.range k).foldl (fun positions j => positions.set j (av.getD j 0))
      (resize [] n) = st at ih1 ih2 ⊢
    refine ⟨by simp [ih1], ?_⟩
    intro i
    by_cases h2 : i = k
    · subst h2
      rw [if_pos (by omega)]
      exact List.getElem?_set_eq_of_lt _ (by rw [ih1]; omega)
    · rw [List.getElem?_set_ne (Ne.symm h2), ih2 i]
      by_cases h1 : i < k
      · rw [if_pos h1, if_pos (by omega)]
      · rw [if_neg h1, if_neg (by omega)]

/-- The copied positions of a vector of the joint list's length: the vector. -/
theorem copyPositions_eq (n : Nat) (av : angle_vector α) (h : av.length = n) :
    copyPositions n av = av := by
  apply List.ext_getElem?
  intro i
  unfold copyPositions
  rw [(copy_fold_inv n av n (le_refl n)).2 i]
  by_cases hi : i < n
  · rw [if_pos hi]
    exact (getElem?_of_lt_getD av i 0 (by omega)).symm
  · rw [if_neg hi, getElem?_resize, if_neg hi, List.getElem?_eq_none (by omega)]

/-- A vector of the wrong size among the indices still to visit stops the
waypoint loop. -/
theorem sequencePoints_none [Add α] (jsize : Nat) (avs : List (angle_vector α))
    (tms : List α) (todo : Nat) :
    ∀ (i : Nat) (d : α), (∃ j, i ≤ j ∧ j < i + todo ∧ (avs.getD j []).length ≠ jsize) →
      sequencePoints jsize avs tms todo i d = none := by
  induction todo with
  | zero =>
    rintro i d ⟨j, h1, h2, _⟩
    omega
  | succ todo ih =>
    rintro i d ⟨j, h1, h2, h3⟩
    unfold sequencePoints
    by_cases hi : jsize ≠ (avs.getD i []).length
    · rw [if_pos hi]
    · rw [if_neg hi]
      have hji : j ≠ i := by
        intro h
        subst h
        exact hi (Ne.symm h3)
      simp only []
      rw [ih (i + 1) _ ⟨j, by omega, by omega, h3⟩]

end TrajectoryClient

/-- When every vector still to visit has the joint list's size, the waypoint
loop runs to its end: one point per vector, holding the vector and the running
sum of the durations. -/
theorem TrajectoryClient.sequencePoints_some {α : Type} [AddMonoid α] (jsize : Nat)
    (avs : List (angle_vector α)) (tms : List α) (todo : Nat) :
    ∀ (i : Nat) (d : α), i + todo ≤ tms.length →
      (∀ j, i ≤ j → j < i + todo → (avs.getD j []).length = jsize) →
      ∃ pts, TrajectoryClient.sequencePoints jsize avs tms todo i d = some pts ∧
        pts.length = todo ∧
        ∀ k, k < todo → pts[k]? =
          some { positions := avs.getD (i + k) [],
                 time_from_start := d + ((tms.drop i).take (k + 1)).sum } := by
  induction todo with
  | zero =>
    intro i d _ _
    exact ⟨[], rfl, rfl, fun k hk => absurd hk (by omega)⟩
  | succ todo ih =>
    intro i d hlen hall
    have hi : i < tms.length := by omega
    obtain ⟨pts, hpts, hl, hk⟩ := ih (i + 1) (d + tms.getD i 0) (by omega)
      (fun j h1 h2 => hall j (by omega) (by omega))
    have hsz : (avs.getD i []).length = jsize := hall i (le_refl i) (by omega)
    have hdrop : tms.drop i = tms.getD i 0 :: tms.drop (i + 1) := by
      rw [List.drop_eq_getElem_cons hi, List.getD_eq_getElem?_getD,
        List.getElem?_eq_getElem hi]
      rfl
    refine ⟨{ positions := TrajectoryClient.copyPositions jsize (avs.getD i []),
              time_from_start := d + tms.getD i 0 } :: pts, ?_, by simp [hl], ?_⟩
    · unfold TrajectoryClient.sequencePoints
      rw [if_neg (not_not.mpr hsz.symm)]
      simp only []
      rw [hpts]
    · intro k hklt
      cases k with
      | zero =>
        rw [TrajectoryClient.copyPositions_eq jsize _ hsz, hdrop]
        simp
      | succ k =>
        rw [List.getElem?_cons_succ, hk k (by omega), hdrop, List.take_succ_cons,
          List.sum_cons, add_assoc d, Nat.add_right_comm i 1 k, Nat.add_assoc i k 1]

/-- A vector of another length than the joint list is not sent. -/
theorem TrajectoryClient.send_angle_vector_of_ne {α : Type} [Zero α]
    (self : TrajectoryClient α) (av : angle_vector α) (tm start : α)
    (h : av.length ≠ self.joint_list_.length) : self.send_angle_vector av tm start = self := by
  unfold TrajectoryClient.send_angle_vector
  rw [if_pos h]

/-- A vector of the joint list's length is sent as a single waypoint. -/
theorem TrajectoryClient.send_angle_vector_of_eq {α : Type} [Zero α]
    (self : TrajectoryClient α) (av : angle_vector α) (tm start : α)
    (h : av.length = self.joint_list_.length) :
    self.send_angle_vector av tm start =
      { self with
        sending_goal_ := true
        sent_goals := self.sent_goals ++
          [{ stamp := start, joint_names := self.joint_list_,
             points := [{ positions := av, time_from_start := tm }],
             goal_time_tolerance := self.goal_time_tolerance_ }] } := by
  unfold TrajectoryClient.send_angle_vector
  rw [if_neg (not_not.mpr h)]
  simp only [TrajectoryClient.copyPositions_eq _ av h]
  rfl

/-! ## Lemmas on `RobotInterface` -/

/-- Looking a key up after every value of the map went through `f`. -/
theorem StdMap.find_map_snd {β : Type} (f : β → β) (m : StdMap β) (k : String) :
    StdMap.find (m.map (fun kv => (kv.1, f kv.2))) k = (StdMap.find m k).map f := by
  induction m with
  | nil => rfl
  | cons p rest ih =>
    obtain ⟨k', v'⟩ := p
    by_cases h : k = k'
    · simp [StdMap.find, h]
    · simp only [List.map_cons, StdMap.find, if_neg h]
      exact ih

/-- The loop body for one controller, by the `bool` result of the conversion. -/
theorem RobotInterface.sendToController_eq {α : Type} [Zero α] (full : List String)
    (av : angle_vector α) (tm start : α) (c : TrajectoryClient α) :
    RobotInterface.sendToController full av tm start c =
      if (c.toTrajectoryBase.convertToAngleVector_names full av []).1 = true
      then c.send_angle_vector
        (c.toTrajectoryBase.convertToAngleVector_names full av []).2 tm start
      else c := by
  unfold RobotInterface.sendToController
  simp only []
  generalize c.toTrajectoryBase.convertToAngleVector_names full av [] = r
  obtain ⟨b, cav⟩ := r
  cases b <;> simp

/-- A controller none of whose joints is among the first `min` names of the
whole-robot list is skipped. -/
theorem RobotInterface.sendToController_skip {α : Type} [Zero α] (full : List String)
    (av : angle_vector α) (tm start : α) (c : TrajectoryClient α)
    (h : ∀ n, n ∈ c.joint_list_ → n ∉ full.take (min full.length av.length)) :
    RobotInterface.sendToController full av tm start c = c := by
  rw [RobotInterface.sendToController_eq]
  by_cases h0 : min full.length av.length = 0
  · rw [TrajectoryBase.convertToAngleVector_names_of_zero _ full av [] h0]
    simp
  · have hfst : (c.toTrajectoryBase.convertToAngleVector_names full av []).1 = false := by
      rw [TrajectoryBase.convertToAngleVector_names_of_pos _ full av [] h0,
        TrajectoryBase.convertToAngleVector_fst, Bool.eq_false_iff]
      intro htrue
      obtain ⟨n, hn, hc⟩ := List.any_eq_true.mp htrue
      exact h n hn ((TrajectoryBase.fillMap_contains_take full av _ (min_le_left _ _) n).mp hc)
    rw [hfst]
    simp

/-- A controller with a joint among the first `min` names of the whole-robot
list is sent a vector of its joint list's length: the map's angle where the
joint is a key, zero elsewhere. -/
theorem RobotInterface.sendToController_send {α : Type} [Zero α] (full : List String)
    (av : angle_vector α) (tm start : α) (c : TrajectoryClient α)
    (h : ∃ n, n ∈ c.joint_list_ ∧ n ∈ full.take (min full.length av.length)) :
    ∃ positions : angle_vector α,
      RobotInterface.sendToController full av tm start c =
        { c with
          sending_goal_ := true
          sent_goals := c.sent_goals ++
            [{ stamp := start, joint_names := c.joint_list_,
               points := [{ positions := positions, time_from_start := tm }],
               goal_time_tolerance := c.goal_time_tolerance_ }] } ∧
      positions.length = c.joint_list_.length ∧
      ∀ (j : Nat) (n : String), c.joint_list_[j]? = some n →
        positions[j]? = some ((StdMap.find
          (TrajectoryBase.fillMap full av (min full.length av.length) []) n).getD 0) := by
  obtain ⟨n, hn, hmem⟩ := h
  have h0 : min full.length av.length ≠ 0 := by
    intro h0
    rw [h0] at hmem
    simp at hmem
  have heq := TrajectoryBase.convertToAngleVector_names_of_pos c.toTrajectoryBase full av [] h0
  have hfst : (c.toTrajectoryBase.convertToAngleVector_names full av []).1 = true := by
    rw [heq, TrajectoryBase.convertToAngleVector_fst]
    exact List.any_eq_true.mpr ⟨n, hn,
      (TrajectoryBase.fillMap_contains_take full av _ (min_le_left _ _) n).mpr hmem⟩
  have hlen : (c.toTrajectoryBase.convertToAngleVector_names full av []).2.length
      = c.joint_list_.length := by
    rw [heq]
    exact TrajectoryBase.convertToAngleVector_length _ _ _
  have hval : ∀ (j : Nat) (n : String), c.joint_list_[j]? = some n →
      (c.toTrajectoryBase.convertToAngleVector_names full av []).2[j]? =
        some ((StdMap.find
          (TrajectoryBase.fillMap full av (min full.length av.length) []) n).getD 0) := by
    intro j n hj
    rw [heq, TrajectoryBase.convertToAngleVector_getElem? _ _ _ j (lt_length_of_getElem? hj),
      getD_of_getElem? "" hj]
    rfl
  refine ⟨(c.toTrajectoryBase.convertToAngleVector_names full av []).2, ?_, hlen, hval⟩
  rw [← TrajectoryClient.send_angle_vector_of_eq c _ tm start hlen,
    RobotInterface.sendToController_eq, if_pos hfst]

/-- Partial sums of non-negative durations grow with the number of terms. -/
theorem sum_take_mono {α : Type} [OrderedAddCommMonoid α] (l : List α)
    (hnn : ∀ t, t ∈ l → 0 ≤ t) (i j : Nat) (hij : i ≤ j) :
    (l.take i).sum ≤ (l.take j).sum := by
  obtain ⟨d, rfl⟩ := Nat.exists_eq_add_of_le hij
  rw [List.take_add, List.sum_append]
  apply le_add_of_nonneg_right
  apply List.sum_nonneg
  intro t ht
  exact hnn t (List.mem_of_mem_drop (List.mem_of_mem_take ht))

/-! ## Lemmas on the joint ordering -/

/-- The inner loop of `defineJointList` finds a name iff some controller of the
registry has it among its joints. -/
theorem RobotInterface.jointFound_iff {α : Type} (jname : String)
    (cs : StdMap (TrajectoryClient α)) :
    RobotInterface.jointFound jname cs = true ↔ ∃ kv, kv ∈ cs ∧ jname ∈ kv.2.joint_list_ := by
  induction cs with
  | nil => simp [RobotInterface.jointFound]
  | cons kv rest ih =>
    unfold RobotInterface.jointFound
    by_cases h : jname ∈ kv.2.getJointNames
    · rw [if_pos h]
      simp only [true_iff]
      exact ⟨kv, List.mem_cons_self _ _, h⟩
    · rw [if_neg h, ih]
      constructor
      · rintro ⟨kv', hmem, hj⟩
        exact ⟨kv', List.mem_cons_of_mem _ hmem, hj⟩
      · rintro ⟨kv', hmem, hj⟩
        rcases List.mem_cons.mp hmem with heq | hmem'
        · subst heq
          exact absurd hj h
        · exact ⟨kv', hmem', hj⟩

/-- The outer loop of `defineJointList` runs to its end iff every name is found. -/
theorem RobotInterface.allJointsFound_iff {α : Type} (cs : StdMap (TrajectoryClient α))
    (jl : List String) :
    RobotInterface.allJointsFound cs jl = true ↔
      ∀ n, n ∈ jl → RobotInterface.jointFound n cs = true := by
  induction jl with
  | nil => simp [RobotInterface.allJointsFound]
  | cons n rest ih =>
    unfold RobotInterface.allJointsFound
    by_cases h : RobotInterface.jointFound n cs = true
    · simp only [h, Bool.not_true, Bool.false_eq_true, if_false, ih, List.mem_cons]
      constructor
      · rintro hall m (rfl | hm)
        · exact h
        · exact hall m hm
      · intro hall m hm
        exact hall m (Or.inr hm)
    · have hf : RobotInterface.jointFound n cs = false := by simpa using h
      simp only [hf, Bool.not_false, if_true, Bool.false_eq_true, false_iff]
      intro hall
      exact h (hall n (List.mem_cons_self _ _))

/-! ## Lemmas on waiting -/

section waiting

variable {α : Type} [LinearOrderedField α]

/-- The very short time is positive. -/
theorem RobotInterface.remainTime_pos (diff : α) : 0 < RobotInterface.remainTime diff := by
  unfold RobotInterface.remainTime
  by_cases h : diff ≤ 0
  · rw [if_pos h]
    norm_num
  · rw [if_neg h]
    exact lt_of_not_le h

/-- The remaining time in the words of the specification. -/
theorem RobotInterface.remainTime_eq (diff : α) :
    RobotInterface.remainTime diff = if 0 < diff then diff else 0.000001 := by
  unfold RobotInterface.remainTime
  by_cases h : diff ≤ 0
  · rw [if_pos h, if_neg (not_lt.mpr h)]
  · rw [if_neg h, if_pos (lt_of_not_le h)]

/-- The timeouts of a loop that goes on after a completed wait are those of
the loop it is part of, one place later. -/
theorem RobotInterface.handedTimeout_succ (env : Env α) (tm_limit : α) (with_limit : Bool)
    (reads : Nat) (remain_tm : α) (i : Nat) :
    RobotInterface.handedTimeout env tm_limit with_limit
        (if with_limit then reads + 1 else reads)
        (if with_limit then RobotInterface.remainTime (tm_limit - env.now reads) else remain_tm) i
      = RobotInterface.handedTimeout env tm_limit with_limit reads remain_tm (i + 1) := by
  cases with_limit with
  | true =>
    cases i with
    | zero => simp [RobotInterface.handedTimeout]
    | succ i =>
      simp only [RobotInterface.handedTimeout, if_true]
      rw [show reads + 1 + i = reads + (i + 1) by omega]
  | false =>
    cases i <;> simp [RobotInterface.handedTimeout]

/-- One pass of the loop of `wait_interpolation(_tm)` whose wait reports
completion. -/
theorem RobotInterface.waitLoop_cons_true (env : Env α) (tm_limit : α) (with_limit : Bool)
    (kv : String × TrajectoryClient α) (rest : StdMap (TrajectoryClient α)) (remain_tm : α)
    (log : Log α) (h0 : env.waitResult log.waits = true) :
    RobotInterface.waitLoop env tm_limit with_limit (kv :: rest) remain_tm log =
      RobotInterface.waitLoop env tm_limit with_limit rest
        (if with_limit then RobotInterface.remainTime (tm_limit - env.now log.reads)
          else remain_tm)
        { reads := if with_limit then log.reads + 1 else log.reads
          waits := log.waits + 1
          events := log.events ++ [Event.wait kv.2.name_ remain_tm] } := by
  rw [RobotInterface.waitLoop]
  simp only [TrajectoryClient.wait_interpolation, h0]
  cases with_limit <;> simp

/-- One pass of the loop of `wait_interpolation(_tm)` whose wait reports a
timeout: the loop ends. -/
theorem RobotInterface.waitLoop_cons_false (env : Env α) (tm_limit : α) (with_limit : Bool)
    (kv : String × TrajectoryClient α) (rest : StdMap (TrajectoryClient α)) (remain_tm : α)
    (log : Log α) (h0 : env.waitResult log.waits = false) :
    RobotInterface.waitLoop env tm_limit with_limit (kv :: rest) remain_tm log =
      (false,
        { reads := log.reads
          waits := log.waits + 1
          events := log.events ++ [Event.wait kv.2.name_ remain_tm] }) := by
  rw [RobotInterface.waitLoop]
  simp only [TrajectoryClient.wait_interpolation, h0]

/-- When every wait reports completion, the loop of `wait_interpolation(_tm)`
waits on every controller in turn and reads the clock after each wait. -/
theorem RobotInterface.waitLoop_all (env : Env α) (tm_limit : α) (with_limit : Bool)
    (cs : StdMap (TrajectoryClient α)) :
    ∀ (remain_tm : α) (log : Log α),
      (∀ j, j < cs.length → env.waitResult (log.waits + j) = true) →
      RobotInterface.waitLoop env tm_limit with_limit cs remain_tm log =
        (true,
          { reads := log.reads + (if with_limit then cs.length else 0)
            waits := log.waits + cs.length
            events := log.events ++ cs.mapIdx (fun i kv => Event.wait kv.2.name_
              (RobotInterface.handedTimeout env tm_limit with_limit log.reads remain_tm i)) }) := by
  induction cs with
  | nil =>
    intro remain_tm log _
    simp [RobotInterface.waitLoop]
  | cons kv rest ih =>
    intro remain_tm log hall
    have h0 : env.waitResult log.waits = true := hall 0 (by simp)
    rw [RobotInterface.waitLoop_cons_true env tm_limit with_limit kv rest remain_tm log h0,
      ih _ _ (fun j hj => by
        have := hall (j + 1) (by simp; omega)
        rwa [show log.waits + (j + 1) = log.waits + 1 + j by omega] at this)]
    simp only [RobotInterface.handedTimeout_succ, List.mapIdx_cons, List.length_cons,
      List.append_assoc, List.singleton_append]
    refine Prod.ext rfl ?_
    simp only [Log.mk.injEq]
    refine ⟨?_, by omega, rfl⟩
    cases with_limit
    · simp
    · simp
      omega

/-- When the wait on controller `j` is the first to report a timeout, the loop
of `wait_interpolation(_tm)` ends there: it has waited on the controllers up to
`j` and read the clock after the `j` completed waits only. -/
theorem RobotInterface.waitLoop_fail (env : Env α) (tm_limit : α) (with_limit : Bool)
    (cs : StdMap (TrajectoryClient α)) :
    ∀ (j : Nat) (remain_tm : α) (log : Log α), j < cs.length →
      (∀ i, i < j → env.waitResult (log.waits + i) = true) →
      env.waitResult (log.waits + j) = false →
      RobotInterface.waitLoop env tm_limit with_limit cs remain_tm log =
        (false,
          { reads := log.reads + (if with_limit then j else 0)
            waits := log.waits + (j + 1)
            events := log.events ++ (cs.take (j + 1)).mapIdx (fun i kv => Event.wait kv.2.name_
              (RobotInterface.handedTimeout env tm_limit with_limit log.reads remain_tm i)) }) := by
  induction cs with
  | nil =>
    intro j remain_tm log hj
    simp at hj
  | cons kv rest ih =>
    intro j remain_tm log hj hbefore hfail
    cases j with
    | zero =>
      rw [RobotInterface.waitLoop_cons_false env tm_limit with_limit kv rest remain_tm log
        (by simpa using hfail)]
      simp [RobotInterface.handedTimeout]
    | succ j =>
      have h0 : env.waitResult log.waits = true := hbefore 0 (by omega)
      rw [RobotInterface.waitLoop_cons_true env tm_limit with_limit kv rest remain_tm log h0,
        ih j _ _ (by simpa using hj)
          (fun i hi => by
            have := hbefore (i + 1) (by omega)
            rwa [show log.waits + (i + 1) = log.waits + 1 + i by omega] at this)
          (by rwa [show log.waits + (j + 1) = log.waits + 1 + j by omega] at hfail)]
      simp only [RobotInterface.handedTimeout_succ, List.take_succ_cons, List.mapIdx_cons,
        List.append_assoc, List.singleton_append]
      refine Prod.ext rfl ?_
      simp only [Log.mk.injEq]
      refine ⟨?_, by omega, rfl⟩
      cases with_limit
      · simp
      · simp
        omega

/-- Either every one of the first `n` answers is `true`, or there is a first
`false` one. -/
theorem first_false_or_all (p : Nat → Bool) (n : Nat) :
    (∀ j, j < n → p j = true) ∨
      ∃ j, j < n ∧ (∀ i, i < j → p i = true) ∧ p j = false := by
  induction n with
  | zero => exact Or.inl (fun j hj => absurd hj (by omega))
  | succ n ih =>
    rcases ih with hall | ⟨j, hj, hbefore, hfail⟩
    · by_cases hn : p n = true
      · left
        intro j hj
        rcases Nat.lt_succ_iff_lt_or_eq.mp hj with h | h
        · exact hall j h
        · rw [h]
          exact hn
      · exact Or.inr ⟨n, by omega, hall, by simpa using hn⟩
    · exact Or.inr ⟨j, by omega, hbefore, hfail⟩

/-- The loop of `wait_interpolation(_tm)` waits on a first part of the
controllers, in their order, each with the timeout `handedTimeout` names; the
result tells whether the last issued wait reported completion. -/
theorem RobotInterface.waitLoop_prefix (env : Env α) (tm_limit : α) (with_limit : Bool)
    (cs : StdMap (TrajectoryClient α)) (remain_tm : α) (log : Log α) :
    ∃ k, k ≤ cs.length ∧
      (RobotInterface.waitLoop env tm_limit with_limit cs remain_tm log).2.events =
        log.events ++ (cs.take k).mapIdx (fun i kv => Event.wait kv.2.name_
          (RobotInterface.handedTimeout env tm_limit with_limit log.reads remain_tm i)) ∧
      (RobotInterface.waitLoop env tm_limit with_limit cs remain_tm log).2.waits
        = log.waits + k ∧
      (∀ i, i + 1 < k → env.waitResult (log.waits + i) = true) ∧
      ((RobotInterface.waitLoop env tm_limit with_limit cs remain_tm log).1 = true →
        k = cs.length ∧ ∀ i, i < k → env.waitResult (log.waits + i) = true) ∧
      ((RobotInterface.waitLoop env tm_limit with_limit cs remain_tm log).1 = false →
        0 < k ∧ env.waitResult (log.waits + (k - 1)) = false ∧
        (RobotInterface.waitLoop env tm_limit with_limit cs remain_tm log).2.reads
          = log.reads + (if with_limit then k - 1 else 0)) := by
  rcases first_false_or_all (fun j => env.waitResult (log.waits + j)) cs.length with
    hall | ⟨j, hj, hbefore, hfail⟩
  · refine ⟨cs.length, le_refl _, ?_, ?_, fun i hi => hall i (by omega), ?_, ?_⟩
    · rw [RobotInterface.waitLoop_all env tm_limit with_limit cs remain_tm log hall,
        List.take_length]
    · rw [RobotInterface.waitLoop_all env tm_limit with_limit cs remain_tm log hall]
    · intro _
      exact ⟨rfl, hall⟩
    · intro h
      rw [RobotInterface.waitLoop_all env tm_limit with_limit cs remain_tm log hall] at h
      exact absurd h (by simp)
  · have hrun := RobotInterface.waitLoop_fail env tm_limit with_limit cs j remain_tm log hj
      hbefore hfail
    refine ⟨j + 1, by omega, by rw [hrun], by rw [hrun],
      fun i hi => hbefore i (by omega), ?_, ?_⟩
    · intro h
      rw [hrun] at h
      exact absurd h (by simp)
    · intro _
      refine ⟨by omega, by simpa using hfail, ?_⟩
      rw [hrun]
      simp

/-- A name that is not registered: the loop of `wait_interpolation(_names, _tm)`
waits on nothing and goes on. -/
theorem RobotInterface.waitLoopNames_cons_none (env : Env α)
    (cs : StdMap (TrajectoryClient α)) (tm_limit : α) (with_limit : Bool) (name : String)
    (rest : List String) (remain_tm : α) (log : Log α) (hfind : cs.find name = none) :
    RobotInterface.waitLoopNames env cs tm_limit with_limit (name :: rest) remain_tm log =
      RobotInterface.waitLoopNames env cs tm_limit with_limit rest
        (if with_limit then RobotInterface.remainTime (tm_limit - env.now log.reads)
          else remain_tm)
        { reads := if with_limit then log.reads + 1 else log.reads
          waits := log.waits
          events := log.events } := by
  rw [RobotInterface.waitLoopNames]
  simp only [hfind]
  cases with_limit <;> simp

/-- A registered name whose wait reports completion. -/
theorem RobotInterface.waitLoopNames_cons_true (env : Env α)
    (cs : StdMap (TrajectoryClient α)) (tm_limit : α) (with_limit : Bool) (name : String)
    (rest : List String) (remain_tm : α) (log : Log α) (c : TrajectoryClient α)
    (hfind : cs.find name = some c) (h0 : env.waitResult log.waits = true) :
    RobotInterface.waitLoopNames env cs tm_limit with_limit (name :: rest) remain_tm log =
      RobotInterface.waitLoopNames env cs tm_limit with_limit rest
        (if with_limit then RobotInterface.remainTime (tm_limit - env.now log.reads)
          else remain_tm)
        { reads := if with_limit then log.reads + 1 else log.reads
          waits := log.waits + 1
          events := log.events ++ [Event.wait c.name_ remain_tm] } := by
  rw [RobotInterface.waitLoopNames]
  simp only [hfind, TrajectoryClient.wait_interpolation, h0]
  cases with_limit <;> simp

/-- A registered name whose wait reports a timeout: the loop ends. -/
theorem RobotInterface.waitLoopNames_cons_false (env : Env α)
    (cs : StdMap (TrajectoryClient α)) (tm_limit : α) (with_limit : Bool) (name : String)
    (rest : List String) (remain_tm : α) (log : Log α) (c : TrajectoryClient α)
    (hfind : cs.find name = some c) (h0 : env.waitResult log.waits = false) :
    RobotInterface.waitLoopNames env cs tm_limit with_limit (name :: rest) remain_tm log =
      (false,
        { reads := log.reads
          waits := log.waits + 1
          events := log.events ++ [Event.wait c.name_ remain_tm] }) := by
  rw [RobotInterface.waitLoopNames]
  simp only [hfind, TrajectoryClient.wait_interpolation, h0]

/-- Started with a positive timeout, the loop of
`wait_interpolation(_names, _tm)` only issues waits with a positive timeout. -/
theorem RobotInterface.waitLoopNames_pos (env : Env α) (cs : StdMap (TrajectoryClient α))
    (tm_limit : α) (with_limit : Bool) (names : List String) :
    ∀ (remain_tm : α) (log : Log α), 0 < remain_tm →
      ∃ new : List (Event α),
        (RobotInterface.waitLoopNames env cs tm_limit with_limit names remain_tm log).2.events
          = log.events ++ new ∧
        ∀ e, e ∈ new → ∃ name tm, e = Event.wait name tm ∧ 0 < tm := by
  induction names with
  | nil =>
    intro remain_tm log _
    exact ⟨[], by simp [RobotInterface.waitLoopNames], fun e he => absurd he (by simp)⟩
  | cons name rest ih =>
    intro remain_tm log hpos
    have hnext : 0 < (if with_limit then RobotInterface.remainTime (tm_limit - env.now log.reads)
        else remain_tm) := by
      cases with_limit
      · simpa using hpos
      · simpa using RobotInterface.remainTime_pos _
    cases hfind : cs.find name with
    | none =>
      rw [RobotInterface.waitLoopNames_cons_none env cs tm_limit with_limit name rest remain_tm
        log hfind]
      exact ih _ _ hnext
    | some c =>
      cases h0 : env.waitResult log.waits with
      | false =>
        rw [RobotInterface.waitLoopNames_cons_false env cs tm_limit with_limit name rest
          remain_tm log c hfind h0]
        refine ⟨[Event.wait c.name_ remain_tm], rfl, ?_⟩
        intro e he
        rw [List.mem_singleton] at he
        exact ⟨c.name_, remain_tm, he, hpos⟩
      | true =>
        rw [RobotInterface.waitLoopNames_cons_true env cs tm_limit with_limit name rest
          remain_tm log c hfind h0]
        obtain ⟨new, hnew, hall⟩ := ih _
          { reads := if with_limit then log.reads + 1 else log.reads
            waits := log.waits + 1
            events := log.events ++ [Event.wait c.name_ remain_tm] } hnext
        refine ⟨Event.wait c.name_ remain_tm :: new, ?_, ?_⟩
        · rw [hnew]
          simp
        · intro e he
          rcases List.mem_cons.mp he with h | h
          · exact ⟨c.name_, remain_tm, h, hpos⟩
          · exact hall e h

/-- Times `t 0, t 1, ...` at which the waits of one call return: when the first
wait returns within `T` and every later one within the remaining time it was
handed, wait number `i + 1` returns at most `i` very short times after the
deadline `t 0 + T`. -/
theorem budget_bound (t : Nat → α) (T : α)
    (k : Nat) (h0 : 0 < k → t 1 - t 0 ≤ T)
    (hstep : ∀ i, 1 ≤ i → i < k →
      t (i + 1) - t i ≤ RobotInterface.remainTime (t 0 + T - t i)) :
    ∀ i, i < k → t (i + 1) ≤ t 0 + T + (i : α) * 0.000001 := by
  intro i
  induction i with
  | zero =>
    intro hk
    have := h0 hk
    simp only [Nat.cast_zero, zero_mul, add_zero]
    linarith
  | succ i ih =>
    intro hk
    have hprev := ih (by omega)
    have hs := hstep (i + 1) (by omega) hk
    have heps : (0 : α) ≤ (i : α) * 0.000001 := by positivity
    unfold RobotInterface.remainTime at hs
    push_cast
    by_cases hle : t 0 + T - t (i + 1) ≤ 0
    · rw [if_pos hle] at hs
      linarith
    · rw [if_neg hle] at hs
      have : (0 : α) ≤ 0.000001 := by norm_num
      linarith

/-- The result of the loop of `wait_interpolation(_names, _tm)` tells whether
the last wait it issued reported completion; the waits before it all did. -/
theorem RobotInterface.waitLoopNames_result (env : Env α) (cs : StdMap (TrajectoryClient α))
    (tm_limit : α) (with_limit : Bool) (names : List String) :
    ∀ (remain_tm : α) (log : Log α),
      ∃ k, (RobotInterface.waitLoopNames env cs tm_limit with_limit names remain_tm log).2.waits
          = log.waits + k ∧
        ((RobotInterface.waitLoopNames env cs tm_limit with_limit names remain_tm log).1 = true →
          ∀ i, i < k → env.waitResult (log.waits + i) = true) ∧
        ((RobotInterface.waitLoopNames env cs tm_limit with_limit names remain_tm log).1 = false →
          0 < k ∧ env.waitResult (log.waits + (k - 1)) = false) := by
  induction names with
  | nil =>
    intro remain_tm log
    refine ⟨0, by simp [RobotInterface.waitLoopNames], fun _ i hi => absurd hi (by omega), ?_⟩
    intro h
    simp [RobotInterface.waitLoopNames] at h
  | cons name rest ih =>
    intro remain_tm log
    cases hfind : cs.find name with
    | none =>
      rw [RobotInterface.waitLoopNames_cons_none env cs tm_limit with_limit name rest remain_tm
        log hfind]
      exact ih _ _
    | some c =>
      cases h0 : env.waitResult log.waits with
      | false =>
        rw [RobotInterface.waitLoopNames_cons_false env cs tm_limit with_limit name rest
          remain_tm log c hfind h0]
        exact ⟨1, rfl, fun h => absurd h (by simp), fun _ => ⟨by omega, by simpa using h0⟩⟩
      | true =>
        rw [RobotInterface.waitLoopNames_cons_true env cs tm_limit with_limit name rest
          remain_tm log c hfind h0]
        obtain ⟨k, hk, htrue, hfalse⟩ := ih
          (if with_limit then RobotInterface.remainTime (tm_limit - env.now log.reads)
            else remain_tm)
          { reads := if with_limit then log.reads + 1 else log.reads
            waits := log.waits + 1
            events := log.events ++ [Event.wait c.name_ remain_tm] }
        refine ⟨k + 1, by rw [hk]; simp only []; omega, ?_, ?_⟩
        · intro h i hi
          cases i with
          | zero => exact h0
          | succ i =>
            have := htrue h i (by omega)
            simp only [] at this
            rwa [show log.waits + 1 + i = log.waits + (i + 1) by omega] at this
        · intro h
          obtain ⟨hk0, hf⟩ := hfalse h
          refine ⟨by omega, ?_⟩
          simp only [] at hf
          rwa [show log.waits + 1 + (k - 1) = log.waits + (k + 1 - 1) by omega] at hf

/-- When the names `pre` are waited on with completion and the wait on the
registered name after them reports a timeout, the loop of
`wait_interpolation(_names, _tm)` ends there, whatever names follow. -/
theorem RobotInterface.waitLoopNames_stop (env : Env α) (cs : StdMap (TrajectoryClient α))
    (tm_limit : α) (with_limit : Bool) (name : String) (c : TrajectoryClient α)
    (post : List String) (hfind : cs.find name = some c) (pre : List String) :
    ∀ (remain_tm : α) (log : Log α),
      (RobotInterface.waitLoopNames env cs tm_limit with_limit pre remain_tm log).1 = true →
      env.waitResult
        (RobotInterface.waitLoopNames env cs tm_limit with_limit pre remain_tm log).2.waits
          = false →
      ∃ tm : α,
        RobotInterface.waitLoopNames env cs tm_limit with_limit (pre ++ name :: post)
            remain_tm log =
          (false,
            { reads := (RobotInterface.waitLoopNames env cs tm_limit with_limit pre
                remain_tm log).2.reads
              waits := (RobotInterface.waitLoopNames env cs tm_limit with_limit pre
                remain_tm log).2.waits + 1
              events := (RobotInterface.waitLoopNames env cs tm_limit with_limit pre
                remain_tm log).2.events ++ [Event.wait c.name_ tm] }) := by
  induction pre with
  | nil =>
    intro remain_tm log _ hfail
    simp only [RobotInterface.waitLoopNames] at hfail
    refine ⟨remain_tm, ?_⟩
    rw [List.nil_append, RobotInterface.waitLoopNames_cons_false env cs tm_limit with_limit
      name post remain_tm log c hfind hfail]
    simp [RobotInterface.waitLoopNames]
  | cons p pre ih =>
    intro remain_tm log hok hfail
    cases hp : cs.find p with
    | none =>
      rw [RobotInterface.waitLoopNames_cons_none env cs tm_limit with_limit p pre remain_tm
        log hp] at hok hfail ⊢
      rw [List.cons_append, RobotInterface.waitLoopNames_cons_none env cs tm_limit with_limit p
        (pre ++ name :: post) remain_tm log hp]
      exact ih _ _ hok hfail
    | some cp =>
      cases h0 : env.waitResult log.waits with
      | false =>
        rw [RobotInterface.waitLoopNames_cons_false env cs tm_limit with_limit p pre remain_tm
          log cp hp h0] at hok
        exact absurd hok (by simp)
      | true =>
        rw [RobotInterface.waitLoopNames_cons_true env cs tm_limit with_limit p pre remain_tm
          log cp hp h0] at hok hfail ⊢
        rw [List.cons_append, RobotInterface.waitLoopNames_cons_true env cs tm_limit with_limit
          p (pre ++ name :: post) remain_tm log cp hp h0]
        exact ih _ _ hok hfail

end waiting

/-- The channels of a list of waits built from a list by position. -/
theorem map_name_mapIdx_wait {α β : Type} (l : List β) (g : β → String) (t : Nat → α) :
    (l.mapIdx (fun i x => Event.wait (g x) (t i))).map Event.name = l.map g := by
  apply List.ext_getElem?
  intro i
  rw [List.getElem?_map, List.getElem?_mapIdx, List.getElem?_map]
  cases l[i]? <;> simp [Event.name]

/-- The waits of `exampleRobot3Q` in the world `exampleEnv` with a budget of 1. -/
theorem exampleRobot3Q_events :
    (exampleRobot3Q.wait_interpolation exampleEnv 1 emptyLog).2.events =
      [Event.wait "arm" 1, Event.wait "head" (1 / 10), Event.wait "torso" (1 / 1000000)] := by
  have h : exampleRobot3Q.controllers_ = [("arm", exampleArmQ.setName "arm"),
      ("head", exampleHeadQ.setName "head"), ("torso", exampleTorsoQ.setName "torso")] := by
    decide
  simp only [RobotInterface.wait_interpolation, h, RobotInterface.waitLoop,
    TrajectoryClient.wait_interpolation, exampleEnv, emptyLog, RobotInterface.remainTime,
    TrajectoryClient.setName]
  norm_num


/-! ## Lemmas on `interpolatingp` -/

/-- The first loop of `interpolatingp()` answers true iff some controller's
goal state is `ACTIVE`. -/
theorem RobotInterface.anyInterpolating_iff {α : Type} [LinearOrderedField α] (env : Env α)
    (cs : StdMap (TrajectoryClient α)) :
    RobotInterface.anyInterpolating env cs = true ↔
      ∃ kv, kv ∈ cs ∧ env.getState kv.2.name_ = SimpleClientGoalState.ACTIVE := by
  induction cs with
  | nil => simp [RobotInterface.anyInterpolating]
  | cons kv rest ih =>
    unfold RobotInterface.anyInterpolating
    by_cases h : env.getState kv.2.name_ = SimpleClientGoalState.ACTIVE
    · simp only [TrajectoryClient.interpolatingp, h, decide_True, if_true, true_iff]
      exact ⟨kv, List.mem_cons_self _ _, h⟩
    · simp only [TrajectoryClient.interpolatingp, h, decide_False, Bool.false_eq_true,
        if_false, ih, List.mem_cons]
      constructor
      · rintro ⟨kv', hmem, hs⟩
        exact ⟨kv', Or.inr hmem, hs⟩
      · rintro ⟨kv', hmem | hmem, hs⟩
        · exact absurd (hmem ▸ hs) h
        · exact ⟨kv', hmem, hs⟩

/-- The first loop of `interpolatingp(_names)` answers true iff some name is
registered to a channel whose goal state is `ACTIVE`. -/
theorem RobotInterface.anyInterpolatingNames_iff {α : Type} [LinearOrderedField α]
    (env : Env α) (cs : StdMap (TrajectoryClient α)) (names : List String) :
    RobotInterface.anyInterpolatingNames env cs names = true ↔
      ∃ n c, n ∈ names ∧ cs.find n = some c ∧
        env.getState c.name_ = SimpleClientGoalState.ACTIVE := by
  induction names with
  | nil => simp [RobotInterface.anyInterpolatingNames]
  | cons name rest ih =>
    unfold RobotInterface.anyInterpolatingNames
    cases hfind : cs.find name with
    | none =>
      simp only [ih, List.mem_cons]
      constructor
      · rintro ⟨n, c, hn, hc, hs⟩
        exact ⟨n, c, Or.inr hn, hc, hs⟩
      · rintro ⟨n, c, hn | hn, hc, hs⟩
        · rw [hn, hfind] at hc
          exact Option.noConfusion hc
        · exact ⟨n, c, hn, hc, hs⟩
    | some c0 =>
      by_cases h : env.getState c0.name_ = SimpleClientGoalState.ACTIVE
      · simp only [TrajectoryClient.interpolatingp, h, decide_True, if_true, true_iff]
        exact ⟨name, c0, List.mem_cons_self _ _, hfind, h⟩
      · simp only [TrajectoryClient.interpolatingp, h, decide_False, Bool.false_eq_true,
          if_false, ih, List.mem_cons]
        constructor
        · rintro ⟨n, c, hn, hc, hs⟩
          exact ⟨n, c, Or.inr hn, hc, hs⟩
        · rintro ⟨n, c, hn | hn, hc, hs⟩
          · rw [hn, hfind] at hc
            exact absurd ((Option.some.inj hc) ▸ hs) h
          · exact ⟨n, c, hn, hc, hs⟩

/-- Over names none of which is registered, the loop of
`wait_interpolation(_names, _tm)` waits on nothing and returns true. -/
theorem RobotInterface.waitLoopNames_unknown {α : Type} [LinearOrderedField α] (env : Env α)
    (cs : StdMap (TrajectoryClient α)) (tm_limit : α) (with_limit : Bool)
    (names : List String) (hnone : ∀ n, n ∈ names → cs.find n = none) :
    ∀ (remain_tm : α) (log : Log α),
      (RobotInterface.waitLoopNames env cs tm_limit with_limit names remain_tm log).1 = true ∧
      (RobotInterface.waitLoopNames env cs tm_limit with_limit names remain_tm log).2.events
        = log.events ∧
      (RobotInterface.waitLoopNames env cs tm_limit with_limit names remain_tm log).2.waits
        = log.waits := by
  induction names with
  | nil =>
    intro remain_tm log
    simp [RobotInterface.waitLoopNames]
  | cons name rest ih =>
    intro remain_tm log
    rw [RobotInterface.waitLoopNames_cons_none env cs tm_limit with_limit name rest remain_tm
      log (hnone name (List.mem_cons_self _ _))]
    exact ih (fun n hn => hnone n (List.mem_cons_of_mem _ hn)) _ _

/-! ## Lemmas on the registry -/

/-- An entry of the map after `m[k] = v` is the new pair or an old entry. -/
theorem StdMap.mem_insert {β : Type} (m : StdMap β) (k : String) (v : β) (kv : String × β)
    (h : kv ∈ m.insert k v) : kv = (k, v) ∨ kv ∈ m := by
  induction m with
  | nil =>
    simp only [StdMap.insert, List.mem_singleton] at h
    exact Or.inl h
  | cons p rest ih =>
    obtain ⟨k1, v1⟩ := p
    unfold StdMap.insert at h
    by_cases h1 : k = k1
    · rw [if_pos h1] at h
      rcases List.mem_cons.mp h with h | h
      · exact Or.inl h
      · exact Or.inr (List.mem_cons_of_mem _ h)
    · rw [if_neg h1] at h
      by_cases h2 : strLt k k1 = true
      · rw [if_pos h2] at h
        rcases List.mem_cons.mp h with h | h
        · exact Or.inl h
        · exact Or.inr h
      · rw [if_neg h2] at h
        rcases List.mem_cons.mp h with h | h
        · exact Or.inr (h ▸ List.mem_cons_self _ _)
        · rcases ih h with h | h
          · exact Or.inl h
          · exact Or.inr (List.mem_cons_of_mem _ h)

/-- The keys after `m[k] = v`: `k` and the old keys. -/
theorem StdMap.mem_keys_insert {β : Type} (m : StdMap β) (k : String) (v : β) (k' : String) :
    k' ∈ (m.insert k v).map Prod.fst ↔ k' = k ∨ k' ∈ m.map Prod.fst := by
  induction m with
  | nil => simp [StdMap.insert]
  | cons p rest ih =>
    obtain ⟨k1, v1⟩ := p
    unfold StdMap.insert
    by_cases h1 : k = k1
    · subst h1
      simp
    · rw [if_neg h1]
      by_cases h2 : strLt k k1 = true
      · rw [if_pos h2]
        simp
      · rw [if_neg h2]
        simp only [List.map_cons, List.mem_cons, ih]
        tauto

/-- The map keeps its keys in strictly ascending order under `m[k] = v`. -/
theorem StdMap.insert_sorted {β : Type} (m : StdMap β) (k : String) (v : β)
    (h : (m.map Prod.fst).Pairwise (fun a b => strLt a b = true)) :
    ((m.insert k v).map Prod.fst).Pairwise (fun a b => strLt a b = true) := by
  induction m with
  | nil => simp [StdMap.insert]
  | cons p rest ih =>
    obtain ⟨k1, v1⟩ := p
    simp only [List.map_cons, List.pairwise_cons] at h
    obtain ⟨hhead, htail⟩ := h
    unfold StdMap.insert
    by_cases h1 : k = k1
    · subst h1
      rw [if_pos rfl]
      simp only [List.map_cons, List.pairwise_cons]
      exact ⟨hhead, htail⟩
    · rw [if_neg h1]
      by_cases h2 : strLt k k1 = true
      · rw [if_pos h2]
        simp only [List.map_cons, List.pairwise_cons, List.mem_cons]
        refine ⟨?_, hhead, htail⟩
        rintro b (rfl | hb)
        · exact h2
        · exact (strLt_iff k b).mpr
            (lt_trans ((strLt_iff k k1).mp h2) ((strLt_iff k1 b).mp (hhead b hb)))
      · rw [if_neg h2]
        simp only [List.map_cons, List.pairwise_cons]
        refine ⟨?_, ih htail⟩
        intro b hb
        rcases (StdMap.mem_keys_insert rest k v b).mp hb with rfl | hb
        · have hnlt : ¬ b < k1 := fun hlt => h2 ((strLt_iff b k1).mpr hlt)
          exact (strLt_iff k1 b).mpr (lt_of_le_of_ne (not_lt.mp hnlt) (Ne.symm h1))
        · exact hhead b hb

/-- A key has no entry iff it is not among the keys. -/
theorem StdMap.find_eq_none_iff {β : Type} (m : StdMap β) (k : String) :
    m.find k = none ↔ k ∉ m.map Prod.fst := by
  induction m with
  | nil => simp [StdMap.find]
  | cons p rest ih =>
    obtain ⟨k1, v1⟩ := p
    unfold StdMap.find
    by_cases h1 : k = k1
    · simp [h1]
    · rw [if_neg h1, ih]
      simp [h1]

/-- What `add_controller` keeps true of the registry: ascending keys, and
every channel named by its key. -/
theorem RobotInterface.add_controller_registry {α : Type} [Zero α] (self : RobotInterface α)
    (key : String) (p : TrajectoryClient α) (update : Bool)
    (hsorted : (self.controllers_.map Prod.fst).Pairwise (fun a b => strLt a b = true))
    (hname : ∀ kv, kv ∈ self.controllers_ → kv.2.name_ = kv.1) :
    (((self.add_controller key p update).2.controllers_.map Prod.fst).Pairwise
        (fun a b => strLt a b = true)) ∧
    (∀ kv, kv ∈ (self.add_controller key p update).2.controllers_ → kv.2.name_ = kv.1) ∧
    (∀ k, k ∈ (self.add_controller key p update).2.controllers_.map Prod.fst ↔
      k = key ∨ k ∈ self.controllers_.map Prod.fst) := by
  unfold RobotInterface.add_controller
  cases hfind : self.controllers_.find key with
  | none =>
    simp only []
    refine ⟨StdMap.insert_sorted _ _ _ hsorted, ?_, StdMap.mem_keys_insert _ _ _⟩
    intro kv hkv
    rcases StdMap.mem_insert _ _ _ _ hkv with h | h
    · rw [h]
      rfl
    · exact hname kv h
  | some c =>
    simp only []
    refine ⟨hsorted, hname, ?_⟩
    intro k
    constructor
    · exact fun h => Or.inr h
    · rintro (rfl | h)
      · by_contra hno
        rw [(StdMap.find_eq_none_iff _ _).mpr hno] at hfind
        exact Option.noConfusion hfind
      · exact h

/-- The registry after any sequence of registrations, started from a registry
with ascending keys and channels named by their keys. -/
theorem RobotInterface.foldl_add_controller_registry {α : Type} [Zero α]
    (regs : List (String × TrajectoryClient α × Bool)) :
    ∀ ri : RobotInterface α,
      (ri.controllers_.map Prod.fst).Pairwise (fun a b => strLt a b = true) →
      (∀ kv, kv ∈ ri.controllers_ → kv.2.name_ = kv.1) →
      (((regs.foldl (fun ri r => (ri.add_controller r.1 r.2.1 r.2.2).2) ri).controllers_.map
          Prod.fst).Pairwise (fun a b => strLt a b = true)) ∧
      (∀ kv, kv ∈ (regs.foldl (fun ri r => (ri.add_controller r.1 r.2.1 r.2.2).2)
          ri).controllers_ → kv.2.name_ = kv.1) ∧
      (∀ k, k ∈ (regs.foldl (fun ri r => (ri.add_controller r.1 r.2.1 r.2.2).2)
          ri).controllers_.map Prod.fst ↔
        k ∈ ri.controllers_.map Prod.fst ∨ k ∈ regs.map Prod.fst) := by
  induction regs with
  | nil =>
    intro ri hs hn
    exact ⟨hs, hn, fun k => by simp⟩
  | cons r rest ih =>
    intro ri hs hn
    obtain ⟨hs1, hn1, hk1⟩ := RobotInterface.add_controller_registry ri r.1 r.2.1 r.2.2 hs hn
    obtain ⟨hs2, hn2, hk2⟩ := ih _ hs1 hn1
    refine ⟨hs2, hn2, ?_⟩
    intro k
    rw [List.foldl_cons, hk2, hk1]
    simp only [List.map_cons, List.mem_cons]
    tauto

/-- When every wait reports completion, `wait_interpolation(_tm)` waits on the
channels of the registry in its order. -/
theorem RobotInterface.wait_interpolation_names_of_all {α : Type} [LinearOrderedField α]
    (env : Env α) (self : RobotInterface α) (tm : α) (log : Log α)
    (hall : ∀ j, j < self.controllers_.length → env.waitResult (log.waits + j) = true) :
    (self.wait_interpolation env tm log).2.events.map Event.name =
      log.events.map Event.name ++ self.controllers_.map (fun kv => kv.2.name_) := by
  unfold RobotInterface.wait_interpolation
  simp only []
  rw [RobotInterface.waitLoop_all env _ _ self.controllers_ tm
    ({ reads := log.reads + 1, waits := log.waits, events := log.events } : Log α) hall]
  simp only [List.map_append]
  rw [map_name_mapIdx_wait self.controllers_ (fun kv => kv.2.name_)]

/-! ## Lemmas on named targets -/

/-- The key of an entry of the map has an entry. -/
theorem StdMap.contains_of_mem {β : Type} (m : StdMap β) (kv : String × β) (h : kv ∈ m) :
    m.contains kv.1 = true := by
  unfold StdMap.contains
  cases hf : m.find kv.1 with
  | none =>
    exact absurd (List.mem_map_of_mem Prod.fst h) ((StdMap.find_eq_none_iff m kv.1).mp hf)
  | some v => rfl

/-- C1 as stated fails for the (names, positions) overload: with empty (hence
equal-length) lists the call returns before `_av` is resized, so a passed-in
vector of three angles keeps its three elements on a two-joint list. -/
theorem convertToAngleVector_names_length_counterexample :
    ([] : List String).length = ([] : List ℤ).length ∧
    exampleBase.convertToAngleVector_names [] [] [1, 2, 3] = (false, [1, 2, 3]) ∧
    (exampleBase.convertToAngleVector_names [] [] [1, 2, 3]).2.length
      ≠ exampleBase.joint_list_.length := by
  decide

/-- C1 (amended): `convertToAngleVector(map, av)` returns true iff some name of
the joint list is a key of the map, leaves a vector of the joint list's length,
and every slot whose joint is a key holds the map's value.  For the
(names, positions) overload with equal-length NON-EMPTY lists the same holds
with the map built from the pairs (a repeated name keeps its last position);
with empty lists it returns false and leaves the vector as passed in.  In both
cases it returns false when no listed joint is among the names. -/
theorem convertToAngleVector_spec {α : Type} [Zero α] (self : TrajectoryBase α)
    (jmap : joint_angle_map α) (av : angle_vector α)
    (names : List String) (positions : List α)
    (hlen : names.length = positions.length) :
    (((self.convertToAngleVector jmap av).1 = true ↔
        ∃ n, n ∈ self.joint_list_ ∧ jmap.contains n = true) ∧
      (self.convertToAngleVector jmap av).2.length = self.joint_list_.length ∧
      (∀ (i : Nat) (n : String) (v : α), self.joint_list_[i]? = some n → jmap.find n = some v →
        (self.convertToAngleVector jmap av).2[i]? = some v)) ∧
    (names ≠ [] →
      (((self.convertToAngleVector_names names positions av).1 = true ↔
          ∃ n, n ∈ self.joint_list_ ∧ n ∈ names) ∧
        (self.convertToAngleVector_names names positions av).2.length
          = self.joint_list_.length ∧
        (∀ (i : Nat) (n : String) (j : Nat), self.joint_list_[i]? = some n →
          names[j]? = some n → (∀ j' : Nat, j < j' → names[j']? ≠ some n) →
          (self.convertToAngleVector_names names positions av).2[i]? = positions[j]?))) ∧
    (names = [] → self.convertToAngleVector_names names positions av = (false, av)) ∧
    ((∀ n, n ∈ self.joint_list_ → n ∉ names) →
      (self.convertToAngleVector_names names positions av).1 = false) := by
  have hmapfst : ∀ m : joint_angle_map α, ((self.convertToAngleVector m av).1 = true ↔
      ∃ n, n ∈ self.joint_list_ ∧ m.contains n = true) := by
    intro m
    rw [TrajectoryBase.convertToAngleVector_fst, List.any_eq_true]
  have hmapval : ∀ (m : joint_angle_map α) (i : Nat) (n : String) (v : α),
      self.joint_list_[i]? = some n →
      m.find n = some v → (self.convertToAngleVector m av).2[i]? = some v := by
    intro m i n v hi hv
    rw [TrajectoryBase.convertToAngleVector_getElem? self m av i (lt_length_of_getElem? hi),
      getD_of_getElem? "" hi, hv]
    rfl
  have hkeys := TrajectoryBase.fillMap_keys names positions
  refine ⟨⟨hmapfst jmap, TrajectoryBase.convertToAngleVector_length self jmap av,
    hmapval jmap⟩, ?_, ?_, ?_⟩
  · intro hne
    rw [TrajectoryBase.convertToAngleVector_names_eq self names positions av hlen hne]
    refine ⟨?_, TrajectoryBase.convertToAngleVector_length self _ av, ?_⟩
    · rw [hmapfst]
      constructor
      · rintro ⟨n, hn, hc⟩
        exact ⟨n, hn, (hkeys n).mp hc⟩
      · rintro ⟨n, hn, hc⟩
        exact ⟨n, hn, (hkeys n).mpr hc⟩
    · intro i n j hi hj hlast
      have hjlt : j < names.length := lt_length_of_getElem? hj
      rw [getElem?_of_lt_getD positions j 0 (by omega)]
      apply hmapval _ i n _ hi
      apply TrajectoryBase.fillMap_find_last names positions [] n names.length j hjlt
        (getD_of_getElem? "" hj)
      intro j' h1 h2 h3
      apply hlast j' h1
      rw [getElem?_of_lt_getD names j' "" h2, h3]
  · intro hnil
    subst hnil
    exact TrajectoryBase.convertToAngleVector_names_nil self positions av
  · intro hdisj
    by_cases hne : names = []
    · subst hne
      rw [TrajectoryBase.convertToAngleVector_names_nil]
    · rw [TrajectoryBase.convertToAngleVector_names_eq self names positions av hlen hne]
      rw [Bool.eq_false_iff]
      intro htrue
      obtain ⟨n, hn, hc⟩ := (hmapfst _).mp htrue
      exact hdisj n hn ((hkeys n).mp hc)

/-- Instance of `convertToAngleVector_spec`: names `elbow, wrist` with positions
`7, 8` on the joint list `shoulder, elbow` and the passed-in vector `1, 2`. -/
theorem convertToAngleVector_spec_witness :
    ["elbow", "wrist"].length = [(7 : ℤ), 8].length ∧
    (exampleBase.convertToAngleVector [("elbow", 5)] [1, 2]).2.length
      = exampleBase.joint_list_.length ∧
    (exampleBase.convertToAngleVector_names ["elbow", "wrist"] [7, 8] [1, 2]).2.length
      = exampleBase.joint_list_.length ∧
    exampleBase.convertToAngleVector_names ["elbow", "wrist"] [7, 8] [1, 2] = (true, [1, 7]) :=
  ⟨by decide,
    (convertToAngleVector_spec exampleBase [("elbow", 5)] [1, 2] ["elbow", "wrist"] [7, 8]
      (by decide)).1.2.1,
    ((convertToAngleVector_spec exampleBase [("elbow", 5)] [1, 2] ["elbow", "wrist"] [7, 8]
      (by decide)).2.1 (by decide)).2.1,
    by decide⟩

/-- C2 as stated fails when the passed-in vector and the joint list differ in
length: a short vector is padded with zeros (slot 1, whose joint is absent from
the map, holds the default 0 and nothing was passed in there) and a long one is
truncated. -/
theorem convertToAngleVector_resize_counterexample :
    StdMap.find ([] : joint_angle_map ℤ) "elbow" = none ∧
    ([7] : angle_vector ℤ)[1]? = none ∧
    exampleBase.convertToAngleVector [] [7] = (false, [7, 0]) ∧
    exampleBase.convertToAngleVector [] [7, 8, 9] = (false, [7, 8]) := by
  decide

/-- C2 (amended): after `convertToAngleVector(map, av)` every slot `i` whose
joint name is absent from the map holds the passed-in `av[i]` when the passed-in
vector has a position `i`, and the zero that `resize` fills in otherwise; the
result always has the joint list's length, so a vector of that length is neither
truncated nor padded and all its absent slots keep the passed-in values. -/
theorem convertToAngleVector_absent_slots {α : Type} [Zero α] (self : TrajectoryBase α)
    (jmap : joint_angle_map α) (av : angle_vector α) :
    (∀ (i : Nat) (n : String), self.joint_list_[i]? = some n → jmap.find n = none →
      (i < av.length → (self.convertToAngleVector jmap av).2[i]? = av[i]?) ∧
      (av.length ≤ i → (self.convertToAngleVector jmap av).2[i]? = some 0)) ∧
    (self.convertToAngleVector jmap av).2.length = self.joint_list_.length ∧
    (av.length = self.joint_list_.length →
      (self.convertToAngleVector jmap av).2.length = av.length ∧
      ∀ (i : Nat) (n : String), self.joint_list_[i]? = some n → jmap.find n = none →
        (self.convertToAngleVector jmap av).2[i]? = av[i]?) := by
  have key : ∀ (i : Nat) (n : String), self.joint_list_[i]? = some n → jmap.find n = none →
      (self.convertToAngleVector jmap av).2[i]? = some (av.getD i 0) := by
    intro i n hi hn
    rw [TrajectoryBase.convertToAngleVector_getElem? self jmap av i (lt_length_of_getElem? hi),
      getD_of_getElem? "" hi, hn]
    rfl
  refine ⟨?_, TrajectoryBase.convertToAngleVector_length self jmap av, ?_⟩
  · intro i n hi hn
    refine ⟨fun hlt => ?_, fun hge => ?_⟩
    · rw [key i n hi hn, getElem?_of_lt_getD av i 0 hlt]
    · rw [key i n hi hn, List.getD_eq_getElem?_getD, List.getElem?_eq_none hge]
      rfl
  · intro hlen
    refine ⟨by rw [TrajectoryBase.convertToAngleVector_length, hlen], ?_⟩
    intro i n hi hn
    have hlt : i < av.length := by
      rw [hlen]
      exact lt_length_of_getElem? hi
    rw [key i n hi hn, getElem?_of_lt_getD av i 0 hlt]

/-- Instance of `convertToAngleVector_absent_slots`: only `elbow` is in the map,
the `shoulder` slot keeps the passed-in 1. -/
theorem convertToAngleVector_absent_slots_witness :
    ([1, 2] : angle_vector ℤ).length = exampleBase.joint_list_.length ∧
    exampleBase.joint_list_[0]? = some "shoulder" ∧
    StdMap.find ([("elbow", 5)] : joint_angle_map ℤ) "shoulder" = none ∧
    (exampleBase.convertToAngleVector [("elbow", 5)] [1, 2]).2[0]? = ([1, 2] : List ℤ)[0]? ∧
    exampleBase.convertToAngleVector [("elbow", 5)] [1, 2] = (true, [1, 5]) :=
  ⟨by decide, by decide, by decide,
    ((convertToAngleVector_absent_slots exampleBase [("elbow", 5)] [1, 2]).2.2
      (by decide)).2 0 "shoulder" (by decide) (by decide),
    by decide⟩

/-- C3: round trip map -> vector -> map.  On a non-empty joint list, after
`convertToAngleVector(m, av)` and then `convertToMap(av, m2)` (which succeeds),
`m2` holds `m`'s value for every listed name that is a key of `m`, whatever `av`
and `m2` held before, and the keys of `m2` are exactly the listed names. -/
theorem convertToMap_convertToAngleVector_roundtrip {α : Type} [Zero α]
    (self : TrajectoryBase α) (m : joint_angle_map α) (av : angle_vector α)
    (m2 : joint_angle_map α) (hne : self.joint_list_ ≠ []) :
    (self.convertToMap (self.convertToAngleVector m av).2 m2).1 = true ∧
    (∀ (n : String) (v : α), n ∈ self.joint_list_ → m.find n = some v →
      (self.convertToMap (self.convertToAngleVector m av).2 m2).2.find n = some v) ∧
    (∀ n : String,
      (self.convertToMap (self.convertToAngleVector m av).2 m2).2.contains n = true
        ↔ n ∈ self.joint_list_) := by
  rw [TrajectoryBase.convertToMap_eq self _ m2
    (TrajectoryBase.convertToAngleVector_length self m av) hne]
  refine ⟨rfl, ?_, ?_⟩
  · intro n v hn hv
    obtain ⟨j, hj, hjn⟩ := List.getElem_of_mem hn
    apply TrajectoryBase.fillMap_find_all
    · exact ⟨j, hj, by rw [List.getD_eq_getElem?_getD, List.getElem?_eq_getElem hj]; exact hjn⟩
    · intro j' hj' hjn'
      have h := TrajectoryBase.convertToAngleVector_getElem? self m av j' hj'
      rw [hjn', hv] at h
      exact getD_of_getElem? 0 h
  · intro n
    exact TrajectoryBase.fillMap_keys self.joint_list_ _ n

/-- Instance of `convertToMap_convertToAngleVector_roundtrip`: the map
`elbow -> 5, wrist -> 9` through the joint list `shoulder, elbow`. -/
theorem convertToMap_convertToAngleVector_roundtrip_witness :
    exampleBase.joint_list_ ≠ [] ∧
    "elbow" ∈ exampleBase.joint_list_ ∧
    StdMap.find ([("elbow", 5), ("wrist", 9)] : joint_angle_map ℤ) "elbow" = some 5 ∧
    StdMap.find (exampleBase.convertToMap
      (exampleBase.convertToAngleVector [("elbow", 5), ("wrist", 9)] [1, 2]).2
      [("neck", 3)]).2 "elbow" = some 5 ∧
    exampleBase.convertToMap
      (exampleBase.convertToAngleVector [("elbow", 5), ("wrist", 9)] [1, 2]).2 [("neck", 3)]
      = (true, [("elbow", 5), ("shoulder", 1)]) :=
  ⟨by decide, by decide, by decide,
    (convertToMap_convertToAngleVector_roundtrip exampleBase [("elbow", 5), ("wrist", 9)]
      [1, 2] [("neck", 3)] (by decide)).2.1 "elbow" 5 (by decide) (by decide),
    by decide⟩

/-! ## Claims on `TrajectoryClient` -/

/-- C4: `TrajectoryClient::send_angle_vector(av, tm, start)` dispatches a goal
iff `len(av)` is the joint list's length.  On a mismatch (so for lengths N+1 and
N-1) the client is left as it was: nothing is dispatched and `sending_goal_`
keeps its value.  On a match exactly one goal is appended to the dispatched
goals, with the single waypoint (`av`, `tm`), and `sending_goal_` is set. -/
theorem send_angle_vector_spec {α : Type} [Zero α] (self : TrajectoryClient α)
    (av : angle_vector α) (tm start : α) :
    ((self.send_angle_vector av tm start).sent_goals.length = self.sent_goals.length + 1
      ↔ av.length = self.joint_list_.length) ∧
    (av.length ≠ self.joint_list_.length →
      self.send_angle_vector av tm start = self ∧
      (self.send_angle_vector av tm start).sent_goals = self.sent_goals ∧
      (self.send_angle_vector av tm start).sending_goal_ = self.sending_goal_) ∧
    (av.length = self.joint_list_.length + 1 ∨ av.length + 1 = self.joint_list_.length →
      (self.send_angle_vector av tm start).sent_goals = self.sent_goals) ∧
    (av.length = self.joint_list_.length →
      (self.send_angle_vector av tm start).sent_goals = self.sent_goals ++
        [{ stamp := start, joint_names := self.joint_list_,
           points := [{ positions := av, time_from_start := tm }],
           goal_time_tolerance := self.goal_time_tolerance_ }] ∧
      (self.send_angle_vector av tm start).sending_goal_ = true) := by
  have hbad : av.length ≠ self.joint_list_.length →
      self.send_angle_vector av tm start = self := by
    intro h
    unfold TrajectoryClient.send_angle_vector
    rw [if_pos h]
  have hgood : av.length = self.joint_list_.length →
      (self.send_angle_vector av tm start).sent_goals = self.sent_goals ++
        [{ stamp := start, joint_names := self.joint_list_,
           points := [{ positions := av, time_from_start := tm }],
           goal_time_tolerance := self.goal_time_tolerance_ }] ∧
      (self.send_angle_vector av tm start).sending_goal_ = true := by
    intro h
    unfold TrajectoryClient.send_angle_vector
    rw [if_neg (not_not.mpr h)]
    simp only [TrajectoryClient.copyPositions_eq _ av h]
    exact ⟨rfl, rfl⟩
  refine ⟨?_, ?_, ?_, hgood⟩
  · constructor
    · intro hlen
      by_contra hne
      rw [hbad hne] at hlen
      omega
    · intro h
      rw [(hgood h).1]
      simp
  · intro h
    rw [hbad h]
    exact ⟨rfl, rfl, rfl⟩
  · intro h
    rw [hbad (by omega)]

/-- Instance of `send_angle_vector_spec`: a vector of 2 angles is dispatched to
the two-joint torso, vectors of 1 and 3 angles are not. -/
theorem send_angle_vector_spec_witness :
    ([4, 5] : angle_vector ℤ).length = exampleTorso.joint_list_.length ∧
    ([4, 5, 6] : angle_vector ℤ).length = exampleTorso.joint_list_.length + 1 ∧
    (exampleTorso.send_angle_vector [4, 5] 3 0).sent_goals = exampleTorso.sent_goals ++
      [{ stamp := 0, joint_names := exampleTorso.joint_list_,
         points := [{ positions := [4, 5], time_from_start := 3 }],
         goal_time_tolerance := exampleTorso.goal_time_tolerance_ }] ∧
    (exampleTorso.send_angle_vector [4, 5] 3 0).sending_goal_ = true ∧
    (exampleTorso.send_angle_vector [4, 5, 6] 3 0).sent_goals = exampleTorso.sent_goals ∧
    exampleTorso.send_angle_vector [4] 3 0 = exampleTorso :=
  ⟨by decide, by decide,
    ((send_angle_vector_spec exampleTorso [4, 5] 3 0).2.2.2 (by decide)).1,
    ((send_angle_vector_spec exampleTorso [4, 5] 3 0).2.2.2 (by decide)).2,
    (send_angle_vector_spec exampleTorso [4, 5, 6] 3 0).2.2.1 (Or.inl (by decide)),
    ((send_angle_vector_spec exampleTorso [4] 3 0).2.1 (by decide)).1⟩

/-- C5: `send_angle_vector_sequence(vectors, durations, start)` with
`len(vectors) != len(durations)`, or with a vector of a length other than the
joint list's at any position, leaves the client as it was: no goal is dispatched
(not even one made of the earlier waypoints) and `sending_goal_` is unchanged. -/
theorem send_angle_vector_sequence_rejects {α : Type} [Zero α] [Add α]
    (self : TrajectoryClient α) (vectors : List (angle_vector α)) (durations : List α)
    (start : α)
    (h : vectors.length ≠ durations.length ∨
      ∃ v, v ∈ vectors ∧ v.length ≠ self.joint_list_.length) :
    (self.send_angle_vector_sequence vectors durations start).sent_goals = self.sent_goals ∧
    (self.send_angle_vector_sequence vectors durations start).sending_goal_
      = self.sending_goal_ ∧
    self.send_angle_vector_sequence vectors durations start = self := by
  have key : self.send_angle_vector_sequence vectors durations start = self := by
    unfold TrajectoryClient.send_angle_vector_sequence
    by_cases hlen : vectors.length ≠ durations.length
    · rw [if_pos hlen]
    · rw [if_neg hlen]
      rcases h with h | ⟨v, hv, hvl⟩
      · exact absurd h hlen
      · obtain ⟨j, hj, hjv⟩ := List.getElem_of_mem hv
        rw [TrajectoryClient.sequencePoints_none _ vectors durations vectors.length 0 0
          ⟨j, Nat.zero_le j, by omega, by
            rw [List.getD_eq_getElem?_getD, List.getElem?_eq_getElem hj]
            simpa [hjv] using hvl⟩]
  rw [key]
  exact ⟨rfl, rfl, rfl⟩

/-- Instance of `send_angle_vector_sequence_rejects`: the last of two vectors
has one angle only; the well-formed first waypoint is not sent on its own. -/
theorem send_angle_vector_sequence_rejects_witness :
    (∃ v, v ∈ ([[1, 2], [3]] : List (angle_vector ℤ)) ∧
      v.length ≠ exampleTorso.joint_list_.length) ∧
    (exampleTorso.send_angle_vector_sequence [[1, 2], [3]] [5, 6] 0).sent_goals = [] ∧
    (exampleTorso.send_angle_vector_sequence [[1, 2], [3]] [5, 6] 0).sending_goal_ = false :=
  ⟨⟨[3], by decide, by decide⟩,
    (send_angle_vector_sequence_rejects exampleTorso [[1, 2], [3]] [5, 6] 0
      (Or.inr ⟨[3], by decide, by decide⟩)).1,
    (send_angle_vector_sequence_rejects exampleTorso [[1, 2], [3]] [5, 6] 0
      (Or.inr ⟨[3], by decide, by decide⟩)).2.1⟩

/-- C6: `send_angle_vector_sequence` on well-formed input (as many durations as
vectors, every vector of the joint list's length) dispatches one goal with
`len(vectors)` waypoints; waypoint `i` holds `vectors[i]` and the time
`durations[0] + ... + durations[i]`; so with non-negative durations the times
are non-decreasing along the trajectory. -/
theorem send_angle_vector_sequence_spec {α : Type} [OrderedAddCommMonoid α]
    (self : TrajectoryClient α) (vectors : List (angle_vector α)) (durations : List α)
    (start : α) (hlen : vectors.length = durations.length)
    (hall : ∀ v, v ∈ vectors → v.length = self.joint_list_.length) :
    ∃ g : FollowJointTrajectoryGoal α,
      (self.send_angle_vector_sequence vectors durations start).sent_goals
        = self.sent_goals ++ [g] ∧
      (self.send_angle_vector_sequence vectors durations start).sending_goal_ = true ∧
      g.stamp = start ∧ g.joint_names = self.joint_list_ ∧
      g.points.length = vectors.length ∧
      (∀ (i : Nat) (v : angle_vector α), vectors[i]? = some v →
        g.points[i]? = some { positions := v,
                              time_from_start := (durations.take (i + 1)).sum }) ∧
      ((∀ t, t ∈ durations → 0 ≤ t) →
        ∀ (i j : Nat) (p q : JointTrajectoryPoint α), i ≤ j →
          g.points[i]? = some p → g.points[j]? = some q →
          p.time_from_start ≤ q.time_from_start) := by
  obtain ⟨pts, hpts, hl, hk⟩ := TrajectoryClient.sequencePoints_some
    self.joint_list_.length vectors durations vectors.length 0 0 (by omega)
    (fun j _ hj => hall _ (by
      rw [List.getD_eq_getElem?_getD, List.getElem?_eq_getElem (by omega)]
      exact List.getElem_mem _))
  have hpt : ∀ (i : Nat) (v : angle_vector α), vectors[i]? = some v →
      pts[i]? = some { positions := v, time_from_start := (durations.take (i + 1)).sum } := by
    intro i v hv
    rw [hk i (lt_length_of_getElem? hv), Nat.zero_add, getD_of_getElem? [] hv, zero_add,
      List.drop_zero]
  refine ⟨{ stamp := start, joint_names := self.joint_list_, points := pts,
            goal_time_tolerance := self.goal_time_tolerance_ }, ?_, ?_, rfl, rfl, hl, hpt, ?_⟩
  · unfold TrajectoryClient.send_angle_vector_sequence
    rw [if_neg (not_not.mpr hlen), hpts]
    rfl
  · unfold TrajectoryClient.send_angle_vector_sequence
    rw [if_neg (not_not.mpr hlen), hpts]
    rfl
  · intro hnn i j p q hij hp hq
    have hj : j < vectors.length := by
      rw [← hl]
      exact lt_length_of_getElem? hq
    have hi : i < vectors.length := by omega
    have hp2 := hpt i _ (getElem?_of_lt_getD vectors i [] hi)
    have hq2 := hpt j _ (getElem?_of_lt_getD vectors j [] hj)
    simp only [] at hp hq
    rw [hp] at hp2
    rw [hq] at hq2
    rw [Option.some.inj hp2, Option.some.inj hq2]
    exact sum_take_mono durations hnn (i + 1) (j + 1) (by omega)

/-- Instance of `send_angle_vector_sequence_spec`: two waypoints with durations
5 and 6 reach the torso at times 5 and 11. -/
theorem send_angle_vector_sequence_spec_witness :
    ([[1, 2], [3, 4]] : List (angle_vector ℤ)).length = ([5, 6] : List ℤ).length ∧
    (∀ v, v ∈ ([[1, 2], [3, 4]] : List (angle_vector ℤ)) →
      v.length = exampleTorso.joint_list_.length) ∧
    (∃ g : FollowJointTrajectoryGoal ℤ,
      (exampleTorso.send_angle_vector_sequence [[1, 2], [3, 4]] [5, 6] 0).sent_goals
        = exampleTorso.sent_goals ++ [g] ∧
      g.points.length = 2) ∧
    (exampleTorso.send_angle_vector_sequence [[1, 2], [3, 4]] [5, 6] 0).sent_goals =
      [{ stamp := 0, joint_names := ["waist_y", "waist_p"],
         points := [{ positions := [1, 2], time_from_start := 5 },
                    { positions := [3, 4], time_from_start := 11 }],
         goal_time_tolerance := 0 }] :=
  ⟨by decide, by decide,
    (send_angle_vector_sequence_spec exampleTorso [[1, 2], [3, 4]] [5, 6] 0 (by decide)
      (by decide)).imp (fun _ h => ⟨h.1, h.2.2.2.2.1⟩),
    by decide⟩

/-! ## Claims on `RobotInterface` -/

/-- C7 as stated fails for a registered channel without joints: all of its
(no) joints occur in `full_joint_list`, the whole-robot vector has the right
length, and the channel receives no goal, since the conversion reports that
nothing changed. -/
theorem send_angle_vector_idle_counterexample :
    exampleRobotIdle.joint_list_.Nodup ∧
    ([1, 2, 3, 4, 5] : angle_vector ℤ).length = exampleRobotIdle.joint_list_.length ∧
    exampleRobotIdle.controllers_.find "idle" = some (exampleIdle.setName "idle") ∧
    (∀ n, n ∈ (exampleIdle.setName "idle").joint_list_ → n ∈ exampleRobotIdle.joint_list_) ∧
    (exampleRobotIdle.send_angle_vector [1, 2, 3, 4, 5] 7 0).controllers_.find "idle"
      = some (exampleIdle.setName "idle") ∧
    (exampleIdle.setName "idle").sent_goals = [] := by
  decide

/-- C7 (amended): coordinator `send_angle_vector(fullVector, duration, start)`.
When `full_joint_list` has unique names and `len(fullVector)` is its length,
every registered channel with AT LEAST ONE joint whose joints all occur in
`full_joint_list` receives exactly one goal: a single waypoint at `duration`
whose position vector has the channel's joint-list length and whose `j`-th
entry is `fullVector[i]` for the `i` with
`full_joint_list[i] = channel.joint_list[j]`. -/
theorem send_angle_vector_slices {α : Type} [Zero α] (self : RobotInterface α)
    (av : angle_vector α) (tm start : α) (key : String) (c : TrajectoryClient α)
    (hnodup : self.joint_list_.Nodup) (hlen : av.length = self.joint_list_.length)
    (hreg : self.controllers_.find key = some c)
    (hsub : ∀ n, n ∈ c.joint_list_ → n ∈ self.joint_list_)
    (hne : c.joint_list_ ≠ []) :
    ∃ positions : angle_vector α,
      (self.send_angle_vector av tm start).controllers_.find key =
        some { c with
          sending_goal_ := true
          sent_goals := c.sent_goals ++
            [{ stamp := start, joint_names := c.joint_list_,
               points := [{ positions := positions, time_from_start := tm }],
               goal_time_tolerance := c.goal_time_tolerance_ }] } ∧
      positions.length = c.joint_list_.length ∧
      ∀ (j i : Nat) (n : String), c.joint_list_[j]? = some n →
        self.joint_list_[i]? = some n → positions[j]? = av[i]? := by
  have hmin : min self.joint_list_.length av.length = self.joint_list_.length := by
    rw [hlen, min_self]
  obtain ⟨n0, hn0⟩ := List.exists_mem_of_ne_nil _ hne
  obtain ⟨positions, hsend, hplen, hval⟩ :=
    RobotInterface.sendToController_send self.joint_list_ av tm start c
      ⟨n0, hn0, by rw [hmin, List.take_length]; exact hsub n0 hn0⟩
  refine ⟨positions, ?_, hplen, ?_⟩
  · unfold RobotInterface.send_angle_vector
    simp only []
    rw [StdMap.find_map_snd
      (RobotInterface.sendToController self.joint_list_ av tm start), hreg, Option.map_some',
      hsend]
  · intro j i n hj hi
    have hil : i < self.joint_list_.length := lt_length_of_getElem? hi
    rw [hval j n hj, hmin,
      TrajectoryBase.fillMap_find_last self.joint_list_ av [] n _ i hil
        (getD_of_getElem? "" hi) ?_,
      getElem?_of_lt_getD av i 0 (by omega)]
    · rfl
    · intro i' h1 h2 h3
      have h4 : self.joint_list_[i]? = self.joint_list_[i']? := by
        rw [hi, getElem?_of_lt_getD self.joint_list_ i' "" h2, h3]
      have := List.getElem?_inj hil hnodup h4
      omega

/-- Instance of `send_angle_vector_slices`, the end-to-end scenario: `torso`
(2 joints) and `arm` (3 joints) are registered and a 5-element vector is sent;
torso receives its 2 entries and arm its 3. -/
theorem send_angle_vector_slices_witness :
    exampleRobot.joint_list_.Nodup ∧
    ([1, 2, 3, 4, 5] : angle_vector ℤ).length = exampleRobot.joint_list_.length ∧
    exampleRobot.controllers_.find "arm" = some (exampleArm.setName "arm") ∧
    (∀ n, n ∈ (exampleArm.setName "arm").joint_list_ → n ∈ exampleRobot.joint_list_) ∧
    (exampleArm.setName "arm").joint_list_ ≠ [] ∧
    (∃ positions : angle_vector ℤ,
      ((exampleRobot.send_angle_vector [1, 2, 3, 4, 5] 7 0).controllers_.find "arm").map
        (fun c => c.sent_goals.map (fun g => g.points.map (fun p => p.positions)))
        = some [[positions]] ∧
      positions.length = 3) ∧
    ((exampleRobot.send_angle_vector [1, 2, 3, 4, 5] 7 0).controllers_.find "arm").map
      (fun c => c.sent_goals.map (fun g => g.points)) =
        some [[{ positions := [3, 4, 5], time_from_start := 7 }]] ∧
    ((exampleRobot.send_angle_vector [1, 2, 3, 4, 5] 7 0).controllers_.find "torso").map
      (fun c => c.sent_goals.map (fun g => g.points)) =
        some [[{ positions := [1, 2], time_from_start := 7 }]] :=
  ⟨by decide, by decide, by decide, by decide, by decide,
    (send_angle_vector_slices exampleRobot [1, 2, 3, 4, 5] 7 0 "arm"
      (exampleArm.setName "arm") (by decide) (by decide) (by decide) (by decide)
      (by decide)).imp (fun _ h => ⟨by rw [h.1]; rfl, h.2.1⟩),
    by decide, by decide⟩

/-- C8 fails on the code: the coordinator `send_angle_vector(av, tm, start)` has no
check of the length of the whole-robot vector, where the conversion it calls
notes that the names and the positions `should have same length` and the
channel's own `send_angle_vector` rejects a vector of another length than its
joint list.  On `exampleRobot` (5 joints) a vector of 3 angles is dispatched:
the torso is sent its two angles and the arm its first joint's angle and zeros
for the two joints the vector does not reach; of a vector of 6 angles the sixth
is dropped and both channels are sent a goal. -/
theorem send_angle_vector_mismatch_dispatched :
    ([1, 2, 3] : angle_vector ℤ).length ≠ exampleRobot.joint_list_.length ∧
    ((exampleRobot.send_angle_vector [1, 2, 3] 7 0).controllers_.find "arm").map
      (fun c => c.sent_goals.map (fun g => g.points)) =
        some [[{ positions := [3, 0, 0], time_from_start := 7 }]] ∧
    ((exampleRobot.send_angle_vector [1, 2, 3] 7 0).controllers_.find "torso").map
      (fun c => c.sent_goals.map (fun g => g.points)) =
        some [[{ positions := [1, 2], time_from_start := 7 }]] ∧
    ([1, 2, 3, 4, 5, 6] : angle_vector ℤ).length ≠ exampleRobot.joint_list_.length ∧
    ((exampleRobot.send_angle_vector [1, 2, 3, 4, 5, 6] 7 0).controllers_.find "arm").map
      (fun c => c.sent_goals.map (fun g => g.points)) =
        some [[{ positions := [3, 4, 5], time_from_start := 7 }]] ∧
    ((exampleRobot.send_angle_vector [1, 2, 3, 4, 5, 6] 7 0).controllers_.find "torso").map
      (fun c => c.sent_goals.map (fun g => g.points)) =
        some [[{ positions := [1, 2], time_from_start := 7 }]] := by
  decide

/-- What the coordinator `send_angle_vector` does with a whole-robot vector of
another length than `full_joint_list`, the case of C8: it pairs
the first `min(len(full_joint_list), len(vector))` names and angles and ignores
the rest.  A channel none of whose joints is among those names receives no goal;
every other channel receives one goal of its joint list's length, holding 0 for
each joint outside those names and the paired angle (of the last occurrence of
the name) for each joint among them. -/
theorem send_angle_vector_any_length {α : Type} [Zero α] (self : RobotInterface α)
    (av : angle_vector α) (tm start : α) (key : String) (c : TrajectoryClient α)
    (hreg : self.controllers_.find key = some c) :
    ((∀ n, n ∈ c.joint_list_ →
        n ∉ self.joint_list_.take (min self.joint_list_.length av.length)) →
      (self.send_angle_vector av tm start).controllers_.find key = some c) ∧
    (av = [] ∨ self.joint_list_ = [] →
      (self.send_angle_vector av tm start).controllers_.find key = some c) ∧
    ((∃ n, n ∈ c.joint_list_ ∧
        n ∈ self.joint_list_.take (min self.joint_list_.length av.length)) →
      ∃ positions : angle_vector α,
        (self.send_angle_vector av tm start).controllers_.find key =
          some { c with
            sending_goal_ := true
            sent_goals := c.sent_goals ++
              [{ stamp := start, joint_names := c.joint_list_,
                 points := [{ positions := positions, time_from_start := tm }],
                 goal_time_tolerance := c.goal_time_tolerance_ }] } ∧
        positions.length = c.joint_list_.length ∧
        (∀ (j : Nat) (n : String), c.joint_list_[j]? = some n →
          n ∉ self.joint_list_.take (min self.joint_list_.length av.length) →
          positions[j]? = some 0) ∧
        (∀ (j i : Nat) (n : String), c.joint_list_[j]? = some n →
          i < min self.joint_list_.length av.length → self.joint_list_[i]? = some n →
          (∀ i' : Nat, i < i' → i' < min self.joint_list_.length av.length →
            self.joint_list_[i']? ≠ some n) →
          positions[j]? = av[i]?)) := by
  have hfind : (self.send_angle_vector av tm start).controllers_.find key =
      some (RobotInterface.sendToController self.joint_list_ av tm start c) := by
    unfold RobotInterface.send_angle_vector
    simp only []
    rw [StdMap.find_map_snd
      (RobotInterface.sendToController self.joint_list_ av tm start), hreg, Option.map_some']
  have hskip : (∀ n, n ∈ c.joint_list_ →
        n ∉ self.joint_list_.take (min self.joint_list_.length av.length)) →
      (self.send_angle_vector av tm start).controllers_.find key = some c := by
    intro h
    rw [hfind, RobotInterface.sendToController_skip self.joint_list_ av tm start c h]
  refine ⟨hskip, ?_, ?_⟩
  · intro h
    apply hskip
    intro n _
    have h0 : min self.joint_list_.length av.length = 0 := by
      rcases h with h | h <;> simp [h]
    rw [h0, List.take_zero]
    exact List.not_mem_nil n
  · intro h
    obtain ⟨positions, hsend, hplen, hval⟩ :=
      RobotInterface.sendToController_send self.joint_list_ av tm start c h
    refine ⟨positions, by rw [hfind, hsend], hplen, ?_, ?_⟩
    · intro j n hj hn
      rw [hval j n hj]
      have hnone : StdMap.find (TrajectoryBase.fillMap self.joint_list_ av
          (min self.joint_list_.length av.length) []) n = none := by
        have hc := (TrajectoryBase.fillMap_contains_take self.joint_list_ av _
          (min_le_left _ _) n).not.mpr hn
        unfold StdMap.contains at hc
        exact Option.not_isSome_iff_eq_none.mp hc
      rw [hnone]
      rfl
    · intro j i n hj hi hin hlast
      have hia : i < av.length := lt_of_lt_of_le hi (min_le_right _ _)
      rw [hval j n hj,
        TrajectoryBase.fillMap_find_last self.joint_list_ av [] n _ i hi
          (getD_of_getElem? "" hin) ?_,
        getElem?_of_lt_getD av i 0 hia]
      · rfl
      · intro i' h1 h2 h3
        apply hlast i' h1 h2
        rw [getElem?_of_lt_getD self.joint_list_ i' ""
          (lt_of_lt_of_le h2 (min_le_left _ _)), h3]

/-- C9: `add_controller(key, channel, update)`.  If `key` is registered the
call returns false and leaves the coordinator as it was, so `key` still maps to
the first-registered channel and every other entry is unchanged.  If `key` is
not registered the call returns true and the registry maps `key` to the new
channel with its name set to `key`, the other keys keeping their entries; a
second registration under the same key is then refused and the first channel
stays (first registration wins). -/
theorem add_controller_spec {α : Type} [Zero α] (self : RobotInterface α) (key : String)
    (p : TrajectoryClient α) (update : Bool) :
    (∀ first : TrajectoryClient α, self.controllers_.find key = some first →
      (self.add_controller key p update).1 = false ∧
      (self.add_controller key p update).2.controllers_.find key = some first ∧
      (self.add_controller key p update).2 = self) ∧
    (self.controllers_.find key = none →
      (self.add_controller key p update).1 = true ∧
      (self.add_controller key p update).2.controllers_.find key = some (p.setName key) ∧
      (p.setName key).name_ = key ∧
      (p.setName key).joint_list_ = p.joint_list_ ∧
      (∀ k : String, k ≠ key →
        (self.add_controller key p update).2.controllers_.find k
          = self.controllers_.find k) ∧
      (∀ (p2 : TrajectoryClient α) (update2 : Bool),
        ((self.add_controller key p update).2.add_controller key p2 update2).1 = false ∧
        ((self.add_controller key p update).2.add_controller key p2 update2).2.controllers_.find
          key = some (p.setName key))) := by
  have hdup : ∀ (s : RobotInterface α) (q first : TrajectoryClient α) (u : Bool),
      s.controllers_.find key = some first → s.add_controller key q u = (false, s) := by
    intro s q first u h
    unfold RobotInterface.add_controller
    rw [h]
  have hnew : self.controllers_.find key = none →
      self.add_controller key p update =
        (true, { controllers_ := self.controllers_.insert key (p.setName key)
                 joint_list_ := if update = true then self.joint_list_ ++ p.getJointNames
                   else self.joint_list_ }) := by
    intro h
    unfold RobotInterface.add_controller
    rw [h]
  refine ⟨?_, ?_⟩
  · intro first h
    rw [hdup self p first update h]
    exact ⟨rfl, h, rfl⟩
  · intro h
    have hfind : (self.add_controller key p update).2.controllers_.find key
        = some (p.setName key) := by
      rw [hnew h]
      exact StdMap.find_insert_self _ _ _
    refine ⟨by rw [hnew h], hfind, rfl, rfl, ?_, ?_⟩
    · intro k hk
      rw [hnew h]
      exact StdMap.find_insert_of_ne _ _ _ _ hk
    · intro p2 update2
      rw [hdup _ p2 _ update2 hfind]
      exact ⟨rfl, hfind⟩

/-- Instance of `add_controller_spec`: `arm` is registered in `exampleRobot`, a
second registration under `arm` is refused; `head` is not, and is added. -/
theorem add_controller_spec_witness :
    exampleRobot.controllers_.find "arm" = some (exampleArm.setName "arm") ∧
    (exampleRobot.add_controller "arm" exampleTorso true).1 = false ∧
    (exampleRobot.add_controller "arm" exampleTorso true).2 = exampleRobot ∧
    exampleRobot.controllers_.find "head" = none ∧
    (exampleRobot.add_controller "head" exampleIdle true).1 = true ∧
    (exampleRobot.add_controller "head" exampleIdle true).2.controllers_.find "head"
      = some (exampleIdle.setName "head") :=
  ⟨by decide,
    ((add_controller_spec exampleRobot "arm" exampleTorso true).1
      (exampleArm.setName "arm") (by decide)).1,
    ((add_controller_spec exampleRobot "arm" exampleTorso true).1
      (exampleArm.setName "arm") (by decide)).2.2,
    by decide,
    ((add_controller_spec exampleRobot "head" exampleIdle true).2 (by decide)).1,
    ((add_controller_spec exampleRobot "head" exampleIdle true).2 (by decide)).2.1⟩

/-- C10: `full_joint_list` is append-only under registration.  A successful
`add_controller` with `update = true` yields the old list followed by the
channel's joint names in their own order, so every old entry keeps its
position; with `update = false` the list is unchanged.  Hence registering
`torso` and then `arm` under two different keys on an empty coordinator gives
torso's joints followed by arm's. -/
theorem add_controller_joint_list {α : Type} [Zero α] (self : RobotInterface α)
    (key : String) (p : TrajectoryClient α) (k1 k2 : String) (torso arm : TrajectoryClient α)
    (hnew : self.controllers_.find key = none) (hk : k2 ≠ k1) :
    (self.add_controller key p true).1 = true ∧
    (self.add_controller key p true).2.joint_list_ = self.joint_list_ ++ p.joint_list_ ∧
    (∀ (i : Nat) (n : String), self.joint_list_[i]? = some n →
      (self.add_controller key p true).2.joint_list_[i]? = some n) ∧
    (self.add_controller key p false).1 = true ∧
    (self.add_controller key p false).2.joint_list_ = self.joint_list_ ∧
    ((RobotInterface.init.add_controller k1 torso true).2.add_controller k2 arm true).1 = true ∧
    ((RobotInterface.init.add_controller k1 torso true).2.add_controller k2 arm true).2.joint_list_
      = torso.joint_list_ ++ arm.joint_list_ := by
  have hadd : ∀ (s : RobotInterface α) (k : String) (q : TrajectoryClient α) (u : Bool),
      s.controllers_.find k = none →
      s.add_controller k q u =
        (true, { controllers_ := s.controllers_.insert k (q.setName k)
                 joint_list_ := if u = true then s.joint_list_ ++ q.getJointNames
                   else s.joint_list_ }) := by
    intro s k q u h
    unfold RobotInterface.add_controller
    rw [h]
  have h2 : (RobotInterface.init.add_controller k1 torso true).2.controllers_.find k2
      = none := by
    rw [hadd RobotInterface.init k1 torso true rfl]
    simp [RobotInterface.init, StdMap.insert, StdMap.find, hk]
  refine ⟨by rw [hadd self key p true hnew], by rw [hadd self key p true hnew]; rfl, ?_,
    by rw [hadd self key p false hnew], by rw [hadd self key p false hnew]; rfl,
    by rw [hadd _ k2 arm true h2], ?_⟩
  · intro i n hi
    rw [hadd self key p true hnew]
    simp only [if_true]
    rw [List.getElem?_append_left (lt_length_of_getElem? hi)]
    exact hi
  · rw [hadd _ k2 arm true h2, hadd RobotInterface.init k1 torso true rfl]
    simp [RobotInterface.init, TrajectoryClient.getJointNames]

/-- Instance of `add_controller_joint_list`: the scenario with `torso`
(2 joints) and `arm` (3 joints), and a later `head` channel on `exampleRobot`. -/
theorem add_controller_joint_list_witness :
    exampleRobot.controllers_.find "head" = none ∧ "arm" ≠ "torso" ∧
    (exampleRobot.add_controller "head" exampleIdle false).2.joint_list_
      = exampleRobot.joint_list_ ∧
    ((RobotInterface.init.add_controller "torso" exampleTorso true).2.add_controller
      "arm" exampleArm true).2.joint_list_ = exampleTorso.joint_list_ ++ exampleArm.joint_list_ ∧
    exampleRobot.joint_list_ = ["waist_y", "waist_p", "shoulder", "elbow", "wrist"] :=
  ⟨by decide, by decide,
    (add_controller_joint_list exampleRobot "head" exampleIdle "torso" "arm" exampleTorso
      exampleArm (by decide) (by decide)).2.2.2.2.1,
    (add_controller_joint_list exampleRobot "head" exampleIdle "torso" "arm" exampleTorso
      exampleArm (by decide) (by decide)).2.2.2.2.2.2,
    by decide⟩

/-! ## Claims on the joint ordering -/

/-- C11: `defineJointList(list)` returns false iff some name of `list` is in the
joint list of no registered channel, and then the coordinator is left as it
was; otherwise it returns true, the joint ordering becomes exactly `list` and
the registry is untouched. -/
theorem defineJointList_spec {α : Type} (self : RobotInterface α) (list : List String) :
    ((self.defineJointList list).1 = false ↔
      ∃ n, n ∈ list ∧ ∀ kv, kv ∈ self.controllers_ → n ∉ kv.2.joint_list_) ∧
    ((self.defineJointList list).1 = false →
      (self.defineJointList list).2.joint_list_ = self.joint_list_ ∧
      (self.defineJointList list).2 = self) ∧
    ((self.defineJointList list).1 = true →
      (self.defineJointList list).2.joint_list_ = list ∧
      (self.defineJointList list).2.controllers_ = self.controllers_) := by
  unfold RobotInterface.defineJointList
  by_cases h : RobotInterface.allJointsFound self.controllers_ list = true
  · rw [if_pos h]
    refine ⟨?_, fun hf => absurd hf (by simp), fun _ => ⟨rfl, rfl⟩⟩
    simp only [Bool.true_eq_false, false_iff]
    rintro ⟨n, hn, hnone⟩
    obtain ⟨kv, hkv, hj⟩ := (RobotInterface.jointFound_iff n self.controllers_).mp
      ((RobotInterface.allJointsFound_iff self.controllers_ list).mp h n hn)
    exact hnone kv hkv hj
  · rw [if_neg h]
    refine ⟨?_, fun _ => ⟨rfl, rfl⟩, fun hf => absurd hf (by simp)⟩
    simp only [true_iff]
    by_contra hno
    apply h
    rw [RobotInterface.allJointsFound_iff]
    intro n hn
    rw [RobotInterface.jointFound_iff]
    by_contra hnf
    exact hno ⟨n, hn, fun kv hkv hj => hnf ⟨kv, hkv, hj⟩⟩

/-- Instance of `defineJointList_spec`: on `exampleRobot` the list
`wrist, waist_y` is accepted and the list `wrist, neck` is refused. -/
theorem defineJointList_spec_witness :
    (exampleRobot.defineJointList ["wrist", "waist_y"]).1 = true ∧
    (exampleRobot.defineJointList ["wrist", "waist_y"]).2.joint_list_ = ["wrist", "waist_y"] ∧
    (exampleRobot.defineJointList ["wrist", "neck"]).1 = false ∧
    (exampleRobot.defineJointList ["wrist", "neck"]).2 = exampleRobot :=
  ⟨by decide,
    ((defineJointList_spec exampleRobot ["wrist", "waist_y"]).2.2 (by decide)).1,
    by decide,
    ((defineJointList_spec exampleRobot ["wrist", "neck"]).2.1 (by decide)).2⟩

/-- C12 fails on the code for `updateJointList(controllerNames)`: with the known
name `torso` before the unknown name `nosuch` the call returns false after it
has appended torso's joints, so `full_joint_list` is not what it was. -/
theorem updateJointList_names_partial_append :
    exampleRobot.controllers_.find "torso" = some (exampleTorso.setName "torso") ∧
    exampleRobot.controllers_.find "nosuch" = none ∧
    exampleRobot.joint_list_ = ["waist_y", "waist_p", "shoulder", "elbow", "wrist"] ∧
    (exampleRobot.updateJointList_names ["torso", "nosuch"]).1 = false ∧
    (exampleRobot.updateJointList_names ["torso", "nosuch"]).2.joint_list_ =
      ["waist_y", "waist_p", "shoulder", "elbow", "wrist", "waist_y", "waist_p"] ∧
    (exampleRobot.updateJointList_names ["torso", "nosuch"]).2.joint_list_
      ≠ exampleRobot.joint_list_ := by
  decide

/-! ## Claims on waiting -/

/-- C13: coordinator `wait_interpolation(timeout)` with `timeout > 0`, for every
sequence of clock readings `env.now`.  The deadline is the first reading plus
`timeout`; the calls on the channels are waits on a first part of the
controllers, in their order; the first is handed `timeout` and the `i`-th later
one the deadline minus the `i`-th later reading when that is positive and
0.000001 otherwise; so every timeout handed is positive, never zero or
negative.  The form with a name list hands positive timeouts only, too. -/
theorem wait_interpolation_timeouts {α : Type} [LinearOrderedField α] (env : Env α)
    (self : RobotInterface α) (timeout : α) (log : Log α) (names : List String)
    (hpos : 0 < timeout) :
    (∃ new : List (Event α),
      (self.wait_interpolation env timeout log).2.events = log.events ++ new ∧
      new.length ≤ self.controllers_.length ∧
      (∀ (i : Nat) (e : Event α), new[i]? = some e →
        ∃ kv, self.controllers_[i]? = some kv ∧
          e = Event.wait kv.2.name_
            (if i = 0 then timeout
              else if 0 < env.now log.reads + timeout - env.now (log.reads + i)
                then env.now log.reads + timeout - env.now (log.reads + i)
                else 0.000001)) ∧
      (∀ e, e ∈ new → ∃ name tm, e = Event.wait name tm ∧ 0 < tm)) ∧
    (∃ new : List (Event α),
      (self.wait_interpolation_names env names timeout log).2.events = log.events ++ new ∧
      (∀ e, e ∈ new → ∃ name tm, e = Event.wait name tm ∧ 0 < tm)) := by
  have hlimit : decide (timeout ≠ 0) = true := by simpa using ne_of_gt hpos
  have hformula : ∀ i : Nat,
      RobotInterface.handedTimeout env (env.now log.reads + timeout) true (log.reads + 1)
        timeout i =
      (if i = 0 then timeout
        else if 0 < env.now log.reads + timeout - env.now (log.reads + i)
          then env.now log.reads + timeout - env.now (log.reads + i)
          else 0.000001) := by
    intro i
    cases i with
    | zero => simp [RobotInterface.handedTimeout]
    | succ i =>
      simp only [RobotInterface.handedTimeout, if_true, RobotInterface.remainTime_eq,
        Nat.succ_ne_zero, if_false]
      rw [show log.reads + 1 + i = log.reads + (i + 1) by omega]
  have hhanded : ∀ i : Nat, 0 < RobotInterface.handedTimeout env
      (env.now log.reads + timeout) true (log.reads + 1) timeout i := by
    intro i
    cases i with
    | zero => exact hpos
    | succ i =>
      simp only [RobotInterface.handedTimeout, if_true]
      exact RobotInterface.remainTime_pos _
  constructor
  · obtain ⟨k, hk, hev, _⟩ := RobotInterface.waitLoop_prefix env (env.now log.reads + timeout)
      true self.controllers_ timeout { log with reads := log.reads + 1 }
    have hget : ∀ (i : Nat) (e : Event α),
        ((self.controllers_.take k).mapIdx (fun i kv => Event.wait kv.2.name_
          (RobotInterface.handedTimeout env (env.now log.reads + timeout) true
            (log.reads + 1) timeout i)))[i]? = some e →
        ∃ kv, self.controllers_[i]? = some kv ∧
          e = Event.wait kv.2.name_ (RobotInterface.handedTimeout env
            (env.now log.reads + timeout) true (log.reads + 1) timeout i) := by
      intro i e he
      rw [List.getElem?_mapIdx] at he
      cases hkv : (self.controllers_.take k)[i]? with
      | none =>
        rw [hkv] at he
        exact absurd he (by simp)
      | some kv =>
        rw [hkv] at he
        have hik : i < k := by
          have := lt_length_of_getElem? hkv
          rw [List.length_take] at this
          omega
        rw [List.getElem?_take_of_lt hik] at hkv
        exact ⟨kv, hkv, (Option.some.inj he).symm⟩
    refine ⟨(self.controllers_.take k).mapIdx (fun i kv => Event.wait kv.2.name_
      (RobotInterface.handedTimeout env (env.now log.reads + timeout) true
        (log.reads + 1) timeout i)), ?_, ?_, ?_, ?_⟩
    · unfold RobotInterface.wait_interpolation
      simp only [hlimit]
      exact hev
    · rw [List.length_mapIdx, List.length_take]
      omega
    · intro i e he
      obtain ⟨kv, hkv, hkve⟩ := hget i e he
      exact ⟨kv, hkv, by rw [hkve, hformula]⟩
    · intro e he
      obtain ⟨i, hi⟩ := List.mem_iff_getElem?.mp he
      obtain ⟨kv, _, hkve⟩ := hget i e hi
      exact ⟨kv.2.name_, _, hkve, hhanded i⟩
  · unfold RobotInterface.wait_interpolation_names
    exact RobotInterface.waitLoopNames_pos env self.controllers_ _ _ names timeout _ hpos

/-- Instance of `wait_interpolation_timeouts`: a one second budget on
`exampleRobot3Q`; every wait issued has a positive timeout. -/
theorem wait_interpolation_timeouts_witness :
    (0 : ℚ) < 1 ∧
    ∃ new : List (Event ℚ),
      (exampleRobot3Q.wait_interpolation exampleEnv 1 emptyLog).2.events
        = emptyLog.events ++ new ∧
      ∀ e, e ∈ new → ∃ name tm, e = Event.wait name tm ∧ 0 < tm :=
  ⟨by norm_num,
    (wait_interpolation_timeouts exampleEnv exampleRobot3Q 1 emptyLog ["arm"]
      (by norm_num)).1.imp (fun _ h => ⟨h.1, h.2.2.2⟩)⟩

/-- C14 as stated fails: the timeouts handed to channels 2 and 3 can add up to
more than the remaining budget.  On `exampleRobot3Q` with a budget of 1.0, the
first wait takes 0.9 (the clock shows 100, then 100.9) and the second wait
returns at once (the clock still shows 100.9): channel 2 is handed 0.1 and
channel 3 is handed 0.1 again, 0.2 together. -/
theorem wait_interpolation_budget_counterexample :
    exampleEnvFast.now (emptyLog.reads + 1) = exampleEnvFast.now emptyLog.reads + 0.9 ∧
    (exampleRobot3Q.wait_interpolation exampleEnvFast 1 emptyLog).2.events =
      [Event.wait "arm" 1, Event.wait "head" (1 / 10), Event.wait "torso" (1 / 10)] ∧
    ¬ ((1 / 10 : ℚ) + 1 / 10 ≤ 0.1) := by
  have h : exampleRobot3Q.controllers_ = [("arm", exampleArmQ.setName "arm"),
      ("head", exampleHeadQ.setName "head"), ("torso", exampleTorsoQ.setName "torso")] := by
    decide
  refine ⟨by norm_num [exampleEnvFast, exampleEnv, emptyLog], ?_, by norm_num⟩
  simp only [RobotInterface.wait_interpolation, h, RobotInterface.waitLoop,
    TrajectoryClient.wait_interpolation, exampleEnvFast, exampleEnv, emptyLog,
    RobotInterface.remainTime, TrajectoryClient.setName]
  norm_num

/-- C14 (amended): shared shrinking budget of coordinator `wait_interpolation`,
with `env.now (log.reads + i)` the clock when `i` waits of the call have
returned.  In general, for a budget `T > 0` over `n` channels: if every wait
issued returns within the timeout it was handed, the clock after the last wait
is at most `T + (n-1) * 0.000001` past the clock at the start (`n-1` read as 0
without channels).  With 3 channels, a budget of 1.0 and a first wait that
takes 0.9: channel 2 is handed the remaining 0.1; channel 3 is handed what
channel 2 left of that 0.1, or 0.000001 when channel 2 used it up; so the time
channel 2 took and the timeout of channel 3 together are the remaining 0.1
(not the two timeouts), and channel 3 is not handed more than 0.1 when the
clock does not run backwards. -/
theorem wait_interpolation_budget {α : Type} [LinearOrderedField α] (env : Env α)
    (self : RobotInterface α) (log : Log α) :
    (∀ T : α, 0 < T →
      (∀ (i : Nat) (name : String) (tm : α),
        (self.wait_interpolation env T log).2.events[log.events.length + i]?
          = some (Event.wait name tm) →
        env.now (log.reads + i + 1) - env.now (log.reads + i) ≤ tm) →
      env.now (log.reads + ((self.wait_interpolation env T log).2.waits - log.waits))
          - env.now log.reads
        ≤ T + ((self.controllers_.length - 1 : Nat) : α) * 0.000001) ∧
    (∀ (kv1 kv2 kv3 : String × TrajectoryClient α),
      self.controllers_ = [kv1, kv2, kv3] →
      env.now (log.reads + 1) = env.now log.reads + 0.9 →
      (∀ j, j < 3 → env.waitResult (log.waits + j) = true) →
      (self.wait_interpolation env 1 log).2.events = log.events ++
        [Event.wait kv1.2.name_ 1, Event.wait kv2.2.name_ 0.1,
          Event.wait kv3.2.name_
            (if env.now (log.reads + 2) - env.now (log.reads + 1) < 0.1
              then 0.1 - (env.now (log.reads + 2) - env.now (log.reads + 1))
              else 0.000001)] ∧
      (env.now (log.reads + 2) - env.now (log.reads + 1) < 0.1 →
        (env.now (log.reads + 2) - env.now (log.reads + 1)) +
          (if env.now (log.reads + 2) - env.now (log.reads + 1) < 0.1
            then 0.1 - (env.now (log.reads + 2) - env.now (log.reads + 1))
            else 0.000001) = 0.1) ∧
      (0 ≤ env.now (log.reads + 2) - env.now (log.reads + 1) →
        (if env.now (log.reads + 2) - env.now (log.reads + 1) < 0.1
            then 0.1 - (env.now (log.reads + 2) - env.now (log.reads + 1))
            else 0.000001) ≤ 0.1)) := by
  constructor
  · intro T hT hwithin
    have hlimit : decide (T ≠ 0) = true := by simpa using ne_of_gt hT
    obtain ⟨k, hk, hev, hw, _⟩ := RobotInterface.waitLoop_prefix env (env.now log.reads + T)
      true self.controllers_ T { log with reads := log.reads + 1 }
    have hrun : self.wait_interpolation env T log =
        RobotInterface.waitLoop env (env.now log.reads + T) true self.controllers_ T
          { log with reads := log.reads + 1 } := by
      unfold RobotInterface.wait_interpolation
      simp only [hlimit]
    rw [hrun] at hwithin ⊢
    rw [hw]
    simp only [Nat.add_sub_cancel_left]
    have hget : ∀ i, i < k →
        env.now (log.reads + i + 1) - env.now (log.reads + i) ≤
          RobotInterface.handedTimeout env (env.now log.reads + T) true (log.reads + 1) T i := by
      intro i hi
      have hkv : i < (self.controllers_.take k).length := by
        rw [List.length_take]
        omega
      apply hwithin i (self.controllers_.take k)[i].2.name_
      rw [hev, List.getElem?_append_right (by simp), List.getElem?_mapIdx]
      simp [List.getElem?_eq_getElem hkv]
    have hb := budget_bound (fun i => env.now (log.reads + i)) T k
      (fun hk0 => by simpa [RobotInterface.handedTimeout] using hget 0 hk0)
      (fun i h1 hik => by
        obtain ⟨i', rfl⟩ : ∃ i', i = i' + 1 := ⟨i - 1, by omega⟩
        have := hget (i' + 1) hik
        simp only [RobotInterface.handedTimeout, if_true] at this
        simp only [Nat.add_zero]
        rw [show log.reads + 1 + i' = log.reads + (i' + 1) by omega] at this
        exact this)
    have heps : (0 : α) ≤ 0.000001 := by norm_num
    cases k with
    | zero =>
      simp only [Nat.add_zero, sub_self]
      have : (0 : α) ≤ ((self.controllers_.length - 1 : Nat) : α) * 0.000001 := by positivity
      linarith
    | succ k =>
      have h1 := hb k (by omega)
      simp only [Nat.add_zero] at h1
      have hcast : ((k : Nat) : α) ≤ ((self.controllers_.length - 1 : Nat) : α) := by
        exact_mod_cast (by omega : k ≤ self.controllers_.length - 1)
      have := mul_le_mul_of_nonneg_right hcast heps
      linarith
  · intro kv1 kv2 kv3 hcs hfirst hall
    have hlimit : decide ((1 : α) ≠ 0) = true := by simp
    have hev : (self.wait_interpolation env 1 log).2.events = log.events ++
        [Event.wait kv1.2.name_ 1, Event.wait kv2.2.name_ 0.1,
          Event.wait kv3.2.name_
            (if env.now (log.reads + 2) - env.now (log.reads + 1) < 0.1
              then 0.1 - (env.now (log.reads + 2) - env.now (log.reads + 1))
              else 0.000001)] := by
      unfold RobotInterface.wait_interpolation
      simp only [hlimit]
      rw [RobotInterface.waitLoop_all env _ true self.controllers_ 1 _
        (by rw [hcs]; exact hall), hcs]
      simp only [List.mapIdx_cons, List.mapIdx_nil, RobotInterface.handedTimeout, if_true,
        Nat.add_zero, RobotInterface.remainTime]
      have v2 : (if env.now log.reads + 1 - env.now (log.reads + 1) ≤ 0 then (0.000001 : α)
          else env.now log.reads + 1 - env.now (log.reads + 1)) = 0.1 := by
        rw [hfirst]
        norm_num
      have v3 : (if env.now log.reads + 1 - env.now (log.reads + 1 + 1) ≤ 0 then (0.000001 : α)
          else env.now log.reads + 1 - env.now (log.reads + 1 + 1)) =
          (if env.now (log.reads + 2) - env.now (log.reads + 1) < 0.1
            then 0.1 - (env.now (log.reads + 2) - env.now (log.reads + 1))
            else 0.000001) := by
        have e1 : env.now log.reads + 1 - env.now (log.reads + 1 + 1)
            = 0.1 - (env.now (log.reads + 2) - env.now (log.reads + 1)) := by
          rw [hfirst]
          ring_nf
        rw [e1]
        by_cases hd : env.now (log.reads + 2) - env.now (log.reads + 1) < 0.1
        · rw [if_pos hd, if_neg (by linarith)]
        · rw [if_neg hd, if_pos (by linarith)]
      rw [v2, v3]
    refine ⟨hev, ?_, ?_⟩
    · intro hd
      rw [if_pos hd]
      ring
    · intro hd
      by_cases hlt : env.now (log.reads + 2) - env.now (log.reads + 1) < 0.1
      · rw [if_pos hlt]
        linarith
      · rw [if_neg hlt]
        norm_num

/-- Instance of `wait_interpolation_budget`: the scenario on `exampleRobot3Q`
in the world `exampleEnv`, where the second wait uses up the slack. -/
theorem wait_interpolation_budget_witness :
    (0 : ℚ) < 1 ∧
    exampleRobot3Q.controllers_ = [("arm", exampleArmQ.setName "arm"),
      ("head", exampleHeadQ.setName "head"), ("torso", exampleTorsoQ.setName "torso")] ∧
    exampleEnv.now (emptyLog.reads + 1) = exampleEnv.now emptyLog.reads + 0.9 ∧
    (exampleRobot3Q.wait_interpolation exampleEnv 1 emptyLog).2.events =
      [Event.wait "arm" 1, Event.wait "head" 0.1, Event.wait "torso" 0.000001] ∧
    exampleEnv.now (emptyLog.reads +
        ((exampleRobot3Q.wait_interpolation exampleEnv 1 emptyLog).2.waits - emptyLog.waits))
        - exampleEnv.now emptyLog.reads
      ≤ 1 + ((exampleRobot3Q.controllers_.length - 1 : Nat) : ℚ) * 0.000001 := by
  refine ⟨by norm_num, by decide, by norm_num [exampleEnv, emptyLog], ?_, ?_⟩
  · rw [((wait_interpolation_budget exampleEnv exampleRobot3Q emptyLog).2
      ("arm", exampleArmQ.setName "arm") ("head", exampleHeadQ.setName "head")
      ("torso", exampleTorsoQ.setName "torso") (by decide)
      (by norm_num [exampleEnv, emptyLog]) (fun _ _ => rfl)).1]
    norm_num [exampleEnv, emptyLog, TrajectoryClient.setName, exampleArmQ, exampleHeadQ,
      exampleTorsoQ]
  · apply (wait_interpolation_budget exampleEnv exampleRobot3Q emptyLog).1 1 (by norm_num)
    intro i name tm h
    rw [exampleRobot3Q_events] at h
    rcases i with _ | _ | _ | i
    · simp [emptyLog] at h
      rw [← h.2]
      norm_num [exampleEnv, emptyLog]
    · simp [emptyLog] at h
      rw [← h.2]
      norm_num [exampleEnv, emptyLog]
    · simp [emptyLog] at h
      rw [← h.2]
      norm_num [exampleEnv, emptyLog]
    · simp [emptyLog] at h

/-- C15: coordinator `wait_interpolation`, in the form over all channels and in
the form over a name list: it returns true iff every channel wait it issued
reported completion (and then, over all channels, it waited on all of them).
When the wait on controller `j` is the first to report a timeout it returns
false having waited on the controllers up to `j` only and read the clock only
at the start and after the `j` completed waits.  Over a name list, when the
wait on a registered name reports a timeout after the names before it went
well, it returns false with one more wait and no further clock reading than the
call on those names before it, whatever names follow. -/
theorem wait_interpolation_result {α : Type} [LinearOrderedField α] (env : Env α)
    (self : RobotInterface α) (tm : α) (log : Log α) (names : List String) :
    (((self.wait_interpolation env tm log).1 = true ↔
        ∀ i, log.waits ≤ i → i < (self.wait_interpolation env tm log).2.waits →
          env.waitResult i = true) ∧
      ((self.wait_interpolation env tm log).1 = true →
        (self.wait_interpolation env tm log).2.waits = log.waits + self.controllers_.length) ∧
      (∀ j, j < self.controllers_.length →
        (∀ i, i < j → env.waitResult (log.waits + i) = true) →
        env.waitResult (log.waits + j) = false →
        (self.wait_interpolation env tm log).1 = false ∧
        (self.wait_interpolation env tm log).2.waits = log.waits + (j + 1) ∧
        (self.wait_interpolation env tm log).2.reads
          = log.reads + 1 + (if tm ≠ 0 then j else 0) ∧
        (self.wait_interpolation env tm log).2.events.map Event.name =
          log.events.map Event.name ++
            (self.controllers_.take (j + 1)).map (fun kv => kv.2.name_))) ∧
    (((self.wait_interpolation_names env names tm log).1 = true ↔
        ∀ i, log.waits ≤ i → i < (self.wait_interpolation_names env names tm log).2.waits →
          env.waitResult i = true) ∧
      (∀ (pre post : List String) (name : String) (c : TrajectoryClient α),
        names = pre ++ name :: post → self.controllers_.find name = some c →
        (self.wait_interpolation_names env pre tm log).1 = true →
        env.waitResult (self.wait_interpolation_names env pre tm log).2.waits = false →
        (self.wait_interpolation_names env names tm log).1 = false ∧
        (self.wait_interpolation_names env names tm log).2.waits
          = (self.wait_interpolation_names env pre tm log).2.waits + 1 ∧
        (self.wait_interpolation_names env names tm log).2.reads
          = (self.wait_interpolation_names env pre tm log).2.reads ∧
        ∃ t : α, (self.wait_interpolation_names env names tm log).2.events
          = (self.wait_interpolation_names env pre tm log).2.events
            ++ [Event.wait c.name_ t])) := by
  constructor
  · obtain ⟨k, hk, hev, hw, hbefore, htrue, hfalse⟩ :=
      RobotInterface.waitLoop_prefix env (env.now log.reads + tm) (decide (tm ≠ 0))
        self.controllers_ tm { log with reads := log.reads + 1 }
    have hrun : self.wait_interpolation env tm log =
        RobotInterface.waitLoop env (env.now log.reads + tm) (decide (tm ≠ 0))
          self.controllers_ tm { log with reads := log.reads + 1 } := rfl
    rw [hrun]
    refine ⟨?_, fun h => by rw [hw, (htrue h).1], ?_⟩
    · rw [hw]
      constructor
      · intro h i h1 h2
        have := (htrue h).2 (i - log.waits) (by simp only [] at h2; omega)
        simp only [] at this
        rwa [show log.waits + (i - log.waits) = i by omega] at this
      · intro hall
        by_contra hne
        have hf : (RobotInterface.waitLoop env (env.now log.reads + tm) (decide (tm ≠ 0))
            self.controllers_ tm { log with reads := log.reads + 1 }).1 = false := by
          simpa using hne
        obtain ⟨hk0, hfail, _⟩ := hfalse hf
        have := hall (log.waits + (k - 1)) (by omega) (by simp only []; omega)
        simp only [] at hfail
        rw [this] at hfail
        exact absurd hfail (by simp)
    · intro j hj hb hfail
      rw [RobotInterface.waitLoop_fail env (env.now log.reads + tm) (decide (tm ≠ 0))
        self.controllers_ j tm
        ({ reads := log.reads + 1, waits := log.waits, events := log.events } : Log α)
        hj hb hfail]
      refine ⟨rfl, rfl, ?_, ?_⟩
      · by_cases h0 : tm = 0 <;> simp [h0]
      · simp only [List.map_append]
        rw [map_name_mapIdx_wait (List.take (j + 1) self.controllers_)
          (fun kv => kv.2.name_)]
  · have hrun : ∀ l : List String, self.wait_interpolation_names env l tm log =
        RobotInterface.waitLoopNames env self.controllers_ (env.now log.reads + tm)
          (decide (tm ≠ 0)) l tm { log with reads := log.reads + 1 } := fun _ => rfl
    constructor
    · obtain ⟨k, hw, htrue, hfalse⟩ := RobotInterface.waitLoopNames_result env self.controllers_
        (env.now log.reads + tm) (decide (tm ≠ 0)) names tm { log with reads := log.reads + 1 }
      rw [hrun, hw]
      constructor
      · intro h i h1 h2
        have := htrue h (i - log.waits) (by simp only [] at h2; omega)
        simp only [] at this
        rwa [show log.waits + (i - log.waits) = i by omega] at this
      · intro hall
        by_contra hne
        have hf : (RobotInterface.waitLoopNames env self.controllers_ (env.now log.reads + tm)
            (decide (tm ≠ 0)) names tm { log with reads := log.reads + 1 }).1 = false := by
          simpa using hne
        obtain ⟨hk0, hfail⟩ := hfalse hf
        have := hall (log.waits + (k - 1)) (by omega) (by simp only []; omega)
        simp only [] at hfail
        rw [this] at hfail
        exact absurd hfail (by simp)
    · intro pre post name c hnames hfind hok hfail
      rw [hrun] at hok hfail
      obtain ⟨t, ht⟩ := RobotInterface.waitLoopNames_stop env self.controllers_
        (env.now log.reads + tm) (decide (tm ≠ 0)) name c post hfind pre tm
        { log with reads := log.reads + 1 } hok hfail
      rw [hnames, hrun, hrun, ht]
      exact ⟨rfl, rfl, rfl, t, rfl⟩

/-- Instance of `wait_interpolation_result`: on `exampleRobot3Q` the second wait
(on `head`) reports a timeout; `torso` is not waited on and the clock is read
twice only. -/
theorem wait_interpolation_result_witness :
    (1 : Nat) < exampleRobot3Q.controllers_.length ∧
    (∀ i, i < 1 → exampleEnvTimeout.waitResult (emptyLog.waits + i) = true) ∧
    exampleEnvTimeout.waitResult (emptyLog.waits + 1) = false ∧
    (exampleRobot3Q.wait_interpolation exampleEnvTimeout 1 emptyLog).1 = false ∧
    (exampleRobot3Q.wait_interpolation exampleEnvTimeout 1 emptyLog).2.waits
      = emptyLog.waits + 2 ∧
    (exampleRobot3Q.wait_interpolation exampleEnvTimeout 1 emptyLog).2.events.map Event.name
      = ["arm", "head"] :=
  ⟨by decide, by decide, by decide,
    ((wait_interpolation_result exampleEnvTimeout exampleRobot3Q 1 emptyLog []).1.2.2 1
      (by decide) (by decide) (by decide)).1,
    ((wait_interpolation_result exampleEnvTimeout exampleRobot3Q 1 emptyLog []).1.2.2 1
      (by decide) (by decide) (by decide)).2.1,
    ((wait_interpolation_result exampleEnvTimeout exampleRobot3Q 1 emptyLog []).1.2.2 1
      (by decide) (by decide) (by decide)).2.2.2.trans (by decide)⟩

/-- C16 as stated fails: `torso` is registered before `arm`, every wait
reports completion, and the waits are issued on `arm` first, then on `torso`. -/
theorem wait_interpolation_order_counterexample :
    RobotInterface.registerAll [("torso", exampleTorsoQ, true), ("arm", exampleArmQ, true)]
      = exampleRobotQ ∧
    (∀ j, exampleEnv.waitResult j = true) ∧
    (exampleRobotQ.wait_interpolation exampleEnv 1 emptyLog).2.events.map Event.name
      = ["arm", "torso"] ∧
    (exampleRobotQ.wait_interpolation exampleEnv 1 emptyLog).2.events.map Event.name
      ≠ ["torso", "arm"] := by
  have h : (exampleRobotQ.wait_interpolation exampleEnv 1 emptyLog).2.events.map Event.name
      = ["arm", "torso"] := by
    rw [RobotInterface.wait_interpolation_names_of_all exampleEnv exampleRobotQ 1 emptyLog
      (fun _ _ => rfl)]
    decide
  refine ⟨by decide, fun _ => rfl, h, ?_⟩
  rw [h]
  decide

/-- C16 (amended): coordinator `wait_interpolation` over all channels waits on
the channels in ascending order of their keys, not in the order of their
registration.  For every sequence of registrations on a new coordinator the
registry holds exactly the registered keys, in strictly ascending order; the
waits are issued on a first part of the channels in that order, and on all of
them in that order when every wait reports completion. -/
theorem wait_interpolation_order {α : Type} [LinearOrderedField α] (env : Env α)
    (regs : List (String × TrajectoryClient α × Bool)) (tm : α) (log : Log α) :
    ((RobotInterface.registerAll regs).controllers_.map Prod.fst).Pairwise
      (fun a b => strLt a b = true) ∧
    (∀ k, k ∈ (RobotInterface.registerAll regs).controllers_.map Prod.fst ↔
      k ∈ regs.map Prod.fst) ∧
    (∃ n, n ≤ (RobotInterface.registerAll regs).controllers_.length ∧
      ((RobotInterface.registerAll regs).wait_interpolation env tm log).2.events.map Event.name
        = log.events.map Event.name ++
          ((RobotInterface.registerAll regs).controllers_.map Prod.fst).take n) ∧
    ((∀ j, j < (RobotInterface.registerAll regs).controllers_.length →
        env.waitResult (log.waits + j) = true) →
      ((RobotInterface.registerAll regs).wait_interpolation env tm log).2.events.map Event.name
        = log.events.map Event.name ++
          (RobotInterface.registerAll regs).controllers_.map Prod.fst) := by
  obtain ⟨hs, hn, hk⟩ := RobotInterface.foldl_add_controller_registry regs RobotInterface.init
    (by simp [RobotInterface.init]) (by simp [RobotInterface.init])
  have hnames : (RobotInterface.registerAll regs).controllers_.map (fun kv => kv.2.name_)
      = (RobotInterface.registerAll regs).controllers_.map Prod.fst :=
    List.map_congr_left (fun kv hkv => hn kv hkv)
  refine ⟨hs, ?_, ?_, ?_⟩
  · intro k
    have := hk k
    simp only [RobotInterface.init, List.map_nil, List.not_mem_nil, false_or] at this
    exact this
  · obtain ⟨n, hle, hev, _⟩ := RobotInterface.waitLoop_prefix env (env.now log.reads + tm)
      (decide (tm ≠ 0)) (RobotInterface.registerAll regs).controllers_ tm
      ({ reads := log.reads + 1, waits := log.waits, events := log.events } : Log α)
    refine ⟨n, hle, ?_⟩
    have hrun : (RobotInterface.registerAll regs).wait_interpolation env tm log =
        RobotInterface.waitLoop env (env.now log.reads + tm) (decide (tm ≠ 0))
          (RobotInterface.registerAll regs).controllers_ tm
          { reads := log.reads + 1, waits := log.waits, events := log.events } := rfl
    rw [hrun, hev, List.map_append,
      map_name_mapIdx_wait (List.take n (RobotInterface.registerAll regs).controllers_)
        (fun kv => kv.2.name_), ← List.map_take]
    congr 1
    exact List.map_congr_left (fun kv hkv => hn kv (List.mem_of_mem_take hkv))
  · intro hall
    rw [RobotInterface.wait_interpolation_names_of_all env _ tm log hall, hnames]

/-- Instance of `wait_interpolation_order`: `torso` registered before `arm`;
the waits are issued on `arm`, then on `torso`. -/
theorem wait_interpolation_order_witness :
    (∀ j, j < (RobotInterface.registerAll
        [("torso", exampleTorsoQ, true), ("arm", exampleArmQ, true)]).controllers_.length →
      exampleEnv.waitResult (emptyLog.waits + j) = true) ∧
    ((RobotInterface.registerAll
        [("torso", exampleTorsoQ, true), ("arm", exampleArmQ, true)]).wait_interpolation
      exampleEnv 1 emptyLog).2.events.map Event.name = ["arm", "torso"] :=
  ⟨fun _ _ => rfl,
    ((wait_interpolation_order exampleEnv
      [("torso", exampleTorsoQ, true), ("arm", exampleArmQ, true)] 1 emptyLog).2.2.2
      (fun _ _ => rfl)).trans (by decide)⟩

/-- C17: coordinator `interpolatingp`, over all channels and over a name list.
It returns true, without waiting, whenever some resolved channel reports an
active goal.  When no resolved channel does, it returns the negation of the
coordinator `wait_interpolation` probe with timeout 0.00001 over the same
targets, and the log is that of the probe.  When the name list names no
registered channel the probe succeeds and `interpolatingp` returns false. -/
theorem interpolatingp_spec {α : Type} [LinearOrderedField α] (env : Env α)
    (self : RobotInterface α) (names : List String) (log : Log α) :
    ((∃ kv, kv ∈ self.controllers_ ∧ env.getState kv.2.name_ = SimpleClientGoalState.ACTIVE) →
      self.interpolatingp env log = (true, log)) ∧
    ((∀ kv, kv ∈ self.controllers_ → env.getState kv.2.name_ ≠ SimpleClientGoalState.ACTIVE) →
      self.interpolatingp env log =
        (!(self.wait_interpolation env 0.00001 log).1,
          (self.wait_interpolation env 0.00001 log).2)) ∧
    ((∃ n c, n ∈ names ∧ self.controllers_.find n = some c ∧
        env.getState c.name_ = SimpleClientGoalState.ACTIVE) →
      self.interpolatingp_names env names log = (true, log)) ∧
    ((∀ n c, n ∈ names → self.controllers_.find n = some c →
        env.getState c.name_ ≠ SimpleClientGoalState.ACTIVE) →
      self.interpolatingp_names env names log =
        (!(self.wait_interpolation_names env names 0.00001 log).1,
          (self.wait_interpolation_names env names 0.00001 log).2)) ∧
    ((∀ n, n ∈ names → self.controllers_.find n = none) →
      (self.wait_interpolation_names env names 0.00001 log).1 = true ∧
      (self.interpolatingp_names env names log).1 = false) := by
  have hall_true : (∃ kv, kv ∈ self.controllers_ ∧
      env.getState kv.2.name_ = SimpleClientGoalState.ACTIVE) →
      self.interpolatingp env log = (true, log) := by
    intro h
    unfold RobotInterface.interpolatingp
    simp only [(RobotInterface.anyInterpolating_iff env self.controllers_).mpr h,
      Bool.not_true, Bool.false_eq_true, if_false]
  have hall_false : (∀ kv, kv ∈ self.controllers_ →
      env.getState kv.2.name_ ≠ SimpleClientGoalState.ACTIVE) →
      self.interpolatingp env log =
        (!(self.wait_interpolation env 0.00001 log).1,
          (self.wait_interpolation env 0.00001 log).2) := by
    intro h
    have hf : RobotInterface.anyInterpolating env self.controllers_ = false := by
      rw [Bool.eq_false_iff]
      intro ht
      obtain ⟨kv, hkv, hs⟩ := (RobotInterface.anyInterpolating_iff env self.controllers_).mp ht
      exact h kv hkv hs
    unfold RobotInterface.interpolatingp
    simp only [hf, Bool.not_false, if_true]
  have hnames_true : (∃ n c, n ∈ names ∧ self.controllers_.find n = some c ∧
      env.getState c.name_ = SimpleClientGoalState.ACTIVE) →
      self.interpolatingp_names env names log = (true, log) := by
    intro h
    unfold RobotInterface.interpolatingp_names
    simp only [(RobotInterface.anyInterpolatingNames_iff env self.controllers_ names).mpr h,
      Bool.not_true, Bool.false_eq_true, if_false]
  have hnames_false : (∀ n c, n ∈ names → self.controllers_.find n = some c →
      env.getState c.name_ ≠ SimpleClientGoalState.ACTIVE) →
      self.interpolatingp_names env names log =
        (!(self.wait_interpolation_names env names 0.00001 log).1,
          (self.wait_interpolation_names env names 0.00001 log).2) := by
    intro h
    have hf : RobotInterface.anyInterpolatingNames env self.controllers_ names = false := by
      rw [Bool.eq_false_iff]
      intro ht
      obtain ⟨n, c, hn, hc, hs⟩ :=
        (RobotInterface.anyInterpolatingNames_iff env self.controllers_ names).mp ht
      exact h n c hn hc hs
    unfold RobotInterface.interpolatingp_names
    simp only [hf, Bool.not_false, if_true]
  refine ⟨hall_true, hall_false, hnames_true, hnames_false, ?_⟩
  intro hnone
  have hprobe : (self.wait_interpolation_names env names 0.00001 log).1 = true :=
    (RobotInterface.waitLoopNames_unknown env self.controllers_ _ _ names hnone _ _).1
  refine ⟨hprobe, ?_⟩
  rw [hnames_false (fun n c hn hc => by
    rw [hnone n hn] at hc
    exact Option.noConfusion hc), hprobe]
  rfl

/-- Instance of `interpolatingp_spec`: with the goal of `arm` active the
coordinator is interpolating; over two names that are not registered it is not. -/
theorem interpolatingp_spec_witness :
    (∃ kv, kv ∈ exampleRobotQ.controllers_ ∧
      exampleEnvActive.getState kv.2.name_ = SimpleClientGoalState.ACTIVE) ∧
    exampleRobotQ.interpolatingp exampleEnvActive emptyLog = (true, emptyLog) ∧
    (∀ n, n ∈ ["neck", "leg"] → exampleRobotQ.controllers_.find n = none) ∧
    (exampleRobotQ.interpolatingp_names exampleEnv ["neck", "leg"] emptyLog).1 = false :=
  ⟨⟨("arm", exampleArmQ.setName "arm"), by decide, by decide⟩,
    (interpolatingp_spec exampleEnvActive exampleRobotQ [] emptyLog).1
      ⟨("arm", exampleArmQ.setName "arm"), by decide, by decide⟩,
    by decide,
    ((interpolatingp_spec exampleEnv exampleRobotQ ["neck", "leg"] emptyLog).2.2.2.2
      (by decide)).2⟩

/-! ## Claims on cancelling, named targets and sequences -/

/-- C18 fails on the code for the name-list form.  On the coordinator with `arm`
and `torso`, `cancel_angle_vector({arm}, true)` calls arm's cancel with
per-channel wait = true, which waits on `arm` at once, and then waits over all
channels, `torso` included.  The all-channels form does what the claim says:
every cancel with wait = false, then one wait over the channels. -/
theorem cancel_angle_vector_names_waits :
    exampleRobotQ.controllers_.map Prod.fst = ["arm", "torso"] ∧
    (exampleRobotQ.cancel_angle_vector_names exampleEnv 0 ["arm"] true emptyLog).events =
      [Event.cancel "arm" true, Event.wait "arm" 0, Event.wait "arm" 0, Event.wait "torso" 0] ∧
    (exampleRobotQ.cancel_angle_vector exampleEnv 0 true emptyLog).events =
      [Event.cancel "arm" false, Event.cancel "torso" false, Event.wait "arm" 0,
        Event.wait "torso" 0] := by
  decide

/-- C20 fails on the code.  The second waypoint `1, 2` reaches no joint of `arm`,
so it fails conversion for `arm` and is dropped, while the first converts; the
durations are not dropped with it, so the channel rejects the one vector
against the two durations and `arm` is sent no goal at all.  `torso` is sent
both waypoints. -/
theorem send_angle_vector_sequence_drops_channel :
    exampleRobot.controllers_.find "arm" = some (exampleArm.setName "arm") ∧
    (exampleArm.setName "arm").toTrajectoryBase.convertToAngleVector_names
      exampleRobot.joint_list_ [1, 2, 3, 4, 5] [] = (true, [3, 4, 5]) ∧
    ((exampleArm.setName "arm").toTrajectoryBase.convertToAngleVector_names
      exampleRobot.joint_list_ [1, 2] []).1 = false ∧
    (exampleArm.setName "arm").convertSequence exampleRobot.joint_list_
      [[1, 2, 3, 4, 5], [1, 2]] = [[3, 4, 5]] ∧
    ((exampleRobot.send_angle_vector_sequence [[1, 2, 3, 4, 5], [1, 2]] [1, 1] 0).controllers_.find
      "arm").map (fun c => c.sent_goals) = some [] ∧
    ((exampleRobot.send_angle_vector_sequence [[1, 2, 3, 4, 5], [1, 2]] [1, 1] 0).controllers_.find
      "torso").map (fun c => c.sent_goals.map (fun g => g.points)) =
        some [[{ positions := [1, 2], time_from_start := 1 },
               { positions := [1, 2], time_from_start := 2 }]] ∧
    ((exampleRobot.send_angle_vector_sequence_names [[1, 2, 3, 4, 5], [1, 2]] [1, 1]
      ["arm", "torso"] 0).controllers_.find "arm").map (fun c => c.sent_goals) = some [] := by
  decide

end robot_interface

/-! # Theorems on the wheel kinematics -/

namespace navigation

/-! ## Lemmas on the constants -/

/-- The speed limit is 90 deg/s. -/
theorem max_velocity_eq : (max_velocity : ℝ) = 90 := by norm_num [max_velocity]

/-- The wheel radius is positive. -/
theorem radius_pos : (0 : ℝ) < radius := by norm_num [radius]

/-- The turning radius is positive. -/
theorem Radius_pos : (0 : ℝ) < Radius := by norm_num [Radius]

/-- The speed limit is positive. -/
theorem max_velocity_pos : (0 : ℝ) < max_velocity := by norm_num [max_velocity]

/-! ## Lemmas on the shaping functions -/

/-- The arc tangent of a positive value is positive. -/
theorem arctan_pos_of_pos {t : ℝ} (h : 0 < t) : 0 < Real.arctan t := by
  have := Real.arctan_strictMono h
  rwa [Real.arctan_zero] at this

/-- The arc tangent of a negative value is negative. -/
theorem arctan_neg_of_neg {t : ℝ} (h : t < 0) : Real.arctan t < 0 := by
  have := Real.arctan_strictMono h
  rwa [Real.arctan_zero] at this

/-- A ramp `max_velocity * 4 / pi * d` stays within the limit when `d` is within a
quarter of `pi`. -/
theorem ramp_abs_le (d : ℝ) (h1 : -(Real.pi / 4) ≤ d) (h2 : d ≤ Real.pi / 4) :
    |max_velocity * 4 / Real.pi * d| ≤ max_velocity := by
  have hpi := Real.pi_pos
  have hm : (0 : ℝ) < max_velocity := max_velocity_pos
  have hk : 0 < max_velocity * 4 / Real.pi := by positivity
  have e : max_velocity * 4 / Real.pi * (Real.pi / 4) = max_velocity := by
    field_simp
  rw [abs_le]
  constructor
  · have := mul_le_mul_of_nonneg_left h1 (le_of_lt hk)
    rw [mul_neg, e] at this
    exact this
  · have := mul_le_mul_of_nonneg_left h2 (le_of_lt hk)
    rw [e] at this
    exact this

open AeroMoveBaseImpl in
/-- The first shaping function stays within the limit. -/
theorem lambda_vel1_abs_le (x y : ℝ) :
    |lambda_vel1 Real.arctan Real.pi x y| ≤ max_velocity := by
  have hpi := Real.pi_pos
  have hm : (0 : ℝ) < max_velocity := max_velocity_pos
  unfold lambda_vel1
  split_ifs with h1 h2 h3
  · have a1 : 0 < Real.arctan (y / x) := arctan_pos_of_pos (div_pos h1.2 h1.1)
    have a2 := Real.arctan_lt_pi_div_two (y / x)
    exact ramp_abs_le _ (by linarith) (by linarith)
  · rw [abs_neg, abs_of_pos hm]
  · rw [abs_of_pos hm]
  · have hx : x < 0 := by
      by_contra hx
      push_neg at hx
      by_cases hy : 0 < y
      · rcases eq_or_lt_of_le hx with h | h
        · exact h2 ⟨le_of_lt hy, le_of_eq h.symm⟩
        · exact h1 ⟨h, hy⟩
      · exact h3 ⟨not_lt.mp hy, hx⟩
    have hy : y < 0 := by
      by_contra hy
      push_neg at hy
      exact h2 ⟨hy, le_of_lt hx⟩
    have a1 : 0 < Real.arctan (y / x) := arctan_pos_of_pos (div_pos_of_neg_of_neg hy hx)
    have a2 := Real.arctan_lt_pi_div_two (y / x)
    exact ramp_abs_le _ (by linarith) (by linarith)

open AeroMoveBaseImpl in
/-- The second shaping function stays within the limit outside the open second quadrant. -/
theorem lambda_vel2_abs_le (x y : ℝ) (h : ¬ (y > 0 ∧ x < 0)) :
    |lambda_vel2 Real.arctan Real.pi x y| ≤ max_velocity := by
  have hpi := Real.pi_pos
  have hm : (0 : ℝ) < max_velocity := max_velocity_pos
  unfold lambda_vel2
  split_ifs with h1 h3
  · rw [abs_of_pos hm]
  · have a1 : Real.arctan (y / x) < 0 := arctan_neg_of_neg (div_neg_of_neg_of_pos h3.1 h3.2)
    have a2 := Real.neg_pi_div_two_lt_arctan (y / x)
    exact ramp_abs_le _ (by linarith) (by linarith)
  · rw [abs_neg, abs_of_pos hm]

open AeroMoveBaseImpl in
/-- The second shaping function exceeds the limit in the open second quadrant. -/
theorem lambda_vel2_second_quadrant (x y : ℝ) (hx : x < 0) (hy : 0 < y) :
    lambda_vel2 Real.arctan Real.pi x y < -max_velocity := by
  have hpi := Real.pi_pos
  have hm : (0 : ℝ) < max_velocity := max_velocity_pos
  have c1 : ¬ (x ≥ 0 ∧ y ≥ 0) := fun h => absurd h.1 (not_le.mpr hx)
  have c2 : y > 0 ∧ x < 0 := ⟨hy, hx⟩
  have a1 : Real.arctan (y / x) < 0 := arctan_neg_of_neg (div_neg_of_pos_of_neg hy hx)
  have hk : 0 < max_velocity * 4 / Real.pi := by positivity
  have e : max_velocity * 4 / Real.pi * (Real.pi / 4) = max_velocity := by
    field_simp
  simp only [lambda_vel2, if_neg c1, if_pos c2]
  have h3 : 0.75 * Real.pi - (Real.pi - Real.arctan (y / x)) < -(Real.pi / 4) := by
    norm_num
    linarith
  have := mul_lt_mul_of_pos_left h3 hk
  rw [mul_neg, e] at this
  exact this

/-- The speeds of the translation kernel stay within the limit outside the open second
quadrant. -/
theorem Translate_abs_le (x y : ℝ) (h : ¬ (y > 0 ∧ x < 0)) :
    ∀ v ∈ (AeroMoveBaseImpl.Translate Real.arctan Real.sqrt Real.pi x y).velocities,
      |v| ≤ max_velocity := by
  intro v hv
  simp only [AeroMoveBaseImpl.Translate, List.getD_cons_zero, List.getD_cons_succ,
    List.mem_cons, List.mem_singleton, List.not_mem_nil, or_false] at hv
  rcases hv with h1 | h1 | h1 | h1 <;> rw [h1]
  · exact lambda_vel1_abs_le x y
  · rw [abs_neg]
    exact lambda_vel2_abs_le x y h
  · exact lambda_vel2_abs_le x y h
  · rw [abs_neg]
    exact lambda_vel1_abs_le x y

open AeroMoveBaseImpl in
/-- One of the two shaped values is `max_velocity` or `-max_velocity`. -/
theorem lambda_vel_ne_zero (x y : ℝ) :
    lambda_vel1 Real.arctan Real.pi x y ≠ 0 ∨ lambda_vel2 Real.arctan Real.pi x y ≠ 0 := by
  have hm : (0 : ℝ) < max_velocity := max_velocity_pos
  by_cases h1 : x ≥ 0 ∧ y ≥ 0
  · right
    simp only [lambda_vel2, if_pos h1]
    exact ne_of_gt hm
  · by_cases h2 : y > 0 ∧ x < 0
    · left
      have h3 : ¬ (x > 0 ∧ y > 0) := fun h => absurd h.1 (not_lt.mpr (le_of_lt h2.2))
      have h4 : y ≥ 0 ∧ x ≤ 0 := ⟨le_of_lt h2.1, le_of_lt h2.2⟩
      simp only [lambda_vel1, if_neg h3, if_pos h4]
      exact ne_of_lt (by linarith)
    · by_cases h5 : y < 0 ∧ x > 0
      · left
        have h3 : ¬ (x > 0 ∧ y > 0) := fun h => absurd h.2 (not_lt.mpr (le_of_lt h5.1))
        have h4 : ¬ (y ≥ 0 ∧ x ≤ 0) := fun h => absurd h.1 (not_le.mpr h5.1)
        have h6 : y ≤ 0 ∧ x ≥ 0 := ⟨le_of_lt h5.1, le_of_lt h5.2⟩
        simp only [lambda_vel1, if_neg h3, if_neg h4, if_pos h6]
        exact ne_of_gt hm
      · right
        simp only [lambda_vel2, if_neg h1, if_neg h2, if_neg h5]
        exact ne_of_lt (by linarith)

theorem sqrt_two_lit : Real.sqrt 2.0 = Real.sqrt 2 := by norm_num

/-- The sum of squares of `Vx` and `Vy`. -/
theorem Vx_Vy_sq (l1 l2 : ℝ) :
    (0.25 * Real.sqrt 2.0 * 0.5 * (l1 + l2 + l2 + l1)) *
        (0.25 * Real.sqrt 2.0 * 0.5 * (l1 + l2 + l2 + l1)) +
      (0.25 * Real.sqrt 2.0 * 0.5 * (-l1 + l2 + l2 - l1)) *
        (0.25 * Real.sqrt 2.0 * 0.5 * (-l1 + l2 + l2 - l1))
      = (l1 * l1 + l2 * l2) / 4 := by
  have h2 : Real.sqrt 2.0 * Real.sqrt 2.0 = 2 := by
    rw [sqrt_two_lit]
    exact Real.mul_self_sqrt (by norm_num)
  have e : ∀ s : ℝ, s * s = 2 →
      (0.25 * s * 0.5 * (l1 + l2 + l2 + l1)) * (0.25 * s * 0.5 * (l1 + l2 + l2 + l1)) +
      (0.25 * s * 0.5 * (-l1 + l2 + l2 - l1)) * (0.25 * s * 0.5 * (-l1 + l2 + l2 - l1))
      = (l1 * l1 + l2 * l2) / 4 := by
    intro s hs
    have : (0.25 * s * 0.5 * (l1 + l2 + l2 + l1)) * (0.25 * s * 0.5 * (l1 + l2 + l2 + l1)) +
      (0.25 * s * 0.5 * (-l1 + l2 + l2 - l1)) * (0.25 * s * 0.5 * (-l1 + l2 + l2 - l1))
      = (s * s) * ((l1 * l1 + l2 * l2) / 8) := by
      norm_num
      ring
    rw [this, hs]
    ring
  exact e _ h2

/-! ## Lemmas on `Drift` -/

/-- The clamp of `Drift` is a minimum. -/
theorem Drift_clamp_eq_min {α : Type} [LinearOrderedField α] (p t : α) :
    (if t > p * 0.5 then p * 0.5 else t) = min t (p / 2) := by
  have e : p * 0.5 = p / 2 := by
    norm_num
    ring
  rw [e]
  by_cases h : t > p / 2
  · rw [if_pos h, min_eq_right (le_of_lt h)]
  · rw [if_neg h, min_eq_left (not_lt.mp h)]

/-- The clamped angle of a turn that is not zero lies in `(0, pi / 2]`. -/
theorem Drift_clamp_pos (theta : ℝ) (h : theta ≠ 0) :
    0 < min |theta| (Real.pi / 2) ∧ min |theta| (Real.pi / 2) ≤ Real.pi / 2 :=
  ⟨lt_min (abs_pos.mpr h) (by have := Real.pi_pos; linarith), min_le_right _ _⟩

/-- The sine of the clamped angle of a turn that is not zero is positive. -/
theorem Drift_sin_pos (theta : ℝ) (h : theta ≠ 0) :
    0 < Real.sin (min |theta| (Real.pi / 2)) := by
  obtain ⟨h1, h2⟩ := Drift_clamp_pos theta h
  exact Real.sin_pos_of_pos_of_lt_pi h1 (by have := Real.pi_pos; linarith)

/-- The differential of `Drift` in closed form, for any positive values. -/
theorem Drift_v_theta_closed (t s q R r V p : ℝ) (ht : 0 < t) (hs : 0 < s) (hq : 0 < q)
    (hR : 0 < R) (hr : 0 < r) (hp : 0 < p) :
    2 * t * q * R / (r * (t * 600 / (p * r * V) * (s + q * R)) * p) * 300
      = V * (q * R) / (s + q * R) := by
  have h1 : s + q * R ≠ 0 := ne_of_gt (by positivity)
  field_simp
  ring

/-- The time derived by `Drift` is positive when the turn is not zero. -/
theorem Drift_time_pos (x theta : ℝ) (h : theta ≠ 0) :
    0 < min |theta| (Real.pi / 2) * 600 / (Real.pi * radius * max_velocity) *
        (|x| / Real.sin (min |theta| (Real.pi / 2)) + Real.sqrt 2 * Radius) := by
  obtain ⟨h1, _⟩ := Drift_clamp_pos theta h
  have h3 := Drift_sin_pos theta h
  have h4 := Real.pi_pos
  have h5 : (0 : ℝ) < radius := radius_pos
  have h6 : (0 : ℝ) < Radius := Radius_pos
  have h7 : (0 : ℝ) < max_velocity := max_velocity_pos
  have h8 : 0 < Real.sqrt 2 := Real.sqrt_pos.mpr (by norm_num)
  have h9 : 0 ≤ |x| / Real.sin (min |theta| (Real.pi / 2)) :=
    div_nonneg (abs_nonneg x) (le_of_lt h3)
  have h10 : 0 < Real.sqrt 2 * Radius := mul_pos h8 h6
  have h11 : 0 < |x| / Real.sin (min |theta| (Real.pi / 2)) + Real.sqrt 2 * Radius := by
    linarith
  have h12 : 0 < min |theta| (Real.pi / 2) * 600 / (Real.pi * radius * max_velocity) := by
    positivity
  exact mul_pos h12 h11

/-! ## Lemmas on `VelocityToWheel` -/

/-- The truncation of a value of magnitude at most `32767` is an `int16_t`. -/
theorem trunc_range_of_abs_le (v : ℝ) (h : |v| ≤ 32767) :
    -32768 ≤ trunc v ∧ trunc v ≤ 32767 := by
  obtain ⟨h1, h2⟩ := abs_le.mp h
  unfold trunc
  split_ifs with h0
  · constructor
    · have : (0 : ℤ) ≤ ⌊v⌋ := Int.floor_nonneg.mpr h0
      omega
    · have : ⌊v⌋ < 32768 := Int.floor_lt.mpr (by push_cast; linarith)
      omega
  · constructor
    · have : (-32769 : ℤ) < ⌈v⌉ := Int.lt_ceil.mpr (by push_cast; linarith)
      omega
    · have : ⌈v⌉ ≤ 0 := Int.ceil_le.mpr (by push_cast; linarith)
      omega

/-- The conversion of a value whose truncation is an `int16_t`. -/
theorem static_cast_int16_of_range (v : ℝ) (h : -32768 ≤ trunc v ∧ trunc v ≤ 32767) :
    static_cast_int16 v = some (trunc v) := by
  simp only [static_cast_int16, if_pos h]

/-- Truncation of zero. -/
theorem trunc_zero : trunc (0 : ℝ) = 0 := by
  simp [trunc]

/-- The four assignments to `_wheel_vel`. -/
theorem set_four (l : List ℝ) (h : 4 ≤ l.length) (a b c d : ℝ) :
    (((l.set 0 a).set 1 b).set 2 c).set 3 d = [a, b, c, d] ++ l.drop 4 := by
  match l, h with
  | _ :: _ :: _ :: _ :: rest, _ => simp

/-! ## Lemmas on the roundings -/

/-- An integer is its own nearest integer. -/
theorem roundHalfEven_intCast (n : ℤ) : roundHalfEven (n : ℝ) = n := by
  simp [roundHalfEven]

/-- A value at less than a half from an integer is rounded to it. -/
theorem roundHalfEven_eq (y : ℝ) (m : ℤ) (h : |y - m| < 1 / 2) : roundHalfEven y = m := by
  obtain ⟨h1, h2⟩ := abs_lt.mp h
  unfold roundHalfEven
  by_cases hm : (m : ℝ) ≤ y
  · have hf : ⌊y⌋ = m := Int.floor_eq_iff.mpr ⟨hm, by linarith⟩
    rw [hf, if_pos (by linarith)]
  · have hf : ⌊y⌋ = m - 1 := Int.floor_eq_iff.mpr ⟨by push_cast; linarith, by push_cast; linarith⟩
    rw [hf]
    have h3 : ¬ (y - ((m - 1 : ℤ) : ℝ) < 1 / 2) := by push_cast; linarith
    have h4 : 1 / 2 < y - ((m - 1 : ℤ) : ℝ) := by push_cast; linarith
    rw [if_neg h3, if_pos h4]
    ring

/-- Rounding to the nearest integer commutes with the sign. -/
theorem roundHalfEven_neg (y : ℝ) : roundHalfEven (-y) = -roundHalfEven y := by
  by_cases hint : (⌊y⌋ : ℝ) = y
  · rw [← hint, ← Int.cast_neg, roundHalfEven_intCast, roundHalfEven_intCast]
  · have hlt : (⌊y⌋ : ℝ) < y := lt_of_le_of_ne (Int.floor_le y) hint
    have hlt2 : y < ⌊y⌋ + 1 := Int.lt_floor_add_one y
    have hf : ⌊-y⌋ = -⌊y⌋ - 1 :=
      Int.floor_eq_iff.mpr ⟨by push_cast; linarith, by push_cast; linarith⟩
    unfold roundHalfEven
    rw [hf]
    push_cast
    by_cases h1 : y - ⌊y⌋ < 1 / 2
    · rw [if_pos h1, if_neg (by linarith), if_pos (by linarith)]
      ring
    · by_cases h2 : 1 / 2 < y - ⌊y⌋
      · rw [if_neg h1, if_pos h2, if_pos (by linarith)]
        ring
      · rw [if_neg h1, if_neg h2, if_neg (by linarith), if_neg (by linarith)]
        by_cases hev : ⌊y⌋ % 2 = 0
        · rw [if_pos hev, if_neg (by omega)]
          ring
        · rw [if_neg hev, if_pos (by omega)]
          ring

/-- The binary exponent of a value between two consecutive powers of two. -/
theorem log_two_eq (x : ℝ) (e : ℤ) (h1 : (2 : ℝ) ^ e ≤ x) (h2 : x < (2 : ℝ) ^ (e + 1)) :
    Int.log 2 x = e := by
  have hx : 0 < x := lt_of_lt_of_le (by positivity) h1
  have a : e ≤ Int.log 2 x := (Int.zpow_le_iff_le_log (by norm_num) hx).mp (by exact_mod_cast h1)
  have b : Int.log 2 x < e + 1 :=
    (Int.lt_zpow_iff_log_lt (by norm_num) hx).mp (by exact_mod_cast h2)
  omega

/-- Rounding to `p` binary digits: a value between `2 ^ e` and `2 ^ (e + 1)` at
less than half a unit in the last place from `m` units is rounded to them. -/
theorem binary_eq (p : ℕ) (x : ℝ) (e m : ℤ) (h1 : (2 : ℝ) ^ e ≤ |x|)
    (h2 : |x| < (2 : ℝ) ^ (e + 1)) (h3 : |x / (2 : ℝ) ^ (e + 1 - p) - m| < 1 / 2) :
    binary p x = m * (2 : ℝ) ^ (e + 1 - p) := by
  have hx : x ≠ 0 := by
    intro h
    rw [h, abs_zero] at h1
    have : (0 : ℝ) < 2 ^ e := by positivity
    linarith
  unfold binary
  rw [if_neg hx]
  simp only []
  rw [log_two_eq |x| e h1 h2, roundHalfEven_eq _ m h3]

/-- Rounding to `p` binary digits, with the rounded value given. -/
theorem binary_eq_of (p : ℕ) (x r : ℝ) (e m : ℤ) (h1 : (2 : ℝ) ^ e ≤ |x|)
    (h2 : |x| < (2 : ℝ) ^ (e + 1)) (hr : r = m * (2 : ℝ) ^ (e + 1 - p))
    (h3 : |x - r| < (2 : ℝ) ^ (e + 1 - p) / 2) : binary p x = r := by
  rw [hr]
  apply binary_eq p x e m h1 h2
  have hu : (0 : ℝ) < 2 ^ (e + 1 - (p : ℤ)) := by positivity
  have : x / (2 : ℝ) ^ (e + 1 - (p : ℤ)) - m = (x - r) / (2 : ℝ) ^ (e + 1 - (p : ℤ)) := by
    rw [hr]
    field_simp
    ring
  rw [this, abs_div, abs_of_pos hu, div_lt_iff₀ hu]
  linarith

/-- Rounding to `p` binary digits keeps zero. -/
theorem binary_zero (p : ℕ) : binary p (0 : ℝ) = 0 := by
  simp [binary]

/-- Rounding to `p` binary digits commutes with the sign. -/
theorem binary_neg (p : ℕ) (x : ℝ) : binary p (-x) = -binary p x := by
  by_cases hx : x = 0
  · rw [hx, neg_zero, binary_zero, neg_zero]
  · unfold binary
    rw [if_neg hx, if_neg (neg_ne_zero.mpr hx)]
    simp only [abs_neg, neg_div, roundHalfEven_neg, Int.cast_neg, neg_mul]

/-- An integer of at most `p` binary digits times a power of two is kept by
the rounding to `p` binary digits. -/
theorem binary_of_int (p : ℕ) (m k : ℤ) (hm : |m| < 2 ^ p) :
    binary p ((m : ℝ) * (2 : ℝ) ^ k) = (m : ℝ) * (2 : ℝ) ^ k := by
  by_cases h0 : m = 0
  · rw [h0]
    simp [binary_zero]
  · have hk : (0 : ℝ) < 2 ^ k := by positivity
    have hx : (m : ℝ) * (2 : ℝ) ^ k ≠ 0 := mul_ne_zero (by exact_mod_cast h0) (ne_of_gt hk)
    unfold binary
    rw [if_neg hx]
    simp only []
    set e := Int.log 2 |(m : ℝ) * (2 : ℝ) ^ k| with he
    have hpos : 0 < |(m : ℝ) * (2 : ℝ) ^ k| := abs_pos.mpr hx
    have hlo : (2 : ℝ) ^ e ≤ |(m : ℝ) * (2 : ℝ) ^ k| := by
      have := Int.zpow_log_le_self (b := 2) (by norm_num) hpos
      exact_mod_cast this
    have hup : |(m : ℝ) * (2 : ℝ) ^ k| < (2 : ℝ) ^ ((p : ℤ) + k) := by
      rw [abs_mul, abs_of_pos hk, zpow_add₀ (by norm_num : (2 : ℝ) ≠ 0)]
      apply mul_lt_mul_of_pos_right _ hk
      have : ((|m| : ℤ) : ℝ) < ((2 ^ p : ℤ) : ℝ) := by exact_mod_cast hm
      simpa using this
    have hep : e < (p : ℤ) + k := by
      have := lt_of_le_of_lt hlo hup
      exact (zpow_lt_zpow_iff_right₀ (by norm_num : (1 : ℝ) < 2)).mp this
    obtain ⟨d, hd⟩ : ∃ d : ℕ, k - (e + 1 - (p : ℤ)) = (d : ℤ) := by
      refine ⟨(k - (e + 1 - (p : ℤ))).toNat, ?_⟩
      rw [Int.toNat_of_nonneg]
      omega
    have hq : (m : ℝ) * (2 : ℝ) ^ k / (2 : ℝ) ^ (e + 1 - (p : ℤ)) = ((m * 2 ^ d : ℤ) : ℝ) := by
      rw [mul_div_assoc, ← zpow_sub₀ (by norm_num : (2 : ℝ) ≠ 0), hd]
      push_cast
      rfl
    rw [hq, roundHalfEven_intCast, ← hq]
    field_simp

/-- The nearest integer is at most a half away. -/
theorem roundHalfEven_abs_sub_le (y : ℝ) : |(roundHalfEven y : ℝ) - y| ≤ 1 / 2 := by
  have h1 := Int.floor_le y
  have h2 := Int.lt_floor_add_one y
  unfold roundHalfEven
  rw [abs_le]
  split_ifs with a b c
  · constructor <;> linarith
  · push_cast
    constructor <;> linarith
  · constructor <;> linarith
  · push_cast
    constructor <;> linarith

/-- A value rounded to `p` binary digits is kept by the rounding. -/
theorem binary_binary (p : ℕ) (hp : 1 ≤ p) (x : ℝ) : binary p (binary p x) = binary p x := by
  by_cases hx : x = 0
  · rw [hx, binary_zero, binary_zero]
  · have hpos : 0 < |x| := abs_pos.mpr hx
    have hval : binary p x =
        (roundHalfEven (x / (2 : ℝ) ^ (Int.log 2 |x| + 1 - (p : ℤ))) : ℝ) *
          (2 : ℝ) ^ (Int.log 2 |x| + 1 - (p : ℤ)) := by
      unfold binary
      rw [if_neg hx]
    rw [hval]
    set e := Int.log 2 |x| with he
    set r := roundHalfEven (x / (2 : ℝ) ^ (e + 1 - (p : ℤ))) with hr
    have hu : (0 : ℝ) < 2 ^ (e + 1 - (p : ℤ)) := by positivity
    have hhi : |x| < (2 : ℝ) ^ (e + 1) := by
      have := Int.lt_zpow_succ_log_self (b := 2) (by norm_num) |x|
      exact_mod_cast this
    have hy : |x / (2 : ℝ) ^ (e + 1 - (p : ℤ))| < (2 : ℝ) ^ p := by
      rw [abs_div, abs_of_pos hu, div_lt_iff₀ hu, ← zpow_natCast, ← zpow_add₀ (by norm_num)]
      have : (p : ℤ) + (e + 1 - (p : ℤ)) = e + 1 := by ring
      rw [this]
      exact hhi
    have hrle : |r| ≤ 2 ^ p := by
      have h1 := roundHalfEven_abs_sub_le (x / (2 : ℝ) ^ (e + 1 - (p : ℤ)))
      rw [← hr] at h1
      have h2 : |(r : ℝ)| < 2 ^ p + 1 := by
        have := abs_sub_abs_le_abs_sub (r : ℝ) (x / (2 : ℝ) ^ (e + 1 - (p : ℤ)))
        linarith
      have h3 : ((|r| : ℤ) : ℝ) < ((2 ^ p + 1 : ℤ) : ℝ) := by
        push_cast
        exact h2
      have h4 : |r| < 2 ^ p + 1 := by exact_mod_cast h3
      omega
    rcases lt_or_eq_of_le hrle with hlt | heq
    · exact binary_of_int p r _ hlt
    · obtain ⟨q, hq⟩ : ∃ q : ℕ, p = q + 1 := ⟨p - 1, by omega⟩
      have hhalf : |r| = 2 * 2 ^ q := by rw [heq, hq, pow_succ]; ring
      have hsplit : (r : ℝ) * (2 : ℝ) ^ (e + 1 - (p : ℤ)) =
          ((r / 2 : ℤ) : ℝ) * (2 : ℝ) ^ (e + 1 - (p : ℤ) + 1) := by
        have hdiv : r = 2 * (r / 2) := by
          rcases abs_cases r with ⟨h1, _⟩ | ⟨h1, _⟩ <;> omega
        rw [zpow_add_one₀ (by norm_num : (2 : ℝ) ≠ 0)]
        conv_lhs => rw [hdiv]
        push_cast
        ring
      rw [hsplit]
      apply binary_of_int
      have : |r / 2| = 2 ^ q := by
        rcases abs_cases r with ⟨h1, _⟩ | ⟨h1, _⟩ <;>
          rcases abs_cases (r / 2) with ⟨h2, _⟩ | ⟨h2, _⟩ <;> omega
      rw [this, hq, pow_succ]
      have : (0 : ℤ) < 2 ^ q := by positivity
      omega

/-- Rounding to `p` binary digits keeps one. -/
theorem binary_one (p : ℕ) (hp : 1 ≤ p) : binary p (1 : ℝ) = 1 := by
  have h := binary_of_int p 1 0 (by
    rw [abs_one]
    exact one_lt_pow₀ (by norm_num) (by omega))
  simpa using h

/-- Rounding to at least one binary digit is a rounding. -/
theorem isRounding_binary (p : ℕ) (hp : 1 ≤ p) : IsRounding (binary p : ℝ → ℝ) :=
  ⟨binary_zero p, binary_one p hp, binary_neg p, binary_binary p hp⟩

/-- Rounding a positive value to `p` binary digits, with the exponent, the unit
and the rounded value given. -/
theorem binary_eq_pos (p : ℕ) (x r : ℝ) (e k m : ℤ) (hk : k = e + 1 - p)
    (h1 : (2 : ℝ) ^ e ≤ x) (h2 : x < (2 : ℝ) ^ (e + 1)) (hr : r = m * (2 : ℝ) ^ k)
    (h3 : x - r < (2 : ℝ) ^ k / 2) (h4 : r - x < (2 : ℝ) ^ k / 2) : binary p x = r := by
  have hx : 0 < x := lt_of_lt_of_le (by positivity) h1
  subst hk
  apply binary_eq_of p x r e m (by rwa [abs_of_pos hx]) (by rwa [abs_of_pos hx]) hr
  rw [abs_lt]
  constructor <;> linarith

/-- The literal `13.1579` as a `double`. -/
theorem double_kv : binary 53 (13.1579 : ℝ) = 7407239192122281 / 562949953421312 := by
  apply binary_eq_pos 53 _ _ 3 (-49) 7407239192122281 <;> norm_num

/-- The constant `kv` as a `float`. -/
theorem kv_eq : kv (binary 24) (binary 53 : ℝ → ℝ) = 6898529 / 524288 := by
  unfold kv
  rw [double_kv]
  apply binary_eq_pos 24 _ _ 3 (-20) 13797058 <;> norm_num

/-- The quotient `180 / M_PI` as a `double`. -/
theorem double_deg :
    binary 53 ((180 : ℝ) / (884279719003555 / 281474976710656))
      = 1007958012753983 / 17592186044416 := by
  apply binary_eq_pos 53 _ _ 5 (-47) 8063664102031864 <;> norm_num

/-- The value of `M_PI`, the literal `3.14159265358979323846` as a `double`. -/
theorem double_pi :
    binary 53 (3.14159265358979323846 : ℝ) = 884279719003555 / 281474976710656 := by
  apply binary_eq_pos 53 _ _ 1 (-51) 7074237752028440 <;> norm_num

/-- The quotient `180 / M_PI` with `M_PI` the `double` of its literal. -/
theorem double_deg_pi :
    binary 53 ((180 : ℝ) / binary 53 (3.14159265358979323846 : ℝ))
      = 1007958012753983 / 17592186044416 := by
  rw [double_pi, double_deg]

/-- The value `36.43359375` is a `double`. -/
theorem double_example : binary 53 (36.43359375 : ℝ) = 36.43359375 := by
  apply binary_eq_pos 53 _ _ 5 (-47) 5127572476133376 <;> norm_num

/-- The value `36.43359375` is a `float`. -/
theorem float_example : binary 24 (36.43359375 : ℝ) = 36.43359375 := by
  apply binary_eq_pos 24 _ _ 5 (-18) 9550848 <;> norm_num

/-- The product of `kv` and `36.43359375` as a `float`. -/
theorem float_kv_example :
    binary 24 ((6898529 / 524288 : ℝ) * 36.43359375) = 7854319 / 16384 := by
  apply binary_eq_pos 24 _ _ 8 (-15) 15708638 <;> norm_num

/-- The wheel speed in deg/s for `36.43359375` as a `double`. -/
theorem double_speed_example :
    binary 53 ((7854319 / 16384 : ℝ) * (1007958012753983 / 17592186044416))
      = 3775035748851705 / 137438953472 := by
  apply binary_eq_pos 53 _ _ 14 (-38) 7550071497703410 <;> norm_num

/-- The four wheel values before the conversion to `int16_t`, for roundings
`fl` (to `float`) and `dl` (to `double`). -/
theorem VelocityToWheel_eq (fl dl : ℝ → ℝ) (hfl : IsRounding fl) (hdl : IsRounding dl)
    (pi : ℝ) (cmd : Twist ℝ) (wheel_vel : List ℝ) :
    AeroMoveBase.VelocityToWheel fl dl Real.cos Real.sin pi cmd wheel_vel
      = (static_cast_int16
          (dl (fl (fl (ktheta fl dl * fl cmd.angular.z)
            - fl (kv fl dl * fl (fl (dl cmd.linear.x) + fl (dl cmd.linear.y))))
              * dl (180 / pi)))).bind
        fun FR =>
        (static_cast_int16
          (dl (fl (fl (ktheta fl dl * fl cmd.angular.z)
            + fl (kv fl dl * fl (fl (dl cmd.linear.y) - fl (dl cmd.linear.x))))
              * dl (180 / pi)))).bind
        fun RR =>
        (static_cast_int16
          (dl (fl (fl (ktheta fl dl * fl cmd.angular.z)
            + fl (kv fl dl * fl (fl (dl cmd.linear.x) - fl (dl cmd.linear.y))))
              * dl (180 / pi)))).bind
        fun FL =>
        (static_cast_int16
          (dl (fl (fl (ktheta fl dl * fl cmd.angular.z)
            + fl (kv fl dl * fl (fl (dl cmd.linear.x) + fl (dl cmd.linear.y))))
              * dl (180 / pi)))).bind
        fun RL =>
        some ((((wheel_vel.set 0 (FL : ℝ)).set 1 (FR : ℝ)).set 2 (RL : ℝ)).set 3 (RR : ℝ)) := by
  obtain ⟨f0, f1, fneg, fid⟩ := hfl
  obtain ⟨d0, d1, dneg, did⟩ := hdl
  have z : (0.0 : ℝ) = 0 := by norm_num
  have hc : fl (Real.cos (fl 0.0)) = 1 := by rw [z, f0, Real.cos_zero, f1]
  have hs : fl (Real.sin (fl 0.0)) = 0 := by rw [z, f0, Real.sin_zero, f0]
  have hdy : fl (dl (dl (cmd.linear.x * 1) - dl (cmd.linear.y * 0))) = fl (dl cmd.linear.x) := by
    rw [mul_one, mul_zero, d0, sub_zero, did]
  have hdx : fl (dl (dl (cmd.linear.x * 0) + dl (cmd.linear.y * 1))) = fl (dl cmd.linear.y) := by
    rw [mul_one, mul_zero, d0, zero_add, did]
  have c1 : fl (-1 + 0) = -1 := by rw [add_zero, fneg, f1]
  have c2 : fl (-1 - 0) = -1 := by rw [sub_zero, fneg, f1]
  have c3 : fl (1 - 0) = 1 := by rw [sub_zero, f1]
  have c4 : fl (1 + 0) = 1 := by rw [add_zero, f1]
  have m1 : ∀ t, fl (-1 * fl t) = -fl t := by
    intro t
    rw [neg_one_mul, fneg, fid]
  have m2 : ∀ t, fl (1 * fl t) = fl t := by
    intro t
    rw [one_mul, fid]
  have s1 : ∀ a b K, fl (K * fl (-fl b + -fl a)) = -fl (K * fl (fl a + fl b)) := by
    intro a b K
    rw [← neg_add, fneg, mul_neg, fneg, add_comm]
  have s2 : ∀ a b : ℝ, -fl b + fl a = fl a - fl b := by
    intro a b
    ring
  have s3 : ∀ a b : ℝ, fl b + -fl a = fl b - fl a := by
    intro a b
    ring
  have s4 : ∀ a b : ℝ, fl b + fl a = fl a + fl b := by
    intro a b
    ring
  simp only [AeroMoveBase.VelocityToWheel, hc, hs, hdy, hdx, c1, c2, c3, c4, m1, m2, s1, s2, s3]
  rw [s4 (dl cmd.linear.x) (dl cmd.linear.y)]


/-- The product of `kv` and `36.43359375` is a `float`. -/
theorem float_product_example : binary 24 (7854319 / 16384 : ℝ) = 7854319 / 16384 := by
  apply binary_eq_pos 24 _ _ 8 (-15) 15708638 <;> norm_num

/-- The front left value of the twist with `linear.x = 36.43359375` and the rest
zero, computed with the roundings: `27467.0001`, truncated to `27467`. -/
theorem example_front_left :
    trunc (binary 53 (binary 24 (binary 24 (ktheta (binary 24) (binary 53) * binary 24 (0 : ℝ))
        + binary 24 (kv (binary 24) (binary 53)
            * binary 24 (binary 24 (binary 53 36.43359375) - binary 24 (binary 53 0))))
      * binary 53 (180 / binary 53 3.14159265358979323846))) = 27467 := by
  simp only [binary_zero, mul_zero, zero_add, sub_zero, double_example, float_example, kv_eq,
    float_kv_example, float_product_example, double_deg_pi, double_speed_example]
  unfold trunc
  rw [if_pos (by norm_num)]
  exact Int.floor_eq_iff.mpr ⟨by norm_num, by norm_num⟩

/-- The front right value of that twist: `-27467`. -/
theorem example_front_right :
    trunc (binary 53 (binary 24 (binary 24 (ktheta (binary 24) (binary 53) * binary 24 (0 : ℝ))
        - binary 24 (kv (binary 24) (binary 53)
            * binary 24 (binary 24 (binary 53 36.43359375) + binary 24 (binary 53 0))))
      * binary 53 (180 / binary 53 3.14159265358979323846))) = -27467 := by
  simp only [binary_zero, mul_zero, zero_sub, add_zero, double_example, float_example, kv_eq,
    float_kv_example, float_product_example, double_deg_pi, double_speed_example, binary_neg,
    neg_mul]
  unfold trunc
  rw [if_neg (by norm_num)]
  exact Int.ceil_eq_iff.mpr ⟨by norm_num, by norm_num⟩

/-- The rear left value of that twist: `27467`. -/
theorem example_rear_left :
    trunc (binary 53 (binary 24 (binary 24 (ktheta (binary 24) (binary 53) * binary 24 (0 : ℝ))
        + binary 24 (kv (binary 24) (binary 53)
            * binary 24 (binary 24 (binary 53 36.43359375) + binary 24 (binary 53 0))))
      * binary 53 (180 / binary 53 3.14159265358979323846))) = 27467 := by
  simp only [binary_zero, mul_zero, zero_add, add_zero, double_example, float_example, kv_eq,
    float_kv_example, float_product_example, double_deg_pi, double_speed_example]
  unfold trunc
  rw [if_pos (by norm_num)]
  exact Int.floor_eq_iff.mpr ⟨by norm_num, by norm_num⟩

/-- The rear right value of that twist: `-27467`. -/
theorem example_rear_right :
    trunc (binary 53 (binary 24 (binary 24 (ktheta (binary 24) (binary 53) * binary 24 (0 : ℝ))
        + binary 24 (kv (binary 24) (binary 53)
            * binary 24 (binary 24 (binary 53 0) - binary 24 (binary 53 36.43359375))))
      * binary 53 (180 / binary 53 3.14159265358979323846))) = -27467 := by
  simp only [binary_zero, mul_zero, zero_add, zero_sub, double_example, float_example, kv_eq,
    float_kv_example, float_product_example, double_deg_pi, double_speed_example, binary_neg,
    neg_mul, mul_neg]
  unfold trunc
  rw [if_neg (by norm_num)]
  exact Int.ceil_eq_iff.mpr ⟨by norm_num, by norm_num⟩

/-- The value the exact expression of the front left wheel truncates to for that
twist: `27466.9998`, truncated to `27466`. -/
theorem example_exact :
    trunc (((-5.54420 : ℝ) * 0 + 13.1579 * (36.43359375 - 0)) * 180 / Real.pi) = 27466 := by
  have hpi := Real.pi_pos
  have h1 := Real.pi_gt_d20
  have h2 := Real.pi_lt_d20
  have hpos : (0 : ℝ) ≤ ((-5.54420 : ℝ) * 0 + 13.1579 * (36.43359375 - 0)) * 180 / Real.pi := by
    apply div_nonneg _ (le_of_lt hpi)
    norm_num
  unfold trunc
  rw [if_pos hpos]
  apply Int.floor_eq_iff.mpr
  constructor
  · rw [le_div_iff₀ hpi]
    norm_num
    linarith
  · rw [div_lt_iff₀ hpi]
    norm_num
    linarith

/-- The value `100` is a `double`. -/
theorem double_hundred : binary 53 (100 : ℝ) = 100 := by
  apply binary_eq_pos 53 _ _ 6 (-46) 7036874417766400 <;> norm_num

/-- The value `100` is a `float`. -/
theorem float_hundred : binary 24 (100 : ℝ) = 100 := by
  apply binary_eq_pos 24 _ _ 6 (-17) 13107200 <;> norm_num

/-- The product of `kv` and `100` as a `float`. -/
theorem float_kv_hundred : binary 24 ((6898529 / 524288 : ℝ) * 100) = 1347369 / 1024 := by
  apply binary_eq_pos 24 _ _ 10 (-13) 10778952 <;> norm_num

/-- The product of `kv` and `100` is a `float`. -/
theorem float_product_hundred : binary 24 (1347369 / 1024 : ℝ) = 1347369 / 1024 := by
  apply binary_eq_pos 24 _ _ 10 (-13) 10778952 <;> norm_num

/-- The wheel speed in deg/s for `100` as a `double`. -/
theorem double_speed_hundred :
    binary 53 ((1347369 / 1024 : ℝ) * (1007958012753983 / 17592186044416))
      = 2590353736279147 / 34359738368 := by
  apply binary_eq_pos 53 _ _ 16 (-36) 5180707472558294 <;> norm_num

/-- The front right value of the twist with `linear.x = 100` and the rest zero:
`-75389.2`, truncated to `-75389`. -/
theorem hundred_front_right :
    trunc (binary 53 (binary 24 (binary 24 (ktheta (binary 24) (binary 53) * binary 24 (0 : ℝ))
        - binary 24 (kv (binary 24) (binary 53)
            * binary 24 (binary 24 (binary 53 100) + binary 24 (binary 53 0))))
      * binary 53 (180 / binary 53 3.14159265358979323846))) = -75389 := by
  simp only [binary_zero, mul_zero, zero_sub, add_zero, double_hundred, float_hundred, kv_eq,
    float_kv_hundred, float_product_hundred, double_deg_pi, double_speed_hundred, binary_neg,
    neg_mul]
  unfold trunc
  rw [if_neg (by norm_num)]
  exact Int.ceil_eq_iff.mpr ⟨by norm_num, by norm_num⟩

/-- The identity, exact arithmetic, is a rounding. -/
theorem isRounding_id : IsRounding (id : ℝ → ℝ) :=
  ⟨rfl, rfl, fun _ => rfl, fun _ => rfl⟩

/-! ## Claims on the wheel kinematics -/

/-- C21: command-variant selection of `AeroMoveBase::Translate(x, y, theta)`, for
every input and whatever the math library computes.  If `|theta| < 0.0001` the
result is the translation kernel `Translate(x, y)`; otherwise, if
`|x| < 0.0001` it is `Rotate(theta)`, and else it is `Drift(x, theta)`.  Hence
with `|theta| >= 0.0001` the result does not depend on `y`. -/
theorem Translate_selects_variant {α : Type} [LinearOrderedField α] (sin atan sqrt : α → α)
    (pi x y theta : α) :
    (|theta| < 0.0001 →
      AeroMoveBase.Translate sin atan sqrt pi x y theta
        = AeroMoveBaseImpl.Translate atan sqrt pi x y) ∧
    (0.0001 ≤ |theta| → |x| < 0.0001 →
      AeroMoveBase.Translate sin atan sqrt pi x y theta = AeroMoveBaseImpl.Rotate pi theta) ∧
    (0.0001 ≤ |theta| → 0.0001 ≤ |x| →
      AeroMoveBase.Translate sin atan sqrt pi x y theta
        = AeroMoveBaseImpl.Drift sin sqrt pi x theta) ∧
    (0.0001 ≤ |theta| → ∀ y2 : α,
      AeroMoveBase.Translate sin atan sqrt pi x y theta
        = AeroMoveBase.Translate sin atan sqrt pi x y2 theta) := by
  refine ⟨fun h => ?_, fun h hx => ?_, fun h hx => ?_, fun h y2 => ?_⟩
  · simp only [AeroMoveBase.Translate, if_pos h]
  · simp only [AeroMoveBase.Translate, if_neg (not_lt.mpr h), if_pos hx]
  · simp only [AeroMoveBase.Translate, if_neg (not_lt.mpr h), if_neg (not_lt.mpr hx)]
  · simp only [AeroMoveBase.Translate, if_neg (not_lt.mpr h)]

/-- C21 at concrete inputs over the reals: a pure translation, a pure turn, and a
forward move with a turn for two values of `y`. -/
theorem Translate_selects_variant_witness :
    AeroMoveBase.Translate Real.sin Real.arctan Real.sqrt Real.pi 1 2 0
        = AeroMoveBaseImpl.Translate Real.arctan Real.sqrt Real.pi 1 2 ∧
    AeroMoveBase.Translate Real.sin Real.arctan Real.sqrt Real.pi 0 2 1
        = AeroMoveBaseImpl.Rotate Real.pi 1 ∧
    AeroMoveBase.Translate Real.sin Real.arctan Real.sqrt Real.pi 1 2 1
        = AeroMoveBaseImpl.Drift Real.sin Real.sqrt Real.pi 1 1 ∧
    AeroMoveBase.Translate Real.sin Real.arctan Real.sqrt Real.pi 1 2 1
        = AeroMoveBase.Translate Real.sin Real.arctan Real.sqrt Real.pi 1 3 1 :=
  ⟨(Translate_selects_variant Real.sin Real.arctan Real.sqrt Real.pi 1 2 0).1 (by norm_num),
   (Translate_selects_variant Real.sin Real.arctan Real.sqrt Real.pi 0 2 1).2.1
      (by norm_num) (by norm_num),
   (Translate_selects_variant Real.sin Real.arctan Real.sqrt Real.pi 1 2 1).2.2.1
      (by norm_num) (by norm_num),
   (Translate_selects_variant Real.sin Real.arctan Real.sqrt Real.pi 1 2 1).2.2.2
      (by norm_num) 3⟩

open AeroMoveBaseImpl in
/-- C22 fails on the code in the open second quadrant.  For `x = -1`, `y = 1` the
shaping function `lambda_vel2` takes its second branch, where
`theta = M_PI - atan(y / x)` is `5 * pi / 4` and the ramp
`max_velocity * 4 / M_PI * (0.75 * M_PI - theta)` is `-180`: the kernel returns
the speeds `-90, 180, -180, 90`, two of them twice the limit.  (With
`M_PI + atan(y / x)`, the angle of the motion, the ramp would be `0` here; see
`lambda_vel2_second_quadrant` for the whole quadrant and `Translate_abs_le` for
the bound everywhere else.) -/
theorem Translate_second_quadrant_overspeed :
    (Translate Real.arctan Real.sqrt Real.pi (-1) 1).velocities = [-90, 180, -180, 90] ∧
    ¬ (∀ v ∈ (Translate Real.arctan Real.sqrt Real.pi (-1) 1).velocities,
        |v| ≤ max_velocity) := by
  have hpi := Real.pi_pos
  have h1 : lambda_vel1 Real.arctan Real.pi (-1) 1 = -90 := by
    simp [lambda_vel1, max_velocity]
    norm_num
  have h2 : lambda_vel2 Real.arctan Real.pi (-1) 1 = -180 := by
    have e : Real.arctan (1 / -1) = -(Real.pi / 4) := by
      rw [show (1 / -1 : ℝ) = -1 by norm_num, Real.arctan_neg, Real.arctan_one]
    have c1 : ¬ ((-1 : ℝ) ≥ 0 ∧ (1 : ℝ) ≥ 0) := by norm_num
    have c2 : (1 : ℝ) > 0 ∧ (-1 : ℝ) < 0 := by norm_num
    simp only [lambda_vel2, if_neg c1, if_pos c2, e, max_velocity]
    field_simp
    ring
  have hvel : (Translate Real.arctan Real.sqrt Real.pi (-1) 1).velocities
      = [-90, 180, -180, 90] := by
    simp only [Translate, List.getD_cons_zero, List.getD_cons_succ, h1, h2]
    norm_num
  refine ⟨hvel, fun h => ?_⟩
  have h3 := h 180 (by rw [hvel]; simp)
  rw [max_velocity_eq, abs_of_pos (by norm_num : (0 : ℝ) < 180)] at h3
  norm_num at h3

/-- C23: the duration of `Translate(x, y)` is guarded against a division by zero.
For every `(x, y)`, `x = 0`, `y = 0` included, the wheel-surface speed the
distance is divided by, `radius * sqrt(Vx^2 + Vy^2) * pi / 180` with `Vx`, `Vy`
the fixed combinations of the four shaped wheel values, is strictly positive;
the returned duration is `sqrt(x^2 + y^2)` over that speed over `1.4`; it is
non-negative, and it is `0` for zero motion. -/
theorem Translate_duration_guarded (x y : ℝ) :
    0 < radius * Real.sqrt
          ((0.25 * Real.sqrt 2.0 * 0.5 *
              (AeroMoveBaseImpl.lambda_vel1 Real.arctan Real.pi x y
                + AeroMoveBaseImpl.lambda_vel2 Real.arctan Real.pi x y
                + AeroMoveBaseImpl.lambda_vel2 Real.arctan Real.pi x y
                + AeroMoveBaseImpl.lambda_vel1 Real.arctan Real.pi x y)) ^ 2
            + (0.25 * Real.sqrt 2.0 * 0.5 *
              (-AeroMoveBaseImpl.lambda_vel1 Real.arctan Real.pi x y
                + AeroMoveBaseImpl.lambda_vel2 Real.arctan Real.pi x y
                + AeroMoveBaseImpl.lambda_vel2 Real.arctan Real.pi x y
                - AeroMoveBaseImpl.lambda_vel1 Real.arctan Real.pi x y)) ^ 2)
          * Real.pi / 180 ∧
    (AeroMoveBaseImpl.Translate Real.arctan Real.sqrt Real.pi x y).time
      = Real.sqrt (x ^ 2 + y ^ 2) /
        (radius * Real.sqrt
          ((0.25 * Real.sqrt 2.0 * 0.5 *
              (AeroMoveBaseImpl.lambda_vel1 Real.arctan Real.pi x y
                + AeroMoveBaseImpl.lambda_vel2 Real.arctan Real.pi x y
                + AeroMoveBaseImpl.lambda_vel2 Real.arctan Real.pi x y
                + AeroMoveBaseImpl.lambda_vel1 Real.arctan Real.pi x y)) ^ 2
            + (0.25 * Real.sqrt 2.0 * 0.5 *
              (-AeroMoveBaseImpl.lambda_vel1 Real.arctan Real.pi x y
                + AeroMoveBaseImpl.lambda_vel2 Real.arctan Real.pi x y
                + AeroMoveBaseImpl.lambda_vel2 Real.arctan Real.pi x y
                - AeroMoveBaseImpl.lambda_vel1 Real.arctan Real.pi x y)) ^ 2)
          * Real.pi / 180) / 1.4 ∧
    0 ≤ (AeroMoveBaseImpl.Translate Real.arctan Real.sqrt Real.pi x y).time ∧
    (AeroMoveBaseImpl.Translate Real.arctan Real.sqrt Real.pi 0 0).time = 0 := by
  generalize hl1 : AeroMoveBaseImpl.lambda_vel1 Real.arctan Real.pi x y = l1
  generalize hl2 : AeroMoveBaseImpl.lambda_vel2 Real.arctan Real.pi x y = l2
  have hne : l1 ≠ 0 ∨ l2 ≠ 0 := by
    have := lambda_vel_ne_zero x y
    rwa [hl1, hl2] at this
  have hsq : 0 < (l1 * l1 + l2 * l2) / 4 := by
    rcases hne with h | h
    · have := mul_self_pos.mpr h
      have := mul_self_nonneg l2
      linarith
    · have := mul_self_pos.mpr h
      have := mul_self_nonneg l1
      linarith
  have hpos : 0 < radius * Real.sqrt
          ((0.25 * Real.sqrt 2.0 * 0.5 * (l1 + l2 + l2 + l1)) ^ 2
            + (0.25 * Real.sqrt 2.0 * 0.5 * (-l1 + l2 + l2 - l1)) ^ 2) * Real.pi / 180 := by
    rw [pow_two, pow_two, Vx_Vy_sq]
    have h1 := Real.sqrt_pos.mpr hsq
    have h2 := Real.pi_pos
    have h3 : (0 : ℝ) < radius := radius_pos
    positivity
  have htime : (AeroMoveBaseImpl.Translate Real.arctan Real.sqrt Real.pi x y).time
      = Real.sqrt (x ^ 2 + y ^ 2) /
        (radius * Real.sqrt
          ((0.25 * Real.sqrt 2.0 * 0.5 * (l1 + l2 + l2 + l1)) ^ 2
            + (0.25 * Real.sqrt 2.0 * 0.5 * (-l1 + l2 + l2 - l1)) ^ 2) * Real.pi / 180) / 1.4 := by
    simp only [AeroMoveBaseImpl.Translate, List.getD_cons_zero, List.getD_cons_succ, hl1, hl2,
      pow_two]
    congr 2
    ring
  refine ⟨hpos, htime, ?_, ?_⟩
  · rw [htime]
    have := Real.sqrt_nonneg (x ^ 2 + y ^ 2)
    positivity
  · simp [AeroMoveBaseImpl.Translate]

/-- C24 as stated fails at `theta = 0`: `Rotate(0)` and `Rotate(-0)` are the same
call, which takes the branch `_theta >= 0` and returns `-max_velocity` four
times, so the two velocity vectors are equal and not negations of each other. -/
theorem Rotate_zero_counterexample :
    (AeroMoveBaseImpl.Rotate Real.pi (-0)).velocities
      ≠ ((AeroMoveBaseImpl.Rotate Real.pi 0).velocities).map (fun v => -v) := by
  simp [AeroMoveBaseImpl.Rotate, max_velocity]
  norm_num

/-- C24 (amended): `Rotate(theta)` and `Rotate(-theta)` have the same duration for
every `theta`; for every `theta` other than zero the two velocity vectors are
element-wise negations of each other, and for `theta = 0` they are equal. -/
theorem Rotate_neg (theta : ℝ) :
    (AeroMoveBaseImpl.Rotate Real.pi (-theta)).time = (AeroMoveBaseImpl.Rotate Real.pi theta).time ∧
    (theta ≠ 0 →
      (AeroMoveBaseImpl.Rotate Real.pi (-theta)).velocities
        = ((AeroMoveBaseImpl.Rotate Real.pi theta).velocities).map (fun v => -v)) ∧
    (theta = 0 →
      (AeroMoveBaseImpl.Rotate Real.pi (-theta)).velocities
        = (AeroMoveBaseImpl.Rotate Real.pi theta).velocities) := by
  refine ⟨?_, fun h => ?_, fun h => ?_⟩
  · simp only [AeroMoveBaseImpl.Rotate, abs_neg]
  · rcases lt_or_gt_of_ne h with h1 | h1
    · have h2 : ¬ (0 ≤ theta) := not_le.mpr h1
      have h3 : (0 : ℝ) ≤ -theta := by linarith
      simp [AeroMoveBaseImpl.Rotate, h2, h3]
    · have h2 : (0 : ℝ) ≤ theta := le_of_lt h1
      have h3 : ¬ ((0 : ℝ) ≤ -theta) := by
        intro h4
        linarith
      simp only [AeroMoveBaseImpl.Rotate, ge_iff_le, if_pos h2, if_neg h3, List.map_cons,
        List.map_nil, neg_neg]
  · subst h
    simp only [neg_zero]

/-- C24 (amended) at `theta = 1`. -/
theorem Rotate_neg_witness :
    (AeroMoveBaseImpl.Rotate Real.pi (-1)).velocities
        = ((AeroMoveBaseImpl.Rotate Real.pi 1).velocities).map (fun v => -v) :=
  (Rotate_neg 1).2.1 (by norm_num)

/-- C25: `Rotate(theta)`, for every `theta`: the four wheel velocities are equal,
of magnitude `max_velocity` (90 deg/s), negative for `theta >= 0` and positive
for `theta < 0`; the duration is
`(Radius * |theta|) / (radius * max_velocity * pi / 180)` with
`Radius = 0.2974535` and `radius = 0.076`, so it is non-negative and
proportional to `|theta|` (it is `|theta|` times the duration of `Rotate(1)`). -/
theorem Rotate_spec (theta : ℝ) :
    (∃ v : ℝ, (AeroMoveBaseImpl.Rotate Real.pi theta).velocities = [v, v, v, v] ∧
      |v| = max_velocity ∧ (0 ≤ theta → v < 0) ∧ (theta < 0 → 0 < v)) ∧
    (max_velocity : ℝ) = 90 ∧ (Radius : ℝ) = 0.2974535 ∧ (radius : ℝ) = 0.076 ∧
    (AeroMoveBaseImpl.Rotate Real.pi theta).time
      = (Radius * |theta|) / (radius * max_velocity * Real.pi / 180) ∧
    0 ≤ (AeroMoveBaseImpl.Rotate Real.pi theta).time ∧
    (AeroMoveBaseImpl.Rotate Real.pi theta).time
      = (AeroMoveBaseImpl.Rotate Real.pi 1).time * |theta| := by
  have hpi := Real.pi_pos
  have hr : (0 : ℝ) < radius := radius_pos
  have hR : (0 : ℝ) < Radius := Radius_pos
  have hm : (0 : ℝ) < max_velocity := max_velocity_pos
  have htime : (AeroMoveBaseImpl.Rotate Real.pi theta).time
      = (Radius * |theta|) / (radius * max_velocity * Real.pi / 180) := by
    simp only [AeroMoveBaseImpl.Rotate]
    congr 1
    ring
  refine ⟨?_, max_velocity_eq, rfl, rfl, htime, ?_, ?_⟩
  · by_cases h : 0 ≤ theta
    · refine ⟨-max_velocity, ?_, ?_, fun _ => by linarith, fun h2 => absurd h (not_le.mpr h2)⟩
      · simp only [AeroMoveBaseImpl.Rotate, ge_iff_le, if_pos h]
      · rw [abs_neg, abs_of_pos hm]
    · refine ⟨max_velocity, ?_, abs_of_pos hm, fun h2 => absurd h2 h, fun _ => hm⟩
      simp only [AeroMoveBaseImpl.Rotate, ge_iff_le, if_neg h]
  · rw [htime]
    positivity
  · simp only [AeroMoveBaseImpl.Rotate, abs_one, mul_one]
    ring

/-- C26: the clamp of `Drift`.  For every `x` and every `theta` with
`|theta| > pi / 2`, `Drift(x, theta)` returns the command (velocities and
duration) of `Drift(x, (pi / 2) * sign(theta))`. -/
theorem Drift_clamp (x theta : ℝ) (h : Real.pi / 2 < |theta|) :
    AeroMoveBaseImpl.Drift Real.sin Real.sqrt Real.pi x theta
      = AeroMoveBaseImpl.Drift Real.sin Real.sqrt Real.pi x (Real.pi / 2 * Real.sign theta) := by
  have hpi := Real.pi_pos
  have hne : theta ≠ 0 := by
    intro h0
    rw [h0, abs_zero] at h
    linarith
  have habs : |Real.pi / 2 * Real.sign theta| = Real.pi / 2 := by
    rcases lt_or_gt_of_ne hne with h1 | h1
    · rw [Real.sign_of_neg h1, mul_neg_one, abs_neg, abs_of_pos (by linarith)]
    · rw [Real.sign_of_pos h1, mul_one, abs_of_pos (by linarith)]
  have hmin : min |Real.pi / 2 * Real.sign theta| (Real.pi / 2) = min |theta| (Real.pi / 2) := by
    rw [habs, min_self, min_eq_right (le_of_lt h)]
  have hsign : (Real.pi / 2 * Real.sign theta ≥ 0) ↔ (theta ≥ 0) := by
    rcases lt_or_gt_of_ne hne with h1 | h1
    · rw [Real.sign_of_neg h1]
      constructor
      · intro h2
        linarith
      · intro h2
        linarith
    · rw [Real.sign_of_pos h1]
      constructor
      · intro _
        exact le_of_lt h1
      · intro _
        linarith
  simp only [AeroMoveBaseImpl.Drift, Drift_clamp_eq_min, hmin, hsign]

/-- C26 at `x = 1`, `theta = 2`. -/
theorem Drift_clamp_witness :
    Real.pi / 2 < |(2 : ℝ)| ∧
    AeroMoveBaseImpl.Drift Real.sin Real.sqrt Real.pi 1 2
      = AeroMoveBaseImpl.Drift Real.sin Real.sqrt Real.pi 1 (Real.pi / 2 * Real.sign 2) :=
  ⟨by rw [abs_of_pos (by norm_num : (0 : ℝ) < 2)]; have := Real.pi_lt_d2; linarith,
   Drift_clamp 1 2 (by rw [abs_of_pos (by norm_num : (0 : ℝ) < 2)]; have := Real.pi_lt_d2; linarith)⟩

/-- C28 as stated fails, in the range of `int16_t` and out of it.  With
`linear.x = 36.43359375` (a `float` and a `double`) and the rest zero, the
exact expression of the front left wheel is `27466.9998` and truncates to
`27466`, where the code, which multiplies by `kv` in `float` and by
`180 / M_PI` in `double`, computes `27467.0001` and returns
`27467, -27467, 27467, -27467`.  With `linear.x = 100` the value for the front
right wheel truncates to `-75389`, no value of `int16_t`, so the conversion
`static_cast<int16_t>` is undefined. -/
theorem VelocityToWheel_rounding_counterexample :
    AeroMoveBase.VelocityToWheel (binary 24) (binary 53) Real.cos Real.sin
        (binary 53 3.14159265358979323846)
        { linear := { x := 36.43359375, y := 0, z := 0 }, angular := { x := 0, y := 0, z := 0 } }
        [0, 0, 0, 0]
      = some [27467, -27467, 27467, -27467] ∧
    trunc (((-5.54420 : ℝ) * 0 + 13.1579 * (36.43359375 - 0)) * 180 / Real.pi) = 27466 ∧
    AeroMoveBase.VelocityToWheel (binary 24) (binary 53) Real.cos Real.sin
        (binary 53 3.14159265358979323846)
        { linear := { x := 100, y := 0, z := 0 }, angular := { x := 0, y := 0, z := 0 } }
        [0, 0, 0, 0]
      = none := by
  refine ⟨?_, example_exact, ?_⟩
  · rw [VelocityToWheel_eq _ _ (isRounding_binary 24 (by norm_num))
      (isRounding_binary 53 (by norm_num))]
    simp only [static_cast_int16, example_front_left, example_front_right, example_rear_left,
      example_rear_right]
    norm_num
  · rw [VelocityToWheel_eq _ _ (isRounding_binary 24 (by norm_num))
      (isRounding_binary 53 (by norm_num))]
    simp only [static_cast_int16, hundred_front_right]
    norm_num

/-- C28 (amended): `VelocityToWheel` is a fixed linear map, evaluated with the
roundings of `float` and `double`, followed by a truncation to `int16_t`.  Let
`fl` and `dl` be the conversions to `float` and to `double` (any two functions
that keep 0 and 1, commute with the sign and keep a rounded value, as
`binary 24` and `binary 53` do, and as the identity of exact arithmetic does).
On a vector `_wheel_vel` of at least four entries, for every twist with
`linear.x = a`, `linear.y = b`, `angular.z = w`, with `a2 = fl(dl(a))`,
`b2 = fl(dl(b))`, `r = fl(ktheta * fl(w))` and `c = dl(180 / M_PI)`, whenever
the four values `dl(fl(r + fl(kv * fl(a2 - b2))) * c)`,
`dl(fl(r - fl(kv * fl(a2 + b2))) * c)`, `dl(fl(r + fl(kv * fl(a2 + b2))) * c)`,
`dl(fl(r + fl(kv * fl(b2 - a2))) * c)` truncate into `-32768 .. 32767`, the
first four entries after the call are these truncations, in the order FL, FR,
RL, RR (integers, the fractional part discarded), and the other entries are
kept.  The zero twist gives four zeros; a pure rotation in range gives four
times the same value. -/
theorem VelocityToWheel_spec (fl dl : ℝ → ℝ) (hfl : IsRounding fl) (hdl : IsRounding dl)
    (pi : ℝ) (wheel_vel : List ℝ) (hlen : 4 ≤ wheel_vel.length) :
    (∀ a b lz ax ay w : ℝ,
      (-32768 ≤ trunc (dl (fl (fl (ktheta fl dl * fl w) + fl (kv fl dl * fl (fl (dl a) - fl (dl b)))) * dl (180 / pi))) ∧
        trunc (dl (fl (fl (ktheta fl dl * fl w) + fl (kv fl dl * fl (fl (dl a) - fl (dl b)))) * dl (180 / pi))) ≤ 32767) →
      (-32768 ≤ trunc (dl (fl (fl (ktheta fl dl * fl w) - fl (kv fl dl * fl (fl (dl a) + fl (dl b)))) * dl (180 / pi))) ∧
        trunc (dl (fl (fl (ktheta fl dl * fl w) - fl (kv fl dl * fl (fl (dl a) + fl (dl b)))) * dl (180 / pi))) ≤ 32767) →
      (-32768 ≤ trunc (dl (fl (fl (ktheta fl dl * fl w) + fl (kv fl dl * fl (fl (dl a) + fl (dl b)))) * dl (180 / pi))) ∧
        trunc (dl (fl (fl (ktheta fl dl * fl w) + fl (kv fl dl * fl (fl (dl a) + fl (dl b)))) * dl (180 / pi))) ≤ 32767) →
      (-32768 ≤ trunc (dl (fl (fl (ktheta fl dl * fl w) + fl (kv fl dl * fl (fl (dl b) - fl (dl a)))) * dl (180 / pi))) ∧
        trunc (dl (fl (fl (ktheta fl dl * fl w) + fl (kv fl dl * fl (fl (dl b) - fl (dl a)))) * dl (180 / pi))) ≤ 32767) →
      AeroMoveBase.VelocityToWheel fl dl Real.cos Real.sin pi
          { linear := { x := a, y := b, z := lz }, angular := { x := ax, y := ay, z := w } }
          wheel_vel
        = some ([((trunc (dl (fl (fl (ktheta fl dl * fl w) + fl (kv fl dl * fl (fl (dl a) - fl (dl b)))) * dl (180 / pi))) : ℤ) : ℝ),
                ((trunc (dl (fl (fl (ktheta fl dl * fl w) - fl (kv fl dl * fl (fl (dl a) + fl (dl b)))) * dl (180 / pi))) : ℤ) : ℝ),
                ((trunc (dl (fl (fl (ktheta fl dl * fl w) + fl (kv fl dl * fl (fl (dl a) + fl (dl b)))) * dl (180 / pi))) : ℤ) : ℝ),
                ((trunc (dl (fl (fl (ktheta fl dl * fl w) + fl (kv fl dl * fl (fl (dl b) - fl (dl a)))) * dl (180 / pi))) : ℤ) : ℝ)]
                ++ wheel_vel.drop 4)) ∧
    (∀ lz ax ay : ℝ,
      AeroMoveBase.VelocityToWheel fl dl Real.cos Real.sin pi
          { linear := { x := 0, y := 0, z := lz }, angular := { x := ax, y := ay, z := 0 } }
          wheel_vel
        = some ([0, 0, 0, 0] ++ wheel_vel.drop 4)) ∧
    (∀ lz ax ay w : ℝ,
      (-32768 ≤ trunc (dl (fl (ktheta fl dl * fl w) * dl (180 / pi))) ∧
        trunc (dl (fl (ktheta fl dl * fl w) * dl (180 / pi))) ≤ 32767) →
      AeroMoveBase.VelocityToWheel fl dl Real.cos Real.sin pi
          { linear := { x := 0, y := 0, z := lz }, angular := { x := ax, y := ay, z := w } }
          wheel_vel
        = some ([((trunc (dl (fl (ktheta fl dl * fl w) * dl (180 / pi))) : ℤ) : ℝ),
                 ((trunc (dl (fl (ktheta fl dl * fl w) * dl (180 / pi))) : ℤ) : ℝ),
                 ((trunc (dl (fl (ktheta fl dl * fl w) * dl (180 / pi))) : ℤ) : ℝ),
                 ((trunc (dl (fl (ktheta fl dl * fl w) * dl (180 / pi))) : ℤ) : ℝ)]
                ++ wheel_vel.drop 4)) := by
  have main : ∀ a b lz ax ay w : ℝ,
      (-32768 ≤ trunc (dl (fl (fl (ktheta fl dl * fl w) + fl (kv fl dl * fl (fl (dl a) - fl (dl b)))) * dl (180 / pi))) ∧
        trunc (dl (fl (fl (ktheta fl dl * fl w) + fl (kv fl dl * fl (fl (dl a) - fl (dl b)))) * dl (180 / pi))) ≤ 32767) →
      (-32768 ≤ trunc (dl (fl (fl (ktheta fl dl * fl w) - fl (kv fl dl * fl (fl (dl a) + fl (dl b)))) * dl (180 / pi))) ∧
        trunc (dl (fl (fl (ktheta fl dl * fl w) - fl (kv fl dl * fl (fl (dl a) + fl (dl b)))) * dl (180 / pi))) ≤ 32767) →
      (-32768 ≤ trunc (dl (fl (fl (ktheta fl dl * fl w) + fl (kv fl dl * fl (fl (dl a) + fl (dl b)))) * dl (180 / pi))) ∧
        trunc (dl (fl (fl (ktheta fl dl * fl w) + fl (kv fl dl * fl (fl (dl a) + fl (dl b)))) * dl (180 / pi))) ≤ 32767) →
      (-32768 ≤ trunc (dl (fl (fl (ktheta fl dl * fl w) + fl (kv fl dl * fl (fl (dl b) - fl (dl a)))) * dl (180 / pi))) ∧
        trunc (dl (fl (fl (ktheta fl dl * fl w) + fl (kv fl dl * fl (fl (dl b) - fl (dl a)))) * dl (180 / pi))) ≤ 32767) →
      AeroMoveBase.VelocityToWheel fl dl Real.cos Real.sin pi
          { linear := { x := a, y := b, z := lz }, angular := { x := ax, y := ay, z := w } }
          wheel_vel
        = some ([((trunc (dl (fl (fl (ktheta fl dl * fl w) + fl (kv fl dl * fl (fl (dl a) - fl (dl b)))) * dl (180 / pi))) : ℤ) : ℝ),
                ((trunc (dl (fl (fl (ktheta fl dl * fl w) - fl (kv fl dl * fl (fl (dl a) + fl (dl b)))) * dl (180 / pi))) : ℤ) : ℝ),
                ((trunc (dl (fl (fl (ktheta fl dl * fl w) + fl (kv fl dl * fl (fl (dl a) + fl (dl b)))) * dl (180 / pi))) : ℤ) : ℝ),
                ((trunc (dl (fl (fl (ktheta fl dl * fl w) + fl (kv fl dl * fl (fl (dl b) - fl (dl a)))) * dl (180 / pi))) : ℤ) : ℝ)]
                ++ wheel_vel.drop 4) := by
    intro a b lz ax ay w hFL hFR hRL hRR
    rw [VelocityToWheel_eq fl dl hfl hdl]
    simp only [static_cast_int16_of_range _ hFL, static_cast_int16_of_range _ hFR,
      static_cast_int16_of_range _ hRL, static_cast_int16_of_range _ hRR, Option.some_bind,
      set_four _ hlen]
  obtain ⟨f0, f1, fneg, fid⟩ := hfl
  obtain ⟨d0, d1, dneg, did⟩ := hdl
  refine ⟨main, fun lz ax ay => ?_, fun lz ax ay w h => ?_⟩
  · have := main 0 0 lz ax ay 0
    simp only [mul_zero, add_zero, sub_zero, zero_mul, f0, d0, trunc_zero, Int.cast_zero]
      at this
    exact this (by norm_num) (by norm_num) (by norm_num) (by norm_num)
  · have := main 0 0 lz ax ay w
    simp only [mul_zero, add_zero, sub_zero, f0, d0, fid] at this
    exact this h h h h

/-- C28 (amended) with the roundings of `float` and `double`, at the twist with
`linear.x = 36.43359375` and the rest zero, on a vector of five entries. -/
theorem VelocityToWheel_spec_witness :
    IsRounding (binary 24 : ℝ → ℝ) ∧ IsRounding (binary 53 : ℝ → ℝ) ∧
    4 ≤ ([7, 7, 7, 7, 9] : List ℝ).length ∧
    AeroMoveBase.VelocityToWheel (binary 24) (binary 53) Real.cos Real.sin
        (binary 53 3.14159265358979323846)
        { linear := { x := 36.43359375, y := 0, z := 0 }, angular := { x := 0, y := 0, z := 0 } }
        [7, 7, 7, 7, 9]
      = some [27467, -27467, 27467, -27467, 9] := by
  refine ⟨isRounding_binary 24 (by norm_num), isRounding_binary 53 (by norm_num), by simp, ?_⟩
  have h := (VelocityToWheel_spec (binary 24) (binary 53) (isRounding_binary 24 (by norm_num))
    (isRounding_binary 53 (by norm_num)) (binary 53 3.14159265358979323846) [7, 7, 7, 7, 9]
    (by simp)).1 36.43359375 0 0 0 0 0
    (by rw [example_front_left]; norm_num) (by rw [example_front_right]; norm_num)
    (by rw [example_rear_left]; norm_num) (by rw [example_rear_right]; norm_num)
  rw [example_front_left, example_front_right, example_rear_left, example_rear_right] at h
  rw [h]
  norm_num

/-- C29: the zero-time branch of `Drift` is not reached through the dispatcher.
For every `(x, theta)` with `|x| >= 0.0001` and `|theta| >= 0.0001`, the inputs
for which `AeroMoveBase::Translate` selects `Drift`, the sine of the clamped
angle and the derived time are strictly positive, so `Drift` returns the
derived time, a strictly positive duration, and not the zero command. -/
theorem Drift_reachable_positive (x y theta : ℝ) (hx : 0.0001 ≤ |x|) (ht : 0.0001 ≤ |theta|) :
    AeroMoveBase.Translate Real.sin Real.arctan Real.sqrt Real.pi x y theta
      = AeroMoveBaseImpl.Drift Real.sin Real.sqrt Real.pi x theta ∧
    0 < Real.sin (min |theta| (Real.pi / 2)) ∧
    0 < min |theta| (Real.pi / 2) * 600 / (Real.pi * radius * max_velocity) *
        (|x| / Real.sin (min |theta| (Real.pi / 2)) + Real.sqrt 2 * Radius) ∧
    (AeroMoveBaseImpl.Drift Real.sin Real.sqrt Real.pi x theta).time
      = min |theta| (Real.pi / 2) * 600 / (Real.pi * radius * max_velocity) *
        (|x| / Real.sin (min |theta| (Real.pi / 2)) + Real.sqrt 2 * Radius) ∧
    0 < (AeroMoveBaseImpl.Drift Real.sin Real.sqrt Real.pi x theta).time ∧
    AeroMoveBaseImpl.Drift Real.sin Real.sqrt Real.pi x theta
      ≠ { velocities := [0, 0, 0, 0], time := 0 } := by
  have hne : theta ≠ 0 := by
    intro h
    rw [h, abs_zero] at ht
    norm_num at ht
  have hT := Drift_time_pos x theta hne
  have htime : (AeroMoveBaseImpl.Drift Real.sin Real.sqrt Real.pi x theta).time
      = min |theta| (Real.pi / 2) * 600 / (Real.pi * radius * max_velocity) *
        (|x| / Real.sin (min |theta| (Real.pi / 2)) + Real.sqrt 2 * Radius) := by
    simp only [AeroMoveBaseImpl.Drift, Drift_clamp_eq_min, if_neg (ne_of_gt hT)]
  refine ⟨?_, Drift_sin_pos theta hne, hT, htime, ?_, ?_⟩
  · simp only [AeroMoveBase.Translate, if_neg (not_lt.mpr ht), if_neg (not_lt.mpr hx)]
  · rw [htime]
    exact hT
  · intro h
    have h2 := congrArg wheels.time h
    rw [htime] at h2
    exact absurd h2 (ne_of_gt hT)

/-- C29 at `x = 1`, `theta = 1`. -/
theorem Drift_reachable_positive_witness :
    (0.0001 : ℝ) ≤ |1| ∧ (0.0001 : ℝ) ≤ |1| ∧
    0 < (AeroMoveBaseImpl.Drift Real.sin Real.sqrt Real.pi 1 1).time :=
  ⟨by norm_num, by norm_num,
    (Drift_reachable_positive 1 0 1 (by norm_num) (by norm_num)).2.2.2.2.1⟩

/-- C30: `Drift` never commands more than the speed limit.  For every `x` and
`theta` other than zero, with `t = min(|theta|, pi / 2)` and `time` the derived
time, the differential `2 * t * sqrt(2) * Radius * 300 / (radius * time * pi)`
is `max_velocity * sqrt(2) * Radius / (|x| / sin(t) + sqrt(2) * Radius)` and
lies strictly between `0` and `max_velocity`.  Every returned wheel velocity
has magnitude at most `max_velocity`: the two wheels of one side have magnitude
`max_velocity`, the two of the other side `max_velocity` minus the
differential, which is strictly between `0` and `max_velocity`. -/
theorem Drift_speed_bound (x theta : ℝ) (hx : x ≠ 0) (ht : theta ≠ 0) :
    2 * min |theta| (Real.pi / 2) * Real.sqrt 2 * Radius * 300 /
        (radius * (min |theta| (Real.pi / 2) * 600 / (Real.pi * radius * max_velocity) *
          (|x| / Real.sin (min |theta| (Real.pi / 2)) + Real.sqrt 2 * Radius)) * Real.pi)
      = max_velocity * (Real.sqrt 2 * Radius) /
          (|x| / Real.sin (min |theta| (Real.pi / 2)) + Real.sqrt 2 * Radius) ∧
    0 < max_velocity * (Real.sqrt 2 * Radius) /
          (|x| / Real.sin (min |theta| (Real.pi / 2)) + Real.sqrt 2 * Radius) ∧
    max_velocity * (Real.sqrt 2 * Radius) /
          (|x| / Real.sin (min |theta| (Real.pi / 2)) + Real.sqrt 2 * Radius) < max_velocity ∧
    0 < max_velocity - max_velocity * (Real.sqrt 2 * Radius) /
          (|x| / Real.sin (min |theta| (Real.pi / 2)) + Real.sqrt 2 * Radius) ∧
    max_velocity - max_velocity * (Real.sqrt 2 * Radius) /
          (|x| / Real.sin (min |theta| (Real.pi / 2)) + Real.sqrt 2 * Radius) < max_velocity ∧
    (∀ v ∈ (AeroMoveBaseImpl.Drift Real.sin Real.sqrt Real.pi x theta).velocities,
      |v| ≤ max_velocity) ∧
    (((AeroMoveBaseImpl.Drift Real.sin Real.sqrt Real.pi x theta).velocities.map fun v => |v|)
        = [max_velocity - max_velocity * (Real.sqrt 2 * Radius) /
              (|x| / Real.sin (min |theta| (Real.pi / 2)) + Real.sqrt 2 * Radius),
           max_velocity,
           max_velocity - max_velocity * (Real.sqrt 2 * Radius) /
              (|x| / Real.sin (min |theta| (Real.pi / 2)) + Real.sqrt 2 * Radius),
           max_velocity] ∨
      ((AeroMoveBaseImpl.Drift Real.sin Real.sqrt Real.pi x theta).velocities.map fun v => |v|)
        = [max_velocity,
           max_velocity - max_velocity * (Real.sqrt 2 * Radius) /
              (|x| / Real.sin (min |theta| (Real.pi / 2)) + Real.sqrt 2 * Radius),
           max_velocity,
           max_velocity - max_velocity * (Real.sqrt 2 * Radius) /
              (|x| / Real.sin (min |theta| (Real.pi / 2)) + Real.sqrt 2 * Radius)]) := by
  obtain ⟨h1, _⟩ := Drift_clamp_pos theta ht
  have h3 := Drift_sin_pos theta ht
  have h4 := Real.pi_pos
  have h5 : (0 : ℝ) < radius := radius_pos
  have h6 : (0 : ℝ) < Radius := Radius_pos
  have h7 : (0 : ℝ) < max_velocity := max_velocity_pos
  have h8 : 0 < Real.sqrt 2 := Real.sqrt_pos.mpr (by norm_num)
  have h9 : 0 < |x| / Real.sin (min |theta| (Real.pi / 2)) :=
    div_pos (abs_pos.mpr hx) h3
  have h10 : 0 < Real.sqrt 2 * Radius := mul_pos h8 h6
  generalize hS : |x| / Real.sin (min |theta| (Real.pi / 2)) = s at *
  generalize ht2 : min |theta| (Real.pi / 2) = t at *
  have hv : 2 * t * Real.sqrt 2 * Radius / (radius * (t * 600 / (Real.pi * radius * max_velocity) *
          (s + Real.sqrt 2 * Radius)) * Real.pi) * 300
      = max_velocity * (Real.sqrt 2 * Radius) / (s + Real.sqrt 2 * Radius) :=
    Drift_v_theta_closed t s (Real.sqrt 2) Radius radius max_velocity Real.pi h1 h9 h8 h6 h5 h4
  have hT : 0 < t * 600 / (Real.pi * radius * max_velocity) * (s + Real.sqrt 2 * Radius) := by
    positivity
  generalize hvt : max_velocity * (Real.sqrt 2 * Radius) / (s + Real.sqrt 2 * Radius) = vt at *
  have hvpos : 0 < vt := by
    rw [← hvt]
    positivity
  have hvlt : vt < max_velocity := by
    rw [← hvt, div_lt_iff₀ (by positivity)]
    nlinarith
  have hvel : (AeroMoveBaseImpl.Drift Real.sin Real.sqrt Real.pi x theta).velocities
      = if theta ≥ 0 then
          if x ≥ 0 then [-(vt - max_velocity), -max_velocity, -(vt - max_velocity), -max_velocity]
          else [-max_velocity, -(vt - max_velocity), -max_velocity, -(vt - max_velocity)]
        else
          if x ≤ 0 then [vt - max_velocity, max_velocity, vt - max_velocity, max_velocity]
          else [max_velocity, vt - max_velocity, max_velocity, vt - max_velocity] := by
    simp only [AeroMoveBaseImpl.Drift, Drift_clamp_eq_min, ht2, hS, if_neg (ne_of_gt hT), hv]
  have a1 : |vt - max_velocity| = max_velocity - vt := by
    rw [abs_of_neg (by linarith)]
    ring
  have a2 : |max_velocity| = (max_velocity : ℝ) := abs_of_pos h7
  refine ⟨?_, hvpos, hvlt, by linarith, by linarith, ?_, ?_⟩
  · rw [← hv]
    ring
  · intro v hmem
    rw [hvel] at hmem
    have b1 : |vt - max_velocity| ≤ max_velocity := by
      rw [a1]
      linarith
    split_ifs at hmem <;>
      simp only [List.mem_cons, List.mem_singleton, List.not_mem_nil, or_false] at hmem <;>
      rcases hmem with h | h | h | h <;> rw [h] <;>
      simp only [abs_neg, a2, le_refl, b1]
  · rw [hvel]
    split_ifs <;>
      simp only [List.map_cons, List.map_nil, abs_neg, a1, a2, true_or, or_true]

/-- C30 at `x = 1`, `theta = 1`. -/
theorem Drift_speed_bound_witness :
    (1 : ℝ) ≠ 0 ∧ (1 : ℝ) ≠ 0 ∧
    ∀ v ∈ (AeroMoveBaseImpl.Drift Real.sin Real.sqrt Real.pi 1 1).velocities,
      |v| ≤ max_velocity :=
  ⟨one_ne_zero, one_ne_zero, (Drift_speed_bound 1 1 one_ne_zero one_ne_zero).2.2.2.2.2.1⟩

end navigation
